import Mathlib

/-! Verification of turtleRenderer: the pixel-grid rasteriser and the WaveFront loader.

A shallow embedding of `RasterMap` (src/src/drawableobjects.cpp, section 2.5) and of
`WFLoader` (src/src/wf_loader.cpp), followed by theorems about them.

Conventions of the embedding:

* C++ `int` is `Int`; the coordinates handled here are small and signed overflow
  (undefined in C++) is not modelled.
* `GLfloat` is the IEEE 754 binary32 format and `double` binary64, with the default
  rounding to nearest, ties to even. In `drawLine` the rounding of an operation decides
  which pixel is plotted, so every operation on its `float` locals is rounded
  (`Ieee.binary32`, `Ieee.binary64`); a float is the rational it denotes. Elsewhere (the
  colour sums of `superSample`, the decision variable of `drawCircle`, the numbers of the
  loader) values are the exact rationals; `floor` is the integer floor.
* The raster `Color4f **m_RasterMap` is a map from a column index and a row index to a
  colour, together with the extents `m_GridWidth` and `m_GridHeight` that were allocated.
  A read outside the allocated extents is undefined behaviour in C++; here it is a
  checked read that yields `none`.
* The OpenGL calls (`glColor4f`, `glBegin`, `glVertex3f`, ...) hand a quad to the
  presentation layer and touch no field of the object; they are left out.
-/

set_option autoImplicit false

/-! ## IEEE 754 rounding -/

namespace Ieee

/-- The number of binary digits of `n`, counted with `fuel` halvings at most. -/
def bitLength : Nat → Nat → Nat
  | 0, _ => 0
  | fuel + 1, n => if n = 0 then 0 else bitLength fuel (n / 2) + 1

/-- The exponent `e` with `2 ^ e <= n / d < 2 ^ (e + 1)`, for positive `n` and `d`: with
`k` the difference of the numbers of binary digits, `n / d` lies between `2 ^ (k - 1)` and
`2 ^ (k + 1)`, and one comparison tells which of `k - 1` and `k` it is. -/
def exponent (n d : Nat) : Int :=
  let k : Int := (bitLength n n : Int) - (bitLength d d : Int)
  if 0 ≤ k then (if d * 2 ^ k.toNat ≤ n then k else k - 1)
  else (if d ≤ n * 2 ^ (-k).toNat then k else k - 1)

/-- The integer nearest to `N / D`, the even one of the two when `N / D` lies half way. -/
def nearestEven (N D : Nat) : Nat :=
  if 2 * (N % D) < D then N / D
  else if D < 2 * (N % D) then N / D + 1
  else if (N / D) % 2 = 0 then N / D else N / D + 1

/-- Rounding of the non-negative rational `n / d` to a binary floating-point format with
`p` significand bits and least quantum `2 ^ qmin`: the multiple of the quantum `2 ^ s`,
`s = max (e - (p - 1)) qmin`, nearest to `n / d`, ties to even. -/
def roundPos (p : Nat) (qmin : Int) (n d : Nat) : Rat :=
  if n = 0 then 0
  else
    let s : Int := max (exponent n d - ((p : Int) - 1)) qmin
    if 0 ≤ s then ((nearestEven n (d * 2 ^ s.toNat) * 2 ^ s.toNat : Nat) : Rat)
    else ((nearestEven (n * 2 ^ (-s).toNat) d : Nat) : Rat) / ((2 ^ (-s).toNat : Nat) : Rat)

/-- Rounding to nearest, ties to even, in a binary format with `p` significand bits and
least quantum `2 ^ qmin`. The exponent has no upper bound here: overflow to an infinity
does not arise from operands made of `int` values and is not modelled. -/
def round (p : Nat) (qmin : Int) (q : Rat) : Rat :=
  if q < 0 then -(roundPos p qmin q.num.natAbs q.den) else roundPos p qmin q.num.natAbs q.den

/-- Rounding to `float` (binary32: 24 significand bits, least quantum `2 ^ -149`). -/
def binary32 (q : Rat) : Rat := round 24 (-149) q

/-- Rounding to `double` (binary64: 53 significand bits, least quantum `2 ^ -1074`). -/
def binary64 (q : Rat) : Rat := round 53 (-1074) q

end Ieee

/-! ## Data model (src/src/renderer.h) -/

/-- Four floats `r`, `g`, `b`, `a` (renderer.h, 2.2). -/
structure Color4f where
  r : Rat
  g : Rat
  b : Rat
  a : Rat
deriving DecidableEq

/-- The default constructor `Color4f() : r(0), g(0), b(0), a(1.0)`. -/
def Color4f.default : Color4f := ⟨0, 0, 0, 1⟩

/-- State of a `RasterMap` object (drawableobjects.h, 4.5). -/
structure RasterMap where
  m_GridWidth : Int
  m_GridHeight : Int
  m_PixelSize : Rat
  m_Color : Color4f
  m_RasterMap : Int → Int → Color4f

namespace RasterMap

/-- The colour every cell receives in the constructor: `Color4f( 73, 74, 74, 255 )`. -/
def initialColor : Color4f := ⟨73, 74, 74, 255⟩

/-- Constructor `RasterMap::RasterMap( width, height, pixelSize )`: every allocated cell is
set to `Color4f( 73, 74, 74, 255 )`; `m_Color` is default-constructed. -/
def new (width height : Int) (pixelSize : Rat) : RasterMap :=
  { m_GridWidth := width
    m_GridHeight := height
    m_PixelSize := pixelSize
    m_Color := Color4f.default
    m_RasterMap := fun _ _ => initialColor }

/-- Inline setter `setColor( color ) { m_Color = color; }`. -/
def setColor (g : RasterMap) (color : Color4f) : RasterMap :=
  { g with m_Color := color }

/-- The assignment `m_RasterMap[x][y] = color`. -/
def store (g : RasterMap) (x y : Int) (color : Color4f) : RasterMap :=
  { g with m_RasterMap := fun i j => if i = x ∧ j = y then color else g.m_RasterMap i j }

/-- The function `RasterMap::drawPixel( x, y, color )`: clipped when
`x < 0 || x > m_GridWidth - 1 || y < 0 || y > m_GridHeight - 1`, otherwise the cell is
stored (and a quad is handed to OpenGL). -/
def drawPixel (g : RasterMap) (x y : Int) (color : Color4f) : RasterMap :=
  if x < 0 ∨ x > g.m_GridWidth - 1 ∨ y < 0 ∨ y > g.m_GridHeight - 1 then g
  else g.store x y color

/-- The two clamping statements of `superSample` on one axis:
`if( t < 0 ) t = 0; if( t >= extent ) t = centre;` executed in this order. -/
def clampSample (extent centre t : Int) : Int :=
  let t0 := if t < 0 then 0 else t
  if t0 ≥ extent then centre else t0

/-- The pair `(tX, tY)` that `superSample( x, y )` computes for the loop indices
`iX`, `iY`. -/
def sampleIndex (g : RasterMap) (x y iX iY : Int) : Int × Int :=
  (clampSample g.m_GridWidth x (x + iX), clampSample g.m_GridHeight y (y + iY))

/-- Checked read of `m_RasterMap[tX][tY]`: `none` outside the allocated extents. -/
def readCell (g : RasterMap) (p : Int × Int) : Option Color4f :=
  if 0 ≤ p.1 ∧ p.1 < g.m_GridWidth ∧ 0 ≤ p.2 ∧ p.2 < g.m_GridHeight then
    some (g.m_RasterMap p.1 p.2)
  else none

/-- The entry `colorGrid[iX+1][iY+1] = m_RasterMap[tX][tY]` of `superSample( x, y )`. -/
def colorGrid (g : RasterMap) (x y iX iY : Int) : Option Color4f :=
  readCell g (sampleIndex g x y iX iY)

/-- The block `Calculate color values.` of `superSample`: the weighted sums `r`, `g`, `b`
over `colorGrid`, each divided by 16, and the colour `Color4f( r, g, b, 1.0 )` made of them.
The argument `cIJ` is `colorGrid[I][J]`. -/
def weigh (c00 c01 c02 c10 c11 c12 c20 c21 c22 : Color4f) : Color4f :=
  let r : Rat := c00.r + 2 * c10.r + c20.r + 2 * c01.r + 4 * c11.r + 2 * c21.r
    + c02.r + 2 * c12.r + c22.r
  let g : Rat := c00.g + 2 * c10.g + c20.g + 2 * c01.g + 4 * c11.g + 2 * c21.g
    + c02.g + 2 * c12.g + c22.g
  let b : Rat := c00.b + 2 * c10.b + c20.b + 2 * c01.b + 4 * c11.b + 2 * c21.b
    + c02.b + 2 * c12.b + c22.b
  ⟨r / 16, g / 16, b / 16, 1⟩

/-- The function `RasterMap::superSample( x, y )`: reads the 3x3 neighbourhood (the loops
run `iX = -1, 0, 1` outside and `iY = -1, 0, 1` inside), forms the weighted sums, divides
by 16 and draws the pixel with alpha `1.0`. The result is `none` when a read leaves the
allocated raster. -/
def superSample (g : RasterMap) (x y : Int) : Option RasterMap := do
  let c00 ← colorGrid g x y (-1) (-1)
  let c01 ← colorGrid g x y (-1) 0
  let c02 ← colorGrid g x y (-1) 1
  let c10 ← colorGrid g x y 0 (-1)
  let c11 ← colorGrid g x y 0 0
  let c12 ← colorGrid g x y 0 1
  let c20 ← colorGrid g x y 1 (-1)
  let c21 ← colorGrid g x y 1 0
  let c22 ← colorGrid g x y 1 1
  pure (drawPixel g x y (weigh c00 c01 c02 c10 c11 c12 c20 c21 c22))

/-- A call issued by `drawLine` or `drawCircle` on the object itself. -/
inductive Call where
  | pixel (x y : Int) (color : Color4f)
  | sample (x y : Int)
deriving DecidableEq

/-- Whether a call is a `drawPixel` call. -/
def Call.isPixel : Call → Bool
  | .pixel _ _ _ => true
  | .sample _ _ => false

/-- Performing one call: `drawPixel( x, y, color )` or `superSample( x, y )`. -/
def exec (g : RasterMap) : Call → Option RasterMap
  | .pixel x y color => some (g.drawPixel x y color)
  | .sample x y => g.superSample x y

/-- Performing calls one after the other, as the statements of a loop body do; the
sequence stops with `none` at a call whose read leaves the raster. -/
def run : List Call → RasterMap → Option RasterMap
  | [], g => some g
  | c :: cs, g => (exec g c).bind (run cs)

/-- The slope `GLfloat m = ( GLfloat )( y1 - y0 ) / ( GLfloat )( x1 - x0 )` of `drawLine`:
the two `int` differences are converted to `float` and divided in `float`. -/
def slope (x0 y0 x1 y1 : Int) : Rat :=
  Ieee.binary32
    (Ieee.binary32 ((y1 - y0 : Int) : Rat) / Ieee.binary32 ((x1 - x0 : Int) : Rat))

/-- The expression `floor( v + 0.5 )` for a `float` `v`: the constant is a `double`, so the
sum is formed in `double`; the result is converted to the `int` parameter. -/
def roundHalfUp (v : Rat) : Int := ⌊Ieee.binary64 (v + 1 / 2)⌋

/-- The first loop of `drawLine`, `for( ix = x0; ix <= x1; ix++ )`, from the state
`(ix, y)`: each round issues `drawPixel( ix, floor( y + 0.5 ), m_Color )`,
`superSample( ix, floor( y + 0.5 ) - 1 )`, `superSample( ix, floor( y + 0.5 ) + 1 )` and
then `y += m`, an addition of two `float`s that is stored in a `float`. -/
def lineLoopX (color : Color4f) (x1 : Int) (m : Rat) : Nat → Int → Rat → List Call
  | 0, _, _ => []
  | fuel + 1, ix, y =>
    if ix ≤ x1 then
      Call.pixel ix (roundHalfUp y) color :: Call.sample ix (roundHalfUp y - 1)
        :: Call.sample ix (roundHalfUp y + 1)
        :: lineLoopX color x1 m fuel (ix + 1) (Ieee.binary32 (y + m))
    else []

/-- The second loop of `drawLine`, `for( iy = y0; iy <= y1; iy++ )`, from the state
`(iy, x)`: each round issues `drawPixel( floor( x + 0.5 ), iy, m_Color )`,
`superSample( floor( x + 0.5 ) - 1, iy )`, `superSample( floor( x + 0.5 ) + 1, iy )` and
then `x += (1.0 / m)`: the quotient and the sum are formed in `double`, and the sum is
stored in the `float` `x`. -/
def lineLoopY (color : Color4f) (y1 : Int) (m : Rat) : Nat → Int → Rat → List Call
  | 0, _, _ => []
  | fuel + 1, iy, x =>
    if iy ≤ y1 then
      Call.pixel (roundHalfUp x) iy color :: Call.sample (roundHalfUp x - 1) iy
        :: Call.sample (roundHalfUp x + 1) iy
        :: lineLoopY color y1 m fuel (iy + 1)
          (Ieee.binary32 (Ieee.binary64 (x + Ieee.binary64 (1 / m))))
    else []

/-- The `float` `y` of the first loop of `drawLine` after `k` rounds that started with
`y`. -/
def lineY (m : Rat) : Nat → Rat → Rat
  | 0, y => y
  | k + 1, y => lineY m k (Ieee.binary32 (y + m))

/-- The `float` `x` of the second loop of `drawLine` after `k` rounds that started with
`x`. -/
def lineX (m : Rat) : Nat → Rat → Rat
  | 0, x => x
  | k + 1, x => lineX m k (Ieee.binary32 (Ieee.binary64 (x + Ieee.binary64 (1 / m))))

/-- The three calls of round `k` (counted from 0) of the first loop of `drawLine`, when the
loop starts in column `x0` with the `float` `y`. -/
def roundX (color : Color4f) (x0 : Int) (y m : Rat) (k : Nat) : List Call :=
  [ Call.pixel (x0 + k) (roundHalfUp (lineY m k y)) color,
    Call.sample (x0 + k) (roundHalfUp (lineY m k y) - 1),
    Call.sample (x0 + k) (roundHalfUp (lineY m k y) + 1) ]

/-- The three calls of round `k` (counted from 0) of the second loop of `drawLine`, when
the loop starts in row `y0` with the `float` `x`. -/
def roundY (color : Color4f) (y0 : Int) (x m : Rat) (k : Nat) : List Call :=
  [ Call.pixel (roundHalfUp (lineX m k x)) (y0 + k) color,
    Call.sample (roundHalfUp (lineX m k x) - 1) (y0 + k),
    Call.sample (roundHalfUp (lineX m k x) + 1) (y0 + k) ]

/-- The calls `drawLine( x0, y0, x1, y1 )` issues, in order, with `m_Color = color`. The
locals `GLfloat y = y0, x = x0` are the `int` arguments converted to `float`. The branch is
chosen by `if( m <= 1 )`. Each loop gets as many rounds of fuel as its counter has values
to run through. For `x1 = x0` the float quotient is an infinity or a NaN, which the
rationals do not represent: the result is `none`. -/
def drawLineCalls (color : Color4f) (x0 y0 x1 y1 : Int) : Option (List Call) :=
  if x1 = x0 then none
  else
    let m := slope x0 y0 x1 y1
    if m ≤ 1 then
      some (lineLoopX color x1 m (x1 + 1 - x0).toNat x0 (Ieee.binary32 (y0 : Rat)))
    else some (lineLoopY color y1 m (y1 + 1 - y0).toNat y0 (Ieee.binary32 (x0 : Rat)))

/-- The function `RasterMap::drawLine( x0, y0, x1, y1 )`: the calls of `drawLineCalls`
performed on the object. -/
def drawLine (g : RasterMap) (x0 y0 x1 y1 : Int) : Option RasterMap :=
  (drawLineCalls g.m_Color x0 y0 x1 y1).bind (fun cs => run cs g)

/-- The local variables `x`, `y`, `deltaE`, `deltaSE`, `decision` of `drawCircle`. -/
structure CircleState where
  x : Int
  y : Int
  deltaE : Int
  deltaSE : Int
  decision : Rat
deriving DecidableEq

/-- The initialisation of `drawCircle`: `x = 0`, `y = R`, `deltaE = 2 * x + 3`,
`deltaSE = 2 * ( x - y ) + 5`,
`decision = ( x+1 ) * ( x+1 ) + ( y-0.5 ) * ( y-0.5 ) - R * R`. -/
def circleInit (R : Int) : CircleState :=
  { x := 0
    y := R
    deltaE := 2 * 0 + 3
    deltaSE := 2 * (0 - R) + 5
    decision := ((0 + 1) * (0 + 1) : Int) + ((R : Rat) - 1 / 2) * ((R : Rat) - 1 / 2)
      - ((R * R : Int) : Rat) }

/-- One round of the `while( y > x )` loop of `drawCircle`, up to `x++`. -/
def circleStep (s : CircleState) : CircleState :=
  let s1 : CircleState :=
    if s.decision < 0 then { s with decision := s.decision + s.deltaE }
    else { s with y := s.y - 1, decision := s.decision + s.deltaSE, deltaSE := s.deltaSE + 2 }
  { s1 with deltaSE := s1.deltaSE + 2, deltaE := s1.deltaE + 2, x := s1.x + 1 }

/-- The eight `drawPixel` calls that close a round of the loop of `drawCircle`, with the
arguments as the source writes them. -/
def octantCalls (color : Color4f) (x0 y0 x y : Int) : List Call :=
  [ Call.pixel (x0 + x) (y0 + y) color,
    Call.pixel (x0 + x) (y0 - y) color,
    Call.pixel (x0 - x) (y0 - y) color,
    Call.pixel (x0 - x) (y0 + y) color,
    Call.pixel (x0 + y) (y0 + x) color,
    Call.pixel (x0 + y) (x0 - x) color,
    Call.pixel (x0 - y) (x0 - x) color,
    Call.pixel (x0 - y) (x0 + x) color ]

/-- The four `drawPixel` calls under the comment `Starting pixels.` of `drawCircle`. -/
def startCalls (color : Color4f) (x0 y0 R : Int) : List Call :=
  [ Call.pixel x0 (y0 + R) color,
    Call.pixel (x0 + R) y0 color,
    Call.pixel x0 (y0 - R) color,
    Call.pixel (x0 - R) y0 color ]

/-- The loop `while( y > x )` of `drawCircle` from the state `s`. -/
def circleLoop (color : Color4f) (x0 y0 : Int) : Nat → CircleState → List Call
  | 0, _ => []
  | fuel + 1, s =>
    if s.y > s.x then
      octantCalls color x0 y0 (circleStep s).x (circleStep s).y
        ++ circleLoop color x0 y0 fuel (circleStep s)
    else []

/-- The calls `drawCircle( x0, y0, R )` issues, in order, with `m_Color = color`. The
difference `y - x` starts at `R` and drops in every round, so `R` rounds of fuel are
enough. -/
def drawCircleCalls (color : Color4f) (x0 y0 R : Int) : List Call :=
  startCalls color x0 y0 R ++ circleLoop color x0 y0 R.toNat (circleInit R)

/-- The function `RasterMap::drawCircle( x0, y0, R )`: the calls of `drawCircleCalls`
performed on the object. -/
def drawCircle (g : RasterMap) (x0 y0 R : Int) : Option RasterMap :=
  run (drawCircleCalls g.m_Color x0 y0 R) g

/-- Whether every `superSample` call of the list is made at a column below `w` and a row
below `h`. -/
def samplesBelow (w h : Int) : List Call → Bool
  | [] => true
  | Call.pixel _ _ _ :: cs => samplesBelow w h cs
  | Call.sample x y :: cs => decide (x < w) && decide (y < h) && samplesBelow w h cs

/-- The states of the locals `x`, `y`, `deltaE`, `deltaSE`, `decision` at the end of the
rounds of the loop `while( y > x )` of `drawCircle` from the state `s`, in order: each is
the state in which the eight pixels of its round are drawn. -/
def circleRounds : Nat → CircleState → List CircleState
  | 0, _ => []
  | fuel + 1, s =>
    if s.y > s.x then circleStep s :: circleRounds fuel (circleStep s) else []

end RasterMap

/-! ## Data model of the loader (src/src/renderer.h) -/

/-- Three floats `x`, `y`, `z` (renderer.h, 2.1). -/
structure Vector3f where
  x : Rat
  y : Rat
  z : Rat
deriving DecidableEq

/-- The geometry container `ModelData` (renderer.h, 2.3); a `std::vector` is a list,
`push_back` appends at the end. -/
structure ModelData where
  vertices : List Vector3f
  normals : List Vector3f
  textureCoords : List Vector3f
  vertexFaces : List Int
  normalFaces : List Int
  textureFaces : List Int
  isSmoothShaded : Bool
deriving DecidableEq

/-- The record `MaterialData` (renderer.h, 2.4). -/
structure MaterialData where
  ambient : Color4f
  diffuse : Color4f
  specular : Color4f
  emission : Color4f
  shininess : Rat
deriving DecidableEq

/-- The enumeration `MaterialManager::MaterialAttribute`. -/
inductive MaterialAttribute where
  | MAT_AMBIENT
  | MAT_DIFFUSE
  | MAT_SPECULAR
  | MAT_EMISSION
  | MAT_SHININESS
deriving DecidableEq

/-- The singleton `MaterialManager` (renderer.h, 4.2): its `std::map< std::string,
MaterialData > m_Materials`, kept as an association list with at most one entry per key. -/
structure MaterialManager where
  m_Materials : List (List Char × MaterialData)
deriving DecidableEq

namespace MaterialManager

/-- The lookup `m_Materials.find( std::string( name ) )`. -/
def find (m : MaterialManager) (name : List Char) : Option MaterialData :=
  m.m_Materials.lookup name

/-- The function `MaterialManager::addMaterial( name, data )`:
`m_Materials.insert( MaterialPair( name, data ) )`. A `std::map::insert` stores the pair
only when the key is not in the map yet. -/
def addMaterial (m : MaterialManager) (name : List Char) (data : MaterialData) :
    MaterialManager :=
  match m.find name with
  | some _ => m
  | none => { m_Materials := m.m_Materials ++ [(name, data)] }

/-- The `switch( attr )` of `setValue` on the entry found. -/
def assign (d : MaterialData) (attr : MaterialAttribute) (color : Color4f) : MaterialData :=
  match attr with
  | .MAT_AMBIENT => { d with ambient := color }
  | .MAT_DIFFUSE => { d with diffuse := color }
  | .MAT_SPECULAR => { d with specular := color }
  | .MAT_EMISSION => { d with emission := color }
  | .MAT_SHININESS => { d with shininess := color.r }

/-- The function `MaterialManager::setValue( matName, attr, color )`: assigns the attribute
of the entry named `matName` when there is one, and does nothing otherwise. -/
def setValue (m : MaterialManager) (matName : List Char) (attr : MaterialAttribute)
    (color : Color4f) : MaterialManager :=
  { m_Materials := m.m_Materials.map
      (fun p => if p.1 = matName then (p.1, assign p.2 attr color) else p) }

/-- What a call of `getMaterial` hands back: a reference to the entry found in the map, or
a reference to the local `dummy`. The lifetime of `dummy` ends when the function returns,
so the second reference dangles as soon as the caller holds it: it designates no object. -/
inductive MaterialRef where
  | entry (d : MaterialData)
  | dangling
deriving DecidableEq

/-- Reading the material through the reference after the call: an entry of the map can be
read; reading through the dangling reference is undefined (`none`). -/
def MaterialRef.read : MaterialRef → Option MaterialData
  | .entry d => some d
  | .dangling => none

/-- The function `MaterialManager::getMaterial( name )`: the reference returned, and the
state of the manager afterwards. `find` does not insert, so the map is left as it is. When
the name is not found, the function returns a reference to its local
`MaterialData dummy`. -/
def getMaterial (m : MaterialManager) (name : List Char) : MaterialRef × MaterialManager :=
  match m.find name with
  | some d => (MaterialRef.entry d, m)
  | none => (MaterialRef.dangling, m)

end MaterialManager

/-! ## The C library's `sscanf`, as far as the loader uses it -/

namespace Scanf

/-- The predicate `isspace` of the "C" locale. -/
def isSpace (c : Char) : Bool :=
  c = ' ' || c = '\t' || c = '\n' || c = '\r' || c = Char.ofNat 11 || c = Char.ofNat 12

/-- Skipping input white space. -/
def skipSpace (s : List Char) : List Char := s.dropWhile isSpace

/-- A directive of a format string. -/
inductive Dir where
  /-- White space in the format: skips any amount of input white space. -/
  | space
  /-- The directive `%s` (`store = true`) or `%*s` (`store = false`). -/
  | str (store : Bool)
  /-- The directive `%f`. -/
  | float
  /-- The directive `%d`. -/
  | int
  /-- The directive `%*c` (`n = 1`) or `%*2c` (`n = 2`). -/
  | chars (n : Nat)
deriving DecidableEq

/-- A converted and assigned input item. -/
inductive Val where
  | str (s : List Char)
  | float (q : Rat)
  | int (z : Int)
deriving DecidableEq

/-- The value of a decimal digit. -/
def digitVal (c : Char) : Nat := c.toNat - 48

/-- The value of a sequence of decimal digits. -/
def natOfDigits (ds : List Char) : Nat := ds.foldl (fun n c => 10 * n + digitVal c) 0

/-- An optional sign: whether it is a minus, and the rest of the input. -/
def scanSign : List Char → Bool × List Char
  | '-' :: cs => (true, cs)
  | '+' :: cs => (false, cs)
  | cs => (false, cs)

/-- The input item of `%s`: leading white space skipped, then the longest run of
non-white-space characters; the directive fails when there is none. -/
def scanStr (s : List Char) : Option (List Char × List Char) :=
  let s1 := skipSpace s
  let tok := s1.takeWhile (fun c => !isSpace c)
  if tok = [] then none else some (tok, s1.dropWhile (fun c => !isSpace c))

/-- The input item of `%d`: leading white space skipped, an optional sign and decimal
digits; the directive fails when there is no digit. -/
def scanInt (s : List Char) : Option (Int × List Char) :=
  let s1 := skipSpace s
  let sg := scanSign s1
  let ds := sg.2.takeWhile Char.isDigit
  if ds = [] then none
  else some (if sg.1 then -(natOfDigits ds : Int) else (natOfDigits ds : Int),
    sg.2.dropWhile Char.isDigit)

/-- The exponent part of a float: absent (exponent 0), or `e`/`E`, an optional sign and
digits; an `e` without digits makes the item a proper prefix of a number and the directive
fails. -/
def scanExp (s : List Char) : Option (Int × List Char) :=
  match s with
  | [] => some (0, [])
  | c :: cs =>
    if c = 'e' ∨ c = 'E' then
      let sg := scanSign cs
      let ds := sg.2.takeWhile Char.isDigit
      if ds = [] then none
      else some (if sg.1 then -(natOfDigits ds : Int) else (natOfDigits ds : Int),
        sg.2.dropWhile Char.isDigit)
    else some (0, c :: cs)

/-- The number `mant * 10 ^ e`. -/
def scale (mant : Rat) (e : Int) : Rat :=
  if 0 ≤ e then mant * (10 : Rat) ^ e.toNat else mant / (10 : Rat) ^ (-e).toNat

/-- The input item of `%f`, decimal form: leading white space skipped, an optional sign,
digits with an optional point (at least one digit), an optional exponent. The value is
the exact value of the literal. Hexadecimal floats, infinities and NaNs are not values of
exact arithmetic and are outside the model. -/
def scanFloat (s : List Char) : Option (Rat × List Char) :=
  let s1 := skipSpace s
  let sg := scanSign s1
  let ip := sg.2.takeWhile Char.isDigit
  let s3 := sg.2.dropWhile Char.isDigit
  let fr : List Char × List Char :=
    match s3 with
    | '.' :: cs => (cs.takeWhile Char.isDigit, cs.dropWhile Char.isDigit)
    | _ => ([], s3)
  if ip = [] ∧ fr.1 = [] then none
  else
    match scanExp fr.2 with
    | none => none
    | some (e, s5) =>
      let v := scale ((natOfDigits (ip ++ fr.1) : Rat) / (10 : Rat) ^ fr.1.length) e
      some (if sg.1 then -v else v, s5)

/-- The call `sscanf( input, format, ... )`: the items converted and assigned, in order.
Conversion stops at the first directive that fails; the pointer arguments beyond the
items returned are left untouched. -/
def sscanf : List Dir → List Char → List Val
  | [], _ => []
  | Dir.space :: ds, s => sscanf ds (skipSpace s)
  | Dir.str store :: ds, s =>
    match scanStr s with
    | none => []
    | some (tok, rest) => if store then Val.str tok :: sscanf ds rest else sscanf ds rest
  | Dir.float :: ds, s =>
    match scanFloat s with
    | none => []
    | some (q, rest) => Val.float q :: sscanf ds rest
  | Dir.int :: ds, s =>
    match scanInt s with
    | none => []
    | some (z, rest) => Val.int z :: sscanf ds rest
  | Dir.chars n :: ds, s => if s.length < n then [] else sscanf ds (s.drop n)

/-- The float left in the `i`-th pointer argument: the item assigned to it, or the old
content `old` when conversion stopped before it. -/
def argFloat (vals : List Val) (i : Nat) (old : Rat) : Rat :=
  match vals.get? i with
  | some (Val.float q) => q
  | _ => old

/-- The int left in the `i`-th pointer argument. -/
def argInt (vals : List Val) (i : Nat) (old : Int) : Int :=
  match vals.get? i with
  | some (Val.int z) => z
  | _ => old

/-- The string left in a `char[cap]` buffer that is the first pointer argument of a `%s`:
the token when one was assigned, the old content otherwise; `none` when the token and
its terminator do not fit into the buffer (the write runs past its end). -/
def argStr (vals : List Val) (cap : Nat) (old : List Char) : Option (List Char) :=
  match vals.get? 0 with
  | some (Val.str tok) => if tok.length < cap then some tok else none
  | _ => some old

/-- The format `"%s"`. -/
def fmtS : List Dir := [Dir.str true]

/-- The format `"%*s %s"`. -/
def fmtSkipS : List Dir := [Dir.str false, Dir.space, Dir.str true]

/-- The format `"%*s %f %f %f"`. -/
def fmtFFF : List Dir :=
  [Dir.str false, Dir.space, Dir.float, Dir.space, Dir.float, Dir.space, Dir.float]

/-- The format `"%*s %f %f"`. -/
def fmtFF : List Dir := [Dir.str false, Dir.space, Dir.float, Dir.space, Dir.float]

/-- The format `"%*s %f"`. -/
def fmtF : List Dir := [Dir.str false, Dir.space, Dir.float]

/-- The format `"%*c %d"`. -/
def fmtCD : List Dir := [Dir.chars 1, Dir.space, Dir.int]

/-- The format `"%*c %s"`. -/
def fmtCS : List Dir := [Dir.chars 1, Dir.space, Dir.str true]

/-- The format `"%*c %d%*2c%d %d%*2c%d %d%*2c%d"`. -/
def fmtVN : List Dir :=
  [Dir.chars 1, Dir.space, Dir.int, Dir.chars 2, Dir.int, Dir.space, Dir.int, Dir.chars 2,
    Dir.int, Dir.space, Dir.int, Dir.chars 2, Dir.int]

/-- The format `"%*c %d%*c%d%*c%d %d%*c%d%*c%d %d%*c%d%*c%d"`. -/
def fmtVTN : List Dir :=
  [Dir.chars 1, Dir.space, Dir.int, Dir.chars 1, Dir.int, Dir.chars 1, Dir.int, Dir.space,
    Dir.int, Dir.chars 1, Dir.int, Dir.chars 1, Dir.int, Dir.space,
    Dir.int, Dir.chars 1, Dir.int, Dir.chars 1, Dir.int]

end Scanf

/-! ## The loader (src/src/wf_loader.cpp) -/

/-- The contents of the locals that the parsing functions declare without an initialiser
(`float x, y, z`, `v2`, `v3`, `t2`, `t3`, `n2`, `n3` in `parseObjectFile`; `float r, g, b`
and `matData.shininess` in `parseMaterialFile`). They are indeterminate in C++; the
embedding takes them as given and every theorem holds for all of them. -/
structure Junk where
  x : Rat
  y : Rat
  z : Rat
  v2 : Int
  v3 : Int
  t2 : Int
  t3 : Int
  n2 : Int
  n3 : Int
  r : Rat
  g : Rat
  b : Rat
  shininess : Rat

/-- The members of a `WFLoader` object (wf_loader.h). -/
structure WFLoader where
  m_LoadedData : ModelData
  m_CurrentMatName : List Char
deriving DecidableEq

/-- What the loader works on: its own members and the `MaterialManager` singleton. -/
structure World where
  loader : WFLoader
  manager : MaterialManager
deriving DecidableEq

/-- The enumeration `WFLoader::FileType`. -/
inductive FileType where
  | OBJ_FILE
  | MTL_FILE
deriving DecidableEq

namespace WFLoader

open Scanf

/-- The files that `fopen( filepath, "r" )` can open, with their contents. -/
abbrev FileSystem := List Char → Option (List Char)

/-- The local `MaterialData matData` of `parseMaterialFile`: the four colours are
default-constructed, `shininess` has no initialiser. -/
def matData (u : Junk) : MaterialData :=
  { ambient := Color4f.default
    diffuse := Color4f.default
    specular := Color4f.default
    emission := Color4f.default
    shininess := u.shininess }

/-- The function `WFLoader::parseMaterialFile( line )`. The result is `none` when a `%s`
writes past the end of its buffer. -/
def parseMaterialFile (u : Junk) (line : List Char) (w : World) : Option World :=
  match line with
  | [] => some w
  | c0 :: rest =>
    if c0 = 'n' then
      (argStr (sscanf fmtS line) 20 []).bind fun tempStr =>
        if tempStr = "newmtl".toList then
          (argStr (sscanf fmtSkipS line) 50 w.loader.m_CurrentMatName).bind fun name =>
            some { loader := { w.loader with m_CurrentMatName := name },
                   manager := w.manager.addMaterial name (matData u) }
        else some w
    else if c0 = 'N' then
      match rest with
      | 's' :: _ =>
        some { w with manager := (w.manager.setValue w.loader.m_CurrentMatName
          MaterialAttribute.MAT_SHININESS ⟨argFloat (sscanf fmtF line) 0 u.r, 0, 0, 1⟩) }
      | _ => some w
    else if c0 = 'K' then
      match rest with
      | 'a' :: _ =>
        some { w with manager := (w.manager.setValue w.loader.m_CurrentMatName
          MaterialAttribute.MAT_AMBIENT
          ⟨argFloat (sscanf fmtFFF line) 0 u.r, argFloat (sscanf fmtFFF line) 1 u.g,
            argFloat (sscanf fmtFFF line) 2 u.b, 1⟩) }
      | 'd' :: _ =>
        some { w with manager := (w.manager.setValue w.loader.m_CurrentMatName
          MaterialAttribute.MAT_DIFFUSE
          ⟨argFloat (sscanf fmtFFF line) 0 u.r, argFloat (sscanf fmtFFF line) 1 u.g,
            argFloat (sscanf fmtFFF line) 2 u.b, 1⟩) }
      | 's' :: _ =>
        some { w with manager := (w.manager.setValue w.loader.m_CurrentMatName
          MaterialAttribute.MAT_SPECULAR
          ⟨argFloat (sscanf fmtFFF line) 0 u.r, argFloat (sscanf fmtFFF line) 1 u.g,
            argFloat (sscanf fmtFFF line) 2 u.b, 1⟩) }
      | _ => some w
    else some w

/-- The C string held by the buffer `line` once `line[ i ] = 0` is stored: the characters
before the first NUL. -/
def cstr (buf : List Char) : List Char := buf.takeWhile (fun c => c ≠ Char.ofNat 0)

/-- The loop `while( ( c = fgetc( pFile ) ) != EOF )` of `load` over the characters still
to be read, with `k` lines handed to the parser so far and `buf` the first `i` characters
of `line`. A character other than a newline is stored while `i < 99`; otherwise the
buffer is terminated and parsed and `i` is reset, the character read being dropped. -/
def readLoop (parse : Nat → List Char → World → Option World) :
    List Char → Nat → List Char → World → Option World
  | [], _, _, w => some w
  | c :: cs, k, buf, w =>
    if c ≠ '\n' ∧ buf.length < 99 then readLoop parse cs k (buf ++ [c]) w
    else (parse k (cstr buf) w).bind (readLoop parse cs (k + 1) [])

/-- The body of `load` for a given line parser: `false` when the file cannot be opened,
otherwise every line is parsed and the result is `true`. -/
def loadWith (fs : FileSystem) (parse : Nat → List Char → World → Option World)
    (filepath : List Char) (w : World) : Option (Bool × World) :=
  match fs filepath with
  | none => some (false, w)
  | some content => (readLoop parse content 0 [] w).map (fun w1 => (true, w1))

/-- The locals `v1 .. n3` of `parseObjectFile` after the face line has been scanned. -/
structure FaceLocals where
  v1 : Int
  v2 : Int
  v3 : Int
  t1 : Int
  t2 : Int
  t3 : Int
  n1 : Int
  n2 : Int
  n3 : Int
deriving DecidableEq

/-- The locals before scanning: `v1 = -1`, `t1 = -1`, `n1 = -1`, the others indeterminate. -/
def faceInit (u : Junk) : FaceLocals :=
  { v1 := -1, v2 := u.v2, v3 := u.v3, t1 := -1, t2 := u.t2, t3 := u.t3,
    n1 := -1, n2 := u.n2, n3 := u.n3 }

/-- The block `Save face data.` of `parseObjectFile`. -/
def saveFace (d : ModelData) (f : FaceLocals) : ModelData :=
  let d1 := { d with vertexFaces := d.vertexFaces ++ [f.v1, f.v2, f.v3] }
  let d2 := if f.t1 ≠ -1 then { d1 with textureFaces := d1.textureFaces ++ [f.t1, f.t2, f.t3] }
    else d1
  if f.n1 ≠ -1 then { d2 with normalFaces := d2.normalFaces ++ [f.n1, f.n2, f.n3] } else d2

/-- The scanning of a face line: the pattern is read off the first vertex token
`tempStr`. With two slashes the line is scanned by `sscanf`. With one slash or none the
source calls `scanf( line, ... )`, which reads standard input with the line as its
format: a line without `%` holds no conversion and nothing is assigned; a line with `%`
is outside the model (`none`). -/
def scanFace (u : Junk) (line tempStr : List Char) : Option FaceLocals :=
  match tempStr.dropWhile (fun c => c ≠ '/') with
  | [] => if '%' ∈ line then none else some (faceInit u)
  | _ :: after =>
    if '/' ∈ after then
      if after.head? = some '/' then
        let vals := sscanf fmtVN line
        some { v1 := argInt vals 0 (-1), n1 := argInt vals 1 (-1),
               v2 := argInt vals 2 u.v2, n2 := argInt vals 3 u.n2,
               v3 := argInt vals 4 u.v3, n3 := argInt vals 5 u.n3,
               t1 := -1, t2 := u.t2, t3 := u.t3 }
      else
        let vals := sscanf fmtVTN line
        some { v1 := argInt vals 0 (-1), t1 := argInt vals 1 (-1), n1 := argInt vals 2 (-1),
               v2 := argInt vals 3 u.v2, t2 := argInt vals 4 u.t2, n2 := argInt vals 5 u.n2,
               v3 := argInt vals 6 u.v3, t3 := argInt vals 7 u.t3, n3 := argInt vals 8 u.n3 }
    else if '%' ∈ line then none else some (faceInit u)

/-- The function `WFLoader::parseObjectFile( line )`. The nested call
`load( tempStr, MTL_FILE )` is `loadWith` on `parseMaterialFile`; `junk k` holds the
indeterminate locals of the call for line `k` of that file. The result is `none` when a
`%s` writes past the end of `tempStr`. -/
def parseObjectFile (fs : FileSystem) (junk : Nat → Junk) (u : Junk) (line : List Char)
    (w : World) : Option World :=
  match line with
  | [] => some w
  | c0 :: rest =>
    if c0 = 'm' then
      (argStr (sscanf fmtS line) 20 []).bind fun tempStr =>
        if tempStr = "mtllib".toList then
          (argStr (sscanf fmtSkipS line) 20 tempStr).bind fun path =>
            (loadWith fs (fun k => parseMaterialFile (junk k)) path w).map Prod.snd
        else some w
    else if c0 = 'v' then
      match rest with
      | ' ' :: _ =>
        let vals := sscanf fmtFFF line
        some { w with loader := { w.loader with m_LoadedData :=
          { w.loader.m_LoadedData with vertices := (w.loader.m_LoadedData.vertices ++
            [⟨argFloat vals 0 u.x, argFloat vals 1 u.y, argFloat vals 2 u.z⟩]) } } }
      | 'n' :: _ =>
        let vals := sscanf fmtFFF line
        some { w with loader := { w.loader with m_LoadedData :=
          { w.loader.m_LoadedData with normals := (w.loader.m_LoadedData.normals ++
            [⟨argFloat vals 0 u.x, argFloat vals 1 u.y, argFloat vals 2 u.z⟩]) } } }
      | 't' :: _ =>
        let vals := sscanf fmtFF line
        some { w with loader := { w.loader with m_LoadedData :=
          { w.loader.m_LoadedData with textureCoords :=
            (w.loader.m_LoadedData.textureCoords ++
              [⟨argFloat vals 0 u.x, argFloat vals 1 u.y, 0⟩]) } } }
      | _ => some w
    else if c0 = 's' then
      some { w with loader := { w.loader with m_LoadedData :=
        { w.loader.m_LoadedData with
          isSmoothShaded := decide (argInt (sscanf fmtCD line) 0 u.v2 > 0) } } }
    else if c0 = 'f' then
      (argStr (sscanf fmtCS line) 20 []).bind fun tempStr =>
        (scanFace u line tempStr).bind fun f =>
          some { w with loader := { w.loader with m_LoadedData :=
            (saveFace w.loader.m_LoadedData f) } }
    else some w

/-- The function `WFLoader::load( filepath, type )`: the returned flag and the state
afterwards. -/
def load (fs : FileSystem) (junk : Nat → Junk) (filepath : List Char) (type : FileType)
    (w : World) : Option (Bool × World) :=
  match type with
  | FileType.OBJ_FILE => loadWith fs (fun k => parseObjectFile fs junk (junk k)) filepath w
  | FileType.MTL_FILE => loadWith fs (fun k => parseMaterialFile (junk k)) filepath w

/-- The function `WFLoader::parseObjectFile( line )` with the call
`load( tempStr, MTL_FILE )` of its `mtllib` branch given as `nested`. -/
def parseObjectFileWith (nested : List Char → World → Option (Bool × World)) (u : Junk)
    (line : List Char) (w : World) : Option World :=
  match line with
  | [] => some w
  | c0 :: rest =>
    if c0 = 'm' then
      (argStr (sscanf fmtS line) 20 []).bind fun tempStr =>
        if tempStr = "mtllib".toList then
          (argStr (sscanf fmtSkipS line) 20 tempStr).bind fun path =>
            (nested path w).map Prod.snd
        else some w
    else if c0 = 'v' then
      match rest with
      | ' ' :: _ =>
        let vals := sscanf fmtFFF line
        some { w with loader := { w.loader with m_LoadedData :=
          { w.loader.m_LoadedData with vertices := (w.loader.m_LoadedData.vertices ++
            [⟨argFloat vals 0 u.x, argFloat vals 1 u.y, argFloat vals 2 u.z⟩]) } } }
      | 'n' :: _ =>
        let vals := sscanf fmtFFF line
        some { w with loader := { w.loader with m_LoadedData :=
          { w.loader.m_LoadedData with normals := (w.loader.m_LoadedData.normals ++
            [⟨argFloat vals 0 u.x, argFloat vals 1 u.y, argFloat vals 2 u.z⟩]) } } }
      | 't' :: _ =>
        let vals := sscanf fmtFF line
        some { w with loader := { w.loader with m_LoadedData :=
          { w.loader.m_LoadedData with textureCoords :=
            (w.loader.m_LoadedData.textureCoords ++
              [⟨argFloat vals 0 u.x, argFloat vals 1 u.y, 0⟩]) } } }
      | _ => some w
    else if c0 = 's' then
      some { w with loader := { w.loader with m_LoadedData :=
        { w.loader.m_LoadedData with
          isSmoothShaded := decide (argInt (sscanf fmtCD line) 0 u.v2 > 0) } } }
    else if c0 = 'f' then
      (argStr (sscanf fmtCS line) 20 []).bind fun tempStr =>
        (scanFace u line tempStr).bind fun f =>
          some { w with loader := { w.loader with m_LoadedData :=
            (saveFace w.loader.m_LoadedData f) } }
    else some w

/-- The recursion of the source, in which `load` calls `parseObjectFile` and
`parseObjectFile` calls `load( tempStr, MTL_FILE )`, followed down to the nesting depth
`d`: the outermost call of `load` has depth 1, and a call of `load` that would have a depth
above `d` is cut off and yields `none`. A material file is parsed by `parseMaterialFile`,
which holds no call of `load`. -/
def loadNested (fs : FileSystem) (junk : Nat → Junk) :
    Nat → List Char → FileType → World → Option (Bool × World)
  | 0, _, _, _ => none
  | d + 1, filepath, type, w =>
    match type with
    | FileType.OBJ_FILE =>
      loadWith fs (fun k => parseObjectFileWith
        (fun p w1 => loadNested fs junk d p FileType.MTL_FILE w1) (junk k)) filepath w
    | FileType.MTL_FILE => loadWith fs (fun k => parseMaterialFile (junk k)) filepath w

end WFLoader

/-! ## Decimal literals, for stating what the loader reads -/

namespace Scanf

/-- The character of a decimal digit. -/
def digitChar (d : Fin 10) : Char := Char.ofNat (48 + d.val)

/-- A decimal literal in the form `[-]digits.digits`, with at least one digit before the
point. -/
structure Decimal where
  neg : Bool
  ip : List (Fin 10)
  fp : List (Fin 10)

/-- The value of a sequence of digits. -/
def digitsNat (ds : List (Fin 10)) : Nat := ds.foldl (fun n d => 10 * n + d.val) 0

/-- The text of a decimal literal. -/
def Decimal.render (d : Decimal) : List Char :=
  (if d.neg then ['-'] else []) ++ (d.ip.map digitChar ++ '.' :: d.fp.map digitChar)

/-- The number a decimal literal denotes. -/
def Decimal.value (d : Decimal) : Rat :=
  if d.neg then -((digitsNat (d.ip ++ d.fp) : Rat) / (10 : Rat) ^ d.fp.length)
  else (digitsNat (d.ip ++ d.fp) : Rat) / (10 : Rat) ^ d.fp.length

/-- What may follow a literal: the end of the line or a space. -/
def Delimited (rest : List Char) : Prop := rest = [] ∨ ∃ r, rest = ' ' :: r

/-- The line `v a b c` with single spaces, `a`, `b`, `c` decimal literals. -/
def vertexLine (a b c : Decimal) : List Char :=
  'v' :: ' ' :: (a.render ++ ' ' :: (b.render ++ ' ' :: (c.render ++ [])))

/-! Index tokens and face lines -/

/-- The text of a sequence of decimal digits. -/
def digits (ds : List (Fin 10)) : List Char := ds.map digitChar

/-- A vertex token `v/t/n` of a face line. -/
def tokVTN (v t n : List (Fin 10)) : List Char := digits v ++ '/' :: (digits t ++ '/' :: digits n)

/-- A vertex token `v//n` of a face line. -/
def tokVN (v n : List (Fin 10)) : List Char := digits v ++ '/' :: '/' :: digits n

/-- The face line `f v1/t1/n1 v2/t2/n2 v3/t3/n3` with single spaces. -/
def faceLineVTN (v1 t1 n1 v2 t2 n2 v3 t3 n3 : List (Fin 10)) : List Char :=
  'f' :: ' ' :: (tokVTN v1 t1 n1 ++ ' ' :: (tokVTN v2 t2 n2 ++ ' ' :: tokVTN v3 t3 n3))

/-- The face line `f v1//n1 v2//n2 v3//n3` with single spaces. -/
def faceLineVN (v1 n1 v2 n2 v3 n3 : List (Fin 10)) : List Char :=
  'f' :: ' ' :: (tokVN v1 n1 ++ ' ' :: (tokVN v2 n2 ++ ' ' :: tokVN v3 n3))

/-- The face line `f a b c` with single spaces. -/
def faceLineBare (a b c : List (Fin 10)) : List Char :=
  'f' :: ' ' :: (digits a ++ ' ' :: (digits b ++ ' ' :: digits c))

/-- A token: no white space in it, and not empty. -/
def IsToken (tok : List Char) : Prop := tok ≠ [] ∧ ∀ c ∈ tok, isSpace c = false

instance (tok : List Char) : Decidable (IsToken tok) := by
  unfold IsToken
  infer_instance

end Scanf

/-! ## Face patterns and line sequences -/

namespace WFLoader

open Scanf

/-- The index pattern of a face line, as `parseObjectFile` tells it from the first vertex
token: `v`, `v/t`, `v/t/n` or `v//n`. -/
inductive Pattern where
  | v
  | vt
  | vtn
  | vn
deriving DecidableEq

/-- The pattern selected by the tests `strchr( tempStr, '/' )`, `strchr( pStr+1, '/' )`
and `*(pStr + 1) == '/'` of `parseObjectFile`. -/
def detect (tempStr : List Char) : Pattern :=
  match tempStr.dropWhile (fun c => c ≠ '/') with
  | [] => Pattern.v
  | _ :: after =>
    if '/' ∈ after then
      if after.head? = some '/' then Pattern.vn else Pattern.vtn
    else Pattern.vt

/-- The calls `parseObjectFile( line )` that `load` makes for the lines of a geometry
file, one after the other; `k` numbers the calls. -/
def parseLines (fs : FileSystem) (junk : Nat → Junk) :
    List (List Char) → Nat → World → Option World
  | [], _, w => some w
  | l :: ls, k, w =>
    (parseObjectFile fs junk (junk k) l w).bind (parseLines fs junk ls (k + 1))

/-- The text of a file made of the given lines, each ended by a newline. -/
def fileOf (lines : List (List Char)) : List Char :=
  match lines with
  | [] => []
  | l :: ls => l ++ '\n' :: fileOf ls

/-- Lines on which `parseObjectFile` is sure to return: the lines that begin with neither
`m` nor `f`, and the face lines of the three index patterns whose first vertex token is
shorter than the 20 characters of `tempStr`. -/
inductive Handled : List Char → Prop where
  | plain (l : List Char) : l.head? ≠ some 'm' → l.head? ≠ some 'f' → Handled l
  | bare (a b c : List (Fin 10)) : a ≠ [] → (digits a).length < 20 →
      Handled (faceLineBare a b c)
  | vtn (v1 t1 n1 v2 t2 n2 v3 t3 n3 : List (Fin 10)) : v1 ≠ [] → t1 ≠ [] → n1 ≠ [] →
      v2 ≠ [] → t2 ≠ [] → n2 ≠ [] → v3 ≠ [] → t3 ≠ [] → n3 ≠ [] →
      (tokVTN v1 t1 n1).length < 20 → Handled (faceLineVTN v1 t1 n1 v2 t2 n2 v3 t3 n3)
  | vn (v1 n1 v2 n2 v3 n3 : List (Fin 10)) : v1 ≠ [] → n1 ≠ [] → v2 ≠ [] → n2 ≠ [] →
      v3 ≠ [] → n3 ≠ [] → (tokVN v1 n1).length < 20 → Handled (faceLineVN v1 n1 v2 n2 v3 n3)

end WFLoader

/-! ## Specification-side definitions -/

namespace RasterSpec

/-- Membership of `(x, y)` in the grid: `0 <= x < width` and `0 <= y < height`. -/
def inGrid (g : RasterMap) (x y : Int) : Prop :=
  0 ≤ x ∧ x < g.m_GridWidth ∧ 0 ≤ y ∧ y < g.m_GridHeight

instance (g : RasterMap) (x y : Int) : Decidable (inGrid g x y) := by
  unfold inGrid; infer_instance

/-- The kernel of the specification, row-major: `[1,2,1; 2,4,2; 1,2,1]`. -/
def kernel : Fin 3 → Fin 3 → Rat := ![![1, 2, 1], ![2, 4, 2], ![1, 2, 1]]

/-- The clamp of the specification on one axis: `0` for a negative neighbour coordinate,
the centre coordinate for one at or beyond the extent, the neighbour itself otherwise. -/
def clampSpec (extent centre d : Int) : Int :=
  if centre + d < 0 then 0 else if centre + d ≥ extent then centre else centre + d

/-- The colour sampled for the offset `(dx, dy)` according to the specification. -/
def sampled (g : RasterMap) (x y dx dy : Int) : Color4f :=
  g.m_RasterMap (clampSpec g.m_GridWidth x dx) (clampSpec g.m_GridHeight y dy)

/-- The kernel-weighted average of one channel over the nine samples; row `i` of the
kernel belongs to `dy = i - 1`, column `j` to `dx = j - 1`. -/
def weighted (g : RasterMap) (x y : Int) (ch : Color4f → Rat) : Rat :=
  (∑ i : Fin 3, ∑ j : Fin 3, kernel i j * ch (sampled g x y ((j : Int) - 1) ((i : Int) - 1))) / 16

/-- The slope of the specification: the exact quotient `(y1 - y0) / (x1 - x0)`. -/
def exactSlope (x0 y0 x1 y1 : Int) : Rat :=
  ((y1 - y0 : Int) : Rat) / ((x1 - x0 : Int) : Rat)

/-- The three calls of one round of the gentle-slope case according to the closed form of
the specification, at step `k` from `x0`: the row is `floor(y0 + k * m + 1/2)` in exact
arithmetic. -/
def gentleRound (color : Color4f) (x0 y0 : Int) (m : Rat) (k : Nat) : List RasterMap.Call :=
  [ RasterMap.Call.pixel (x0 + k) ⌊(y0 : Rat) + (k : Rat) * m + 1 / 2⌋ color,
    RasterMap.Call.sample (x0 + k) (⌊(y0 : Rat) + (k : Rat) * m + 1 / 2⌋ - 1),
    RasterMap.Call.sample (x0 + k) (⌊(y0 : Rat) + (k : Rat) * m + 1 / 2⌋ + 1) ]

/-- The three calls of one round of the steep-slope case according to the closed form of
the specification, at step `k` from `y0`: the column is `floor(x0 + k * (1/m) + 1/2)` in
exact arithmetic. -/
def steepRound (color : Color4f) (x0 y0 : Int) (m : Rat) (k : Nat) : List RasterMap.Call :=
  [ RasterMap.Call.pixel ⌊(x0 : Rat) + (k : Rat) * (1 / m) + 1 / 2⌋ (y0 + k) color,
    RasterMap.Call.sample (⌊(x0 : Rat) + (k : Rat) * (1 / m) + 1 / 2⌋ - 1) (y0 + k),
    RasterMap.Call.sample (⌊(x0 : Rat) + (k : Rat) * (1 / m) + 1 / 2⌋ + 1) (y0 + k) ]

/-- The eight reflections of the octant point `(x, y)` about the centre `(x0, y0)`, as
`drawPixel` calls with the colour `color`. -/
def reflections (color : Color4f) (x0 y0 x y : Int) : List RasterMap.Call :=
  [ RasterMap.Call.pixel (x0 + x) (y0 + y) color,
    RasterMap.Call.pixel (x0 + x) (y0 - y) color,
    RasterMap.Call.pixel (x0 - x) (y0 - y) color,
    RasterMap.Call.pixel (x0 - x) (y0 + y) color,
    RasterMap.Call.pixel (x0 + y) (y0 + x) color,
    RasterMap.Call.pixel (x0 + y) (y0 - x) color,
    RasterMap.Call.pixel (x0 - y) (y0 - x) color,
    RasterMap.Call.pixel (x0 - y) (y0 + x) color ]

/-- The loop invariant of the midpoint circle algorithm for the radius `R`:
`deltaE = 2x + 3`, `deltaSE = 2(x - y) + 5` and
`decision = (x+1)^2 + (y - 1/2)^2 - R^2`. -/
def circleInvariant (R : Int) (s : RasterMap.CircleState) : Prop :=
  s.deltaE = 2 * s.x + 3 ∧ s.deltaSE = 2 * (s.x - s.y) + 5
    ∧ s.decision = ((s.x : Rat) + 1) ^ 2 + ((s.y : Rat) - 1 / 2) ^ 2 - (R : Rat) ^ 2

instance (R : Int) (s : RasterMap.CircleState) : Decidable (circleInvariant R s) := by
  unfold circleInvariant; infer_instance

/-- The point `(x, y)` is an octant point within half a pixel of the circle of radius `R`:
`0 <= x`, `0 <= y <= R` and `|x^2 + y^2 - R^2| <= y`. -/
def nearCircle (R : Int) (s : RasterMap.CircleState) : Prop :=
  0 ≤ s.x ∧ 0 ≤ s.y ∧ s.y ≤ R ∧ |s.x ^ 2 + s.y ^ 2 - R ^ 2| ≤ s.y

instance (R : Int) (s : RasterMap.CircleState) : Decidable (nearCircle R s) := by
  unfold nearCircle; infer_instance

/-- The bound that the loop of the midpoint circle algorithm maintains while it runs: the
invariant of the decision variable, `0 <= x`, `y <= R` and
`-y <= x^2 + y^2 - R^2 <= y - 1`. -/
def circleBand (R : Int) (s : RasterMap.CircleState) : Prop :=
  circleInvariant R s ∧ 0 ≤ s.x ∧ s.y ≤ R
    ∧ -s.y ≤ s.x ^ 2 + s.y ^ 2 - R ^ 2 ∧ s.x ^ 2 + s.y ^ 2 - R ^ 2 ≤ s.y - 1

end RasterSpec

namespace RegistrySpec

/-- The registry and the loader after an attribute line: the entry of the current material
name is `m1`, every other name is mapped as before, the names registered are the same,
and the loader is unchanged. -/
def Updated (w w1 : World) (m1 : MaterialData) : Prop :=
  w1.loader = w.loader
    ∧ w1.manager.find w.loader.m_CurrentMatName = some m1
    ∧ (∀ other, other ≠ w.loader.m_CurrentMatName →
        w1.manager.find other = w.manager.find other)
    ∧ w1.manager.m_Materials.map Prod.fst = w.manager.m_Materials.map Prod.fst

end RegistrySpec

/-! ## Theorems -/

namespace Ieee

/-! ### The sign of a rounded number -/

theorem roundPos_nonneg (p : Nat) (qmin : Int) (n d : Nat) : 0 ≤ roundPos p qmin n d := by
  unfold roundPos
  split_ifs <;> positivity

theorem round_zero (p : Nat) (qmin : Int) : round p qmin 0 = 0 := by
  simp [round, roundPos]

theorem round_nonneg (p : Nat) (qmin : Int) (q : Rat) (h : 0 ≤ q) : 0 ≤ round p qmin q := by
  unfold round
  rw [if_neg (not_lt.mpr h)]
  exact roundPos_nonneg _ _ _ _

theorem round_nonpos (p : Nat) (qmin : Int) (q : Rat) (h : q ≤ 0) : round p qmin q ≤ 0 := by
  rcases lt_or_eq_of_le h with h1 | h1
  · unfold round
    rw [if_pos h1]
    exact neg_nonpos.mpr (roundPos_nonneg _ _ _ _)
  · rw [h1, round_zero]

theorem binary32_zero : binary32 0 = 0 := round_zero _ _

theorem binary32_nonneg (q : Rat) (h : 0 ≤ q) : 0 ≤ binary32 q := round_nonneg _ _ q h

theorem binary32_nonpos (q : Rat) (h : q ≤ 0) : binary32 q ≤ 0 := round_nonpos _ _ q h

/-! ### Numbers that are in the format -/

/-- A number below `2 ^ k` has at most `k` binary digits. -/
theorem bitLength_le : ∀ (k f n : Nat), n < 2 ^ k → bitLength f n ≤ k := by
  intro k
  induction k with
  | zero =>
    intro f n h
    have hn : n = 0 := by simpa using h
    subst hn
    cases f <;> simp [bitLength]
  | succ k ih =>
    intro f n h
    cases f with
    | zero => simp [bitLength]
    | succ f =>
      rw [bitLength]
      split_ifs with h0
      · omega
      · have : n / 2 < 2 ^ k := by
          rw [Nat.div_lt_iff_lt_mul (by decide)]
          rw [pow_succ] at h
          exact h
        have := ih f (n / 2) this
        omega

/-- A number from `2 ^ k` on has more than `k` binary digits, when the fuel is at least the
number. -/
theorem bitLength_ge : ∀ (k f n : Nat), 2 ^ k ≤ n → n ≤ f → k + 1 ≤ bitLength f n := by
  intro k
  induction k with
  | zero =>
    intro f n h hf
    cases f with
    | zero => simp at h; omega
    | succ f =>
      rw [bitLength, if_neg (by simp at h; omega)]
      omega
  | succ k ih =>
    intro f n h hf
    have hk : 1 ≤ 2 ^ k := Nat.one_le_two_pow
    rw [pow_succ] at h
    cases f with
    | zero => omega
    | succ f =>
      rw [bitLength, if_neg (by omega)]
      have h2 : 2 ^ k ≤ n / 2 := by
        rw [Nat.le_div_iff_mul_le (by decide)]
        exact h
      have := ih f (n / 2) h2 (by omega)
      omega

theorem exponent_le (n d : Nat) :
    exponent n d ≤ (bitLength n n : Int) - (bitLength d d : Int) := by
  unfold exponent
  simp only
  split_ifs <;> omega

theorem nearestEven_mul (a D : Nat) (hD : 0 < D) : nearestEven (a * D) D = a := by
  unfold nearestEven
  rw [Nat.mul_mod_left, Nat.mul_div_cancel _ hD, if_pos (by omega)]

/-- A non-negative rational `n / 2 ^ j` whose numerator has at most `p` binary digits, and
whose denominator is in reach of the least quantum, is in the format: rounding returns
it. -/
theorem roundPos_exact (p : Nat) (qmin : Int) (n j : Nat) (hn : n < 2 ^ p)
    (hj : (j : Int) ≤ -qmin) :
    roundPos p qmin n (2 ^ j) = (n : Rat) / ((2 ^ j : Nat) : Rat) := by
  have he := exponent_le n (2 ^ j)
  have h1 := bitLength_le p n n hn
  have h2 := bitLength_ge j (2 ^ j) (2 ^ j) le_rfl le_rfl
  have hsle : max (exponent n (2 ^ j) - ((p : Int) - 1)) qmin ≤ -(j : Int) :=
    max_le (by omega) (by omega)
  unfold roundPos
  by_cases h0 : n = 0
  · subst h0; simp
  rw [if_neg h0]
  dsimp only
  generalize max (exponent n (2 ^ j) - ((p : Int) - 1)) qmin = s at hsle
  by_cases hs : 0 ≤ s
  · have hs0 : s = 0 := by omega
    have hj0 : j = 0 := by omega
    subst hj0
    subst hs0
    rw [if_pos le_rfl]
    have h := nearestEven_mul n 1 (by decide)
    simp only [mul_one] at h
    simp [h]
  · rw [if_neg hs]
    obtain ⟨t, ht⟩ : ∃ t : Nat, (-s).toNat = j + t := ⟨(-s).toNat - j, by omega⟩
    rw [ht]
    have hN : n * 2 ^ (j + t) = (n * 2 ^ t) * 2 ^ j := by ring
    rw [hN, nearestEven_mul _ _ (by positivity)]
    push_cast
    field_simp
    ring

/-- A rational whose denominator is a power of two in reach of the least quantum and
whose numerator has at most `p` binary digits is in the format: rounding returns it. -/
theorem round_exact (p : Nat) (qmin : Int) (q : Rat) (j : Nat) (hd : q.den = 2 ^ j)
    (hn : q.num.natAbs < 2 ^ p) (hj : (j : Int) ≤ -qmin) : round p qmin q = q := by
  have hq : (q.num : Rat) / ((2 ^ j : Nat) : Rat) = q := by
    rw [← hd]; exact Rat.num_div_den q
  unfold round
  rw [hd, roundPos_exact p qmin _ j hn hj, ← Int.cast_natCast q.num.natAbs]
  split_ifs with hneg
  · have hnum : q.num ≤ 0 := le_of_lt (Rat.num_neg.mpr hneg)
    rw [Int.ofNat_natAbs_of_nonpos hnum, Int.cast_neg, neg_div, neg_neg, hq]
  · have hnum : 0 ≤ q.num := Rat.num_nonneg.mpr (not_lt.mp hneg)
    rw [Int.natAbs_of_nonneg hnum, hq]

/-- An integer of magnitude below `2 ^ 24` is a `float`. -/
theorem binary32_int (z : Int) (h : |z| < 2 ^ 24) : binary32 (z : Rat) = z := by
  apply round_exact 24 (-149) _ 0
  · simp
  · simp only [Rat.intCast_num]
    rw [abs_lt] at h
    omega
  · decide

/-- Known values of the two formats: the `float` and the `double` nearest to `1/10`, the
`float` nearest to `1/6`, a tie that goes down to the even neighbour and one that goes up,
the least positive `float`, and a number below half of it. -/
theorem binary32_values :
    binary32 (1 / 10) = 13421773 / 134217728
      ∧ binary64 (1 / 10) = 3602879701896397 / 36028797018963968
      ∧ binary32 (1 / 6) = 11184811 / 67108864
      ∧ binary32 16777217 = 16777216
      ∧ binary32 16777219 = 16777220
      ∧ binary32 (1 / 2 ^ 149) = 1 / 2 ^ 149
      ∧ binary32 (1 / 2 ^ 151) = 0 := by
  refine ⟨by decide!, by decide!, by decide!, by decide!, by decide!, ?_, ?_⟩
  · have h : (1 : Rat) / 2 ^ 149 = 1 / 713623846352979940529142984724747568191373312 := by
      norm_num
    rw [h]
    decide!
  · have h : (1 : Rat) / 2 ^ 151 = 1 / 2854495385411919762116571938898990272765493248 := by
      norm_num
    rw [h]
    decide!

/-- For an integer `z` of magnitude below `2 ^ 24`, `z + 1/2` is a `double`. -/
theorem binary64_int_add_half (z : Int) (h : |z| < 2 ^ 24) :
    binary64 ((z : Rat) + 1 / 2) = (z : Rat) + 1 / 2 := by
  have hq : (z : Rat) + 1 / 2 = ((2 * z + 1 : Int) : Rat) / ((2 : Int) : Rat) := by
    push_cast; ring
  have hc : Nat.Coprime (2 * z + 1).natAbs (2 : Int).natAbs := by
    have : (2 : Int).natAbs = 2 := rfl
    rw [this, Nat.coprime_two_right, Int.natAbs_odd]
    exact ⟨z, rfl⟩
  apply round_exact 53 (-1074) _ 1
  · rw [hq]
    exact_mod_cast Rat.den_div_eq_of_coprime (by decide) hc
  · rw [hq, Rat.num_div_eq_of_coprime (by decide) hc]
    rw [abs_lt] at h
    omega
  · decide

end Ieee

namespace RasterMap

open RasterSpec

/-! ### Helper lemmas on `drawPixel`, `clampSample` and `superSample` -/

theorem drawPixel_of_inGrid (g : RasterMap) (x y : Int) (c : Color4f) (h : inGrid g x y) :
    g.drawPixel x y c = g.store x y c := by
  obtain ⟨h1, h2, h3, h4⟩ := h
  unfold drawPixel
  rw [if_neg]
  omega

theorem drawPixel_of_not_inGrid (g : RasterMap) (x y : Int) (c : Color4f)
    (h : ¬ inGrid g x y) : g.drawPixel x y c = g := by
  unfold drawPixel
  rw [if_pos]
  unfold inGrid at h
  omega

theorem clampSample_eq_clampSpec (extent centre d : Int) (h0 : 0 ≤ centre)
    (h1 : centre < extent) :
    clampSample extent centre (centre + d) = clampSpec extent centre d := by
  unfold clampSample clampSpec
  by_cases hneg : centre + d < 0
  · simp only [hneg, if_true]
    rw [if_neg]
    omega
  · simp only [hneg, if_false]

theorem clampSpec_range (extent centre d : Int) (h0 : 0 ≤ centre) (h1 : centre < extent) :
    0 ≤ clampSpec extent centre d ∧ clampSpec extent centre d < extent := by
  unfold clampSpec
  split_ifs <;> omega

theorem colorGrid_of_inGrid (g : RasterMap) (x y iX iY : Int) (h : inGrid g x y) :
    g.colorGrid x y iX iY = some (sampled g x y iX iY) := by
  obtain ⟨h1, h2, h3, h4⟩ := h
  have hx := clampSpec_range g.m_GridWidth x iX h1 h2
  have hy := clampSpec_range g.m_GridHeight y iY h3 h4
  unfold colorGrid sampleIndex readCell sampled
  simp only [clampSample_eq_clampSpec _ _ _ h1 h2, clampSample_eq_clampSpec _ _ _ h3 h4]
  rw [if_pos ⟨hx.1, hx.2, hy.1, hy.2⟩]

theorem weighted_expand (g : RasterMap) (x y : Int) (ch : Color4f → Rat) :
    weighted g x y ch =
      (ch (sampled g x y (-1) (-1)) + 2 * ch (sampled g x y 0 (-1)) + ch (sampled g x y 1 (-1))
        + 2 * ch (sampled g x y (-1) 0) + 4 * ch (sampled g x y 0 0)
        + 2 * ch (sampled g x y 1 0)
        + ch (sampled g x y (-1) 1) + 2 * ch (sampled g x y 0 1)
        + ch (sampled g x y 1 1)) / 16 := by
  unfold weighted kernel
  simp [Fin.sum_univ_three]
  ring

/-- On an in-grid cell `superSample` succeeds and draws the kernel-weighted average. -/
theorem superSample_of_inGrid (g : RasterMap) (x y : Int) (h : inGrid g x y) :
    g.superSample x y = some (g.store x y
      ⟨weighted g x y Color4f.r, weighted g x y Color4f.g, weighted g x y Color4f.b, 1⟩) := by
  unfold superSample
  simp only [colorGrid_of_inGrid g x y _ _ h, weighted_expand, Option.bind_eq_bind,
    Option.some_bind, Option.pure_def, bind_pure_comp]
  rw [drawPixel_of_inGrid _ _ _ _ h]
  rfl

theorem store_cell_self (g : RasterMap) (x y : Int) (c : Color4f) :
    (g.store x y c).m_RasterMap x y = c := by
  simp [store]

/-! ### C1 - C4: `drawPixel` and `superSample` -/

/-- C1: `drawPixel( x, y, c )` yields the old grid with cell `(x, y)` replaced by `c` when
`0 <= x < width` and `0 <= y < height`, and yields the old grid itself, with no cell
changed, when `(x, y)` is outside that range. -/
theorem drawPixel_frame (g : RasterMap) (x y : Int) (c : Color4f) :
    ((0 ≤ x ∧ x < g.m_GridWidth ∧ 0 ≤ y ∧ y < g.m_GridHeight) →
      g.drawPixel x y c =
        { g with m_RasterMap := fun i j => if i = x ∧ j = y then c else g.m_RasterMap i j })
    ∧ (¬ (0 ≤ x ∧ x < g.m_GridWidth ∧ 0 ≤ y ∧ y < g.m_GridHeight) →
      g.drawPixel x y c = g) :=
  ⟨fun h => drawPixel_of_inGrid g x y c h, fun h => drawPixel_of_not_inGrid g x y c h⟩

/-- Witness of C1 on the 40 x 30 grid of the demo: `(3, 4)` is stored, `(40, 4)` and
`(3, -1)` are clipped. -/
theorem drawPixel_frame_witness :
    (new 40 30 (1 / 10)).drawPixel 3 4 Color4f.default =
        { new 40 30 (1 / 10) with
          m_RasterMap := fun i j =>
            if i = 3 ∧ j = 4 then Color4f.default else (new 40 30 (1 / 10)).m_RasterMap i j }
      ∧ (new 40 30 (1 / 10)).drawPixel 40 4 Color4f.default = new 40 30 (1 / 10)
      ∧ (new 40 30 (1 / 10)).drawPixel 3 (-1) Color4f.default = new 40 30 (1 / 10) :=
  ⟨(drawPixel_frame (new 40 30 (1 / 10)) 3 4 Color4f.default).1 (by decide),
    (drawPixel_frame (new 40 30 (1 / 10)) 40 4 Color4f.default).2 (by decide),
    (drawPixel_frame (new 40 30 (1 / 10)) 3 (-1) Color4f.default).2 (by decide)⟩

/-- C2: on an in-bounds `(x, y)`, `superSample( x, y )` returns and stores at `(x, y)` the
colour whose `r`, `g`, `b` are the sums of the nine sampled values weighted by
`[1,2,1; 2,4,2; 1,2,1]` and divided by 16, and whose alpha is `1.0`. -/
theorem superSample_kernel (g : RasterMap) (x y : Int)
    (h : 0 ≤ x ∧ x < g.m_GridWidth ∧ 0 ≤ y ∧ y < g.m_GridHeight) :
    ∃ g1, g.superSample x y = some g1 ∧
      g1.m_RasterMap x y =
        ⟨(∑ i : Fin 3, ∑ j : Fin 3,
            kernel i j * (sampled g x y ((j : Int) - 1) ((i : Int) - 1)).r) / 16,
          (∑ i : Fin 3, ∑ j : Fin 3,
            kernel i j * (sampled g x y ((j : Int) - 1) ((i : Int) - 1)).g) / 16,
          (∑ i : Fin 3, ∑ j : Fin 3,
            kernel i j * (sampled g x y ((j : Int) - 1) ((i : Int) - 1)).b) / 16,
          1⟩ :=
  ⟨_, superSample_of_inGrid g x y h, store_cell_self g x y _⟩

/-- Witness of C2 on the freshly constructed 40 x 30 grid at `(3, 4)`. -/
theorem superSample_kernel_witness :
    ∃ g1, (new 40 30 (1 / 10)).superSample 3 4 = some g1 ∧
      g1.m_RasterMap 3 4 =
        ⟨(∑ i : Fin 3, ∑ j : Fin 3, kernel i j *
            (sampled (new 40 30 (1 / 10)) 3 4 ((j : Int) - 1) ((i : Int) - 1)).r) / 16,
          (∑ i : Fin 3, ∑ j : Fin 3, kernel i j *
            (sampled (new 40 30 (1 / 10)) 3 4 ((j : Int) - 1) ((i : Int) - 1)).g) / 16,
          (∑ i : Fin 3, ∑ j : Fin 3, kernel i j *
            (sampled (new 40 30 (1 / 10)) 3 4 ((j : Int) - 1) ((i : Int) - 1)).b) / 16,
          1⟩ :=
  superSample_kernel (new 40 30 (1 / 10)) 3 4 (by decide)

/-- C3: for an in-bounds `(x, y)` and every offset `(dx, dy)`, in particular those in
`{-1,0,1} x {-1,0,1}`, the cell `superSample` computes and reads for that offset is
`(cx, cy)` with `cx = 0` if `x+dx < 0`, `cx = x` if `x+dx >= width`, `cx = x+dx` otherwise,
and `cy` likewise from `y`, `dy`, `height`; at `x = width-1` the column sampled for
`dx = 1` is `x` itself. -/
theorem superSample_sample_cell (g : RasterMap) (x y dx dy : Int)
    (h : 0 ≤ x ∧ x < g.m_GridWidth ∧ 0 ≤ y ∧ y < g.m_GridHeight) :
    g.sampleIndex x y dx dy =
        (if x + dx < 0 then 0 else if x + dx ≥ g.m_GridWidth then x else x + dx,
          if y + dy < 0 then 0 else if y + dy ≥ g.m_GridHeight then y else y + dy)
      ∧ g.colorGrid x y dx dy =
        some (g.m_RasterMap
          (if x + dx < 0 then 0 else if x + dx ≥ g.m_GridWidth then x else x + dx)
          (if y + dy < 0 then 0 else if y + dy ≥ g.m_GridHeight then y else y + dy))
      ∧ (x = g.m_GridWidth - 1 → (g.sampleIndex x y 1 dy).1 = x) := by
  obtain ⟨h1, h2, h3, h4⟩ := h
  refine ⟨?_, ?_, ?_⟩
  · unfold sampleIndex
    rw [clampSample_eq_clampSpec _ _ _ h1 h2, clampSample_eq_clampSpec _ _ _ h3 h4]
    rfl
  · rw [colorGrid_of_inGrid g x y dx dy ⟨h1, h2, h3, h4⟩]
    rfl
  · intro hx
    unfold sampleIndex
    rw [clampSample_eq_clampSpec _ _ _ h1 h2]
    unfold clampSpec
    simp only
    rw [if_neg (by omega), if_pos (by omega)]

/-- Witness of C3 on the 40 x 30 grid at the far column `x = 39`, offset `(1, -1)`. -/
theorem superSample_sample_cell_witness :
    (new 40 30 (1 / 10)).sampleIndex 39 0 1 (-1) =
        (if (39 : Int) + 1 < 0 then 0
          else if (39 : Int) + 1 ≥ (new 40 30 (1 / 10)).m_GridWidth then 39 else 39 + 1,
          if (0 : Int) + -1 < 0 then 0
          else if (0 : Int) + -1 ≥ (new 40 30 (1 / 10)).m_GridHeight then 0 else 0 + -1)
      ∧ (new 40 30 (1 / 10)).sampleIndex 39 0 1 (-1) = (39, 0) :=
  ⟨(superSample_sample_cell (new 40 30 (1 / 10)) 39 0 1 (-1) (by decide)).1, by decide⟩

/-- The `float` `y` after one more round: the `float` sum of `y` and `m`. -/
theorem lineY_succ (m : Rat) : ∀ (k : Nat) (y : Rat),
    lineY m (k + 1) y = Ieee.binary32 (lineY m k y + m) := by
  intro k
  induction k with
  | zero => intro y; rfl
  | succ k ih =>
    intro y
    rw [lineY, ih]
    rfl

/-- The `float` `x` after one more round: the sum of `x` and the `double` `1.0 / m`,
formed in `double` and stored in a `float`. -/
theorem lineX_succ (m : Rat) : ∀ (k : Nat) (x : Rat),
    lineX m (k + 1) x =
      Ieee.binary32 (Ieee.binary64 (lineX m k x + Ieee.binary64 (1 / m))) := by
  intro k
  induction k with
  | zero => intro x; rfl
  | succ k ih =>
    intro x
    rw [lineX, ih]
    rfl

theorem roundX_zero (color : Color4f) (ix : Int) (y m : Rat) :
    roundX color ix y m 0 =
      [ Call.pixel ix (roundHalfUp y) color, Call.sample ix (roundHalfUp y - 1),
        Call.sample ix (roundHalfUp y + 1) ] := by
  simp [roundX, lineY]

theorem roundX_succ (color : Color4f) (ix : Int) (y m : Rat) (k : Nat) :
    roundX color ix y m (k + 1) = roundX color (ix + 1) (Ieee.binary32 (y + m)) m k := by
  have h : ix + ((k + 1 : Nat) : Int) = ix + 1 + (k : Int) := by push_cast; ring
  simp only [roundX, lineY, h]

theorem roundY_zero (color : Color4f) (iy : Int) (x m : Rat) :
    roundY color iy x m 0 =
      [ Call.pixel (roundHalfUp x) iy color, Call.sample (roundHalfUp x - 1) iy,
        Call.sample (roundHalfUp x + 1) iy ] := by
  simp [roundY, lineX]

theorem roundY_succ (color : Color4f) (iy : Int) (x m : Rat) (k : Nat) :
    roundY color iy x m (k + 1) =
      roundY color (iy + 1) (Ieee.binary32 (Ieee.binary64 (x + Ieee.binary64 (1 / m)))) m
        k := by
  have h : iy + ((k + 1 : Nat) : Int) = iy + 1 + (k : Int) := by push_cast; ring
  simp only [roundY, lineX, h]

theorem lineLoopX_eq (color : Color4f) (x1 : Int) (m : Rat) :
    ∀ (n : Nat) (ix : Int) (y : Rat), ix + n = x1 + 1 →
      lineLoopX color x1 m n ix y = (List.range n).flatMap (roundX color ix y m) := by
  intro n
  induction n with
  | zero => intro ix y _; rfl
  | succ n ih =>
    intro ix y h
    have hle : ix ≤ x1 := by push_cast at h; omega
    rw [lineLoopX, if_pos hle, ih (ix + 1) _ (by push_cast at h; omega),
      List.range_succ_eq_map, List.flatMap_cons, List.flatMap_map, roundX_zero]
    simp only [List.cons_append, List.nil_append, Function.comp, roundX_succ]

theorem lineLoopY_eq (color : Color4f) (y1 : Int) (m : Rat) :
    ∀ (n : Nat) (iy : Int) (x : Rat), iy + n = y1 + 1 →
      lineLoopY color y1 m n iy x = (List.range n).flatMap (roundY color iy x m) := by
  intro n
  induction n with
  | zero => intro iy x _; rfl
  | succ n ih =>
    intro iy x h
    have hle : iy ≤ y1 := by push_cast at h; omega
    rw [lineLoopY, if_pos hle, ih (iy + 1) _ (by push_cast at h; omega),
      List.range_succ_eq_map, List.flatMap_cons, List.flatMap_map, roundY_zero]
    simp only [List.cons_append, List.nil_append, Function.comp, roundY_succ]

theorem floor_add_half (z : Int) : ⌊(z : Rat) + 1 / 2⌋ = z := by
  rw [Int.floor_int_add]
  norm_num

/-- For an integer `z` of magnitude below `2 ^ 24`, `floor( z + 0.5 )` is `z`. -/
theorem roundHalfUp_int (z : Int) (h : |z| < 2 ^ 24) : roundHalfUp (z : Rat) = z := by
  unfold roundHalfUp
  rw [Ieee.binary64_int_add_half z h, floor_add_half]

/-- With `x0 < x1` and a `float` slope of at most 1, `drawLine` runs its first loop, once
for each `x` from `x0` to `x1`. -/
theorem drawLineCalls_x_branch (color : Color4f) (x0 y0 x1 y1 : Int) (hx : x0 < x1)
    (hm : slope x0 y0 x1 y1 ≤ 1) :
    drawLineCalls color x0 y0 x1 y1 =
      some ((List.range (x1 - x0 + 1).toNat).flatMap
        (roundX color x0 (Ieee.binary32 (y0 : Rat)) (slope x0 y0 x1 y1))) := by
  unfold drawLineCalls
  rw [if_neg (by omega)]
  simp only [hm, if_true]
  rw [lineLoopX_eq color x1 _ _ x0 _ (by rw [Int.toNat_of_nonneg (by omega)]; ring)]
  have : x1 + 1 - x0 = x1 - x0 + 1 := by ring
  rw [this]

/-- With a `float` slope above 1, `drawLine` runs its second loop, once for each `y` from
`y0` to `y1`. -/
theorem drawLineCalls_y_branch (color : Color4f) (x0 y0 x1 y1 : Int) (hx : x0 ≠ x1)
    (hm : 1 < slope x0 y0 x1 y1) :
    drawLineCalls color x0 y0 x1 y1 =
      some ((List.range (y1 - y0 + 1).toNat).flatMap
        (roundY color y0 (Ieee.binary32 (x0 : Rat)) (slope x0 y0 x1 y1))) := by
  unfold drawLineCalls
  rw [if_neg (fun h => hx h.symm)]
  simp only [not_le.mpr hm, if_false]
  have hn : y1 + 1 - y0 = y1 - y0 + 1 := by ring
  rw [hn]
  by_cases h0 : 0 ≤ y1 - y0 + 1
  · rw [lineLoopY_eq color y1 _ _ y0 _ (by rw [Int.toNat_of_nonneg h0]; ring)]
  · have hz : (y1 - y0 + 1).toNat = 0 := by omega
    rw [hz]
    rfl

/-- The pixel of the last round of the first loop is the last pixel plotted. -/
theorem roundX_last_pixel (color : Color4f) (x0 : Int) (y m : Rat) (n : Nat) :
    (((List.range (n + 1)).flatMap (roundX color x0 y m)).filter Call.isPixel).getLast? =
      some (Call.pixel (x0 + n) (roundHalfUp (lineY m n y)) color) := by
  rw [List.range_succ, List.flatMap_append, List.flatMap_singleton, List.filter_append]
  simp [roundX, Call.isPixel, List.getLast?_append]

/-! ### C5 - C6: the calls issued by `drawLine` -/

/-- C5, counterexample: the call `drawLine( 0, 0, 12, 2 )` has the slope `1/6`, of magnitude
at most 1. In exact arithmetic `y0 + 9 * m` is `3/2` and the closed form gives row 2 for
`x = 9`. The source adds the `float` nearest to `1/6` nine times in `float` arithmetic,
which gives a `y` just below `3/2`, and plots `(9, 1)`. The call
`drawLine( 0, 16777217, 1, 16777217 )` has the slope 0; `GLfloat y = y0` stores the
nearest `float`, 16777216, and the last pixel plotted is `(1, 16777216)`, not
`(x1, y1)`. -/
theorem drawLine_gentle_counterexample :
    |exactSlope 0 0 12 2| ≤ 1
      ∧ gentleRound Color4f.default 0 0 (exactSlope 0 0 12 2) 9 =
          [Call.pixel 9 2 Color4f.default, Call.sample 9 1, Call.sample 9 3]
      ∧ lineY (slope 0 0 12 2) 9 (Ieee.binary32 0) < 3 / 2
      ∧ (drawLineCalls Color4f.default 0 0 12 2).map (fun cs => (cs.drop 27).take 3) =
          some [Call.pixel 9 1 Color4f.default, Call.sample 9 0, Call.sample 9 2]
      ∧ |exactSlope 0 16777217 1 16777217| ≤ 1
      ∧ (drawLineCalls Color4f.default 0 16777217 1 16777217).map
          (fun cs => (cs.filter Call.isPixel).getLast?) =
            some (some (Call.pixel 1 16777216 Color4f.default)) := by
  refine ⟨?_, by decide!, by decide!, by decide!, ?_, by decide!⟩
  · have hs : exactSlope 0 0 12 2 = 1 / 6 := by norm_num [exactSlope]
    rw [hs]
    norm_num [abs_le]
  · norm_num [exactSlope]

/-- C5, amended: for `x0 < x1` and a `float` slope `m` with `|m| <= 1`, `drawLine` issues,
for each integer `x = x0 + k` in `[x0, x1]` in increasing order and once each, `drawPixel`
with the current colour at `(x, floor(y + 1/2))` followed by `superSample` on the cells
directly below and above it, where `y` is the `float` that starts as `y0` and is replaced
by the `float` sum `y + m` after each round; the pixel of the round for `x1` is the last
pixel plotted. -/
theorem drawLine_gentle (color : Color4f) (x0 y0 x1 y1 : Int) (hx : x0 < x1)
    (hm : |slope x0 y0 x1 y1| ≤ 1) :
    drawLineCalls color x0 y0 x1 y1 =
        some ((List.range (x1 - x0 + 1).toNat).flatMap
          (roundX color x0 (Ieee.binary32 (y0 : Rat)) (slope x0 y0 x1 y1)))
      ∧ (∀ k : Nat, roundX color x0 (Ieee.binary32 (y0 : Rat)) (slope x0 y0 x1 y1) k =
          [ Call.pixel (x0 + k)
              ⌊Ieee.binary64 (lineY (slope x0 y0 x1 y1) k (Ieee.binary32 (y0 : Rat)) + 1 / 2)⌋
              color,
            Call.sample (x0 + k)
              (⌊Ieee.binary64 (lineY (slope x0 y0 x1 y1) k (Ieee.binary32 (y0 : Rat)) + 1 / 2)⌋
                - 1),
            Call.sample (x0 + k)
              (⌊Ieee.binary64 (lineY (slope x0 y0 x1 y1) k (Ieee.binary32 (y0 : Rat)) + 1 / 2)⌋
                + 1) ])
      ∧ lineY (slope x0 y0 x1 y1) 0 (Ieee.binary32 (y0 : Rat)) = Ieee.binary32 (y0 : Rat)
      ∧ (∀ k : Nat, lineY (slope x0 y0 x1 y1) (k + 1) (Ieee.binary32 (y0 : Rat)) =
          Ieee.binary32
            (lineY (slope x0 y0 x1 y1) k (Ieee.binary32 (y0 : Rat)) + slope x0 y0 x1 y1))
      ∧ (((List.range (x1 - x0 + 1).toNat).flatMap
          (roundX color x0 (Ieee.binary32 (y0 : Rat)) (slope x0 y0 x1 y1))).filter
            Call.isPixel).getLast?
          = some (Call.pixel x1
              (roundHalfUp (lineY (slope x0 y0 x1 y1) (x1 - x0).toNat
                (Ieee.binary32 (y0 : Rat)))) color) := by
  have hm1 : slope x0 y0 x1 y1 ≤ 1 := (abs_le.mp hm).2
  refine ⟨drawLineCalls_x_branch color x0 y0 x1 y1 hx hm1, fun _ => rfl, rfl,
    fun k => lineY_succ _ k _, ?_⟩
  have hn : (x1 - x0 + 1).toNat = (x1 - x0).toNat + 1 := by omega
  have hk : x0 + (((x1 - x0).toNat : Nat) : Int) = x1 := by
    rw [Int.toNat_of_nonneg (by omega)]; ring
  rw [hn, roundX_last_pixel, hk]

/-- Witness of C5 (amended) on the demo call `drawLine( 0, 0, 14, 9 )`, whose last pixel is
`(14, 9)`. -/
theorem drawLine_gentle_witness :
    (((List.range ((14 : Int) - 0 + 1).toNat).flatMap
        (roundX Color4f.default 0 (Ieee.binary32 ((0 : Int) : Rat)) (slope 0 0 14 9))).filter
          Call.isPixel).getLast?
        = some (Call.pixel 14
            (roundHalfUp (lineY (slope 0 0 14 9) ((14 : Int) - 0).toNat
              (Ieee.binary32 ((0 : Int) : Rat)))) Color4f.default)
      ∧ roundHalfUp (lineY (slope 0 0 14 9) ((14 : Int) - 0).toNat
          (Ieee.binary32 ((0 : Int) : Rat))) = 9 :=
  ⟨(drawLine_gentle Color4f.default 0 0 14 9 (by decide) (by decide!)).2.2.2.2, by decide!⟩

/-- C6, amended: for `x0 != x1` and a `float` slope `m > 1`, `drawLine` issues, for each
integer `y = y0 + k` from `y0` to `y1` in increasing order, `drawPixel` with the current
colour at `(floor(x + 1/2), y)` followed by `superSample` on its left and right
neighbours, and nothing else, where `x` is the `float` that starts as `x0` and after each
round is replaced by the sum of `x` and the `double` quotient `1.0 / m`, rounded to
`double` and then to `float`; it does not iterate over `x`. -/
theorem drawLine_steep (color : Color4f) (x0 y0 x1 y1 : Int) (hx : x0 ≠ x1)
    (hm : 1 < slope x0 y0 x1 y1) :
    drawLineCalls color x0 y0 x1 y1 =
        some ((List.range (y1 - y0 + 1).toNat).flatMap
          (roundY color y0 (Ieee.binary32 (x0 : Rat)) (slope x0 y0 x1 y1)))
      ∧ (∀ k : Nat, roundY color y0 (Ieee.binary32 (x0 : Rat)) (slope x0 y0 x1 y1) k =
          [ Call.pixel
              ⌊Ieee.binary64 (lineX (slope x0 y0 x1 y1) k (Ieee.binary32 (x0 : Rat)) + 1 / 2)⌋
              (y0 + k) color,
            Call.sample
              (⌊Ieee.binary64 (lineX (slope x0 y0 x1 y1) k (Ieee.binary32 (x0 : Rat)) + 1 / 2)⌋
                - 1) (y0 + k),
            Call.sample
              (⌊Ieee.binary64 (lineX (slope x0 y0 x1 y1) k (Ieee.binary32 (x0 : Rat)) + 1 / 2)⌋
                + 1) (y0 + k) ])
      ∧ lineX (slope x0 y0 x1 y1) 0 (Ieee.binary32 (x0 : Rat)) = Ieee.binary32 (x0 : Rat)
      ∧ (∀ k : Nat, lineX (slope x0 y0 x1 y1) (k + 1) (Ieee.binary32 (x0 : Rat)) =
          Ieee.binary32 (Ieee.binary64
            (lineX (slope x0 y0 x1 y1) k (Ieee.binary32 (x0 : Rat))
              + Ieee.binary64 (1 / slope x0 y0 x1 y1)))) :=
  ⟨drawLineCalls_y_branch color x0 y0 x1 y1 hx hm, fun _ => rfl, rfl,
    fun k => lineX_succ _ k _⟩

/-- Witness of C6 (amended) on the demo call `drawLine( 30, -3, 33, 34 )`, slope `37/3`
rounded to `float`, and the round for `y = 9` of `drawLine( 0, 0, 2, 12 )`: the `float`
`x` is just below `3/2` there and the pixel is `(1, 9)`, where exact arithmetic gives
`(2, 9)`. -/
theorem drawLine_steep_witness :
    drawLineCalls Color4f.default 30 (-3) 33 34 =
        some ((List.range ((34 : Int) - (-3) + 1).toNat).flatMap
          (roundY Color4f.default (-3) (Ieee.binary32 ((30 : Int) : Rat))
            (slope 30 (-3) 33 34)))
      ∧ (drawLineCalls Color4f.default 0 0 2 12).map (fun cs => (cs.drop 27).take 3) =
        some [Call.pixel 1 9 Color4f.default, Call.sample 0 9, Call.sample 2 9]
      ∧ steepRound Color4f.default 0 0 (exactSlope 0 0 2 12) 9 =
        [Call.pixel 2 9 Color4f.default, Call.sample 1 9, Call.sample 3 9] :=
  ⟨(drawLine_steep Color4f.default 30 (-3) 33 34 (by decide) (by decide!)).1, by decide!,
    by decide!⟩

/-- C6, counterexample: `drawLine( 0, 5, 2, 0 )` has slope `-5/2`, of magnitude above 1,
yet takes the branch `m <= 1` and iterates over `x = 0, 1, 2`, where the rounds over `y`
from 5 to 0 would be none at all; `drawLine( 2, 0, 0, 5 )`, of the same slope, issues no
call, where the rounds over `y` from 0 to 5 would be six. -/
theorem drawLine_steep_counterexample :
    1 < |exactSlope 0 5 2 0|
      ∧ slope 0 5 2 0 = exactSlope 0 5 2 0
      ∧ drawLineCalls Color4f.default 0 5 2 0 =
        some [ Call.pixel 0 5 Color4f.default, Call.sample 0 4, Call.sample 0 6,
               Call.pixel 1 3 Color4f.default, Call.sample 1 2, Call.sample 1 4,
               Call.pixel 2 0 Color4f.default, Call.sample 2 (-1), Call.sample 2 1 ]
      ∧ (List.range ((0 : Int) - 5 + 1).toNat).flatMap
          (steepRound Color4f.default 0 5 (exactSlope 0 5 2 0)) = []
      ∧ 1 < |exactSlope 2 0 0 5|
      ∧ slope 2 0 0 5 = exactSlope 2 0 0 5
      ∧ drawLineCalls Color4f.default 2 0 0 5 = some []
      ∧ (List.range ((5 : Int) - 0 + 1).toNat).flatMap
          (steepRound Color4f.default 2 0 (exactSlope 2 0 0 5)) ≠ [] := by
  have hs : exactSlope 0 5 2 0 = -5 / 2 := by norm_num [exactSlope]
  have hs2 : exactSlope 2 0 0 5 = -5 / 2 := by norm_num [exactSlope]
  refine ⟨?_, by decide!, by decide!, ?_, ?_, by decide!, by decide!, ?_⟩
  · rw [hs]; norm_num [abs_of_neg]
  · have h0 : ((0 : Int) - 5 + 1).toNat = 0 := by decide
    rw [h0]; rfl
  · rw [hs2]; norm_num [abs_of_neg]
  · have h6 : ((5 : Int) - 0 + 1).toNat = 6 := by decide
    rw [h6]
    simp [List.range_succ, steepRound]

/-! ### Helper lemmas on the effect of calls -/

theorem drawPixel_width (g : RasterMap) (x y : Int) (c : Color4f) :
    (g.drawPixel x y c).m_GridWidth = g.m_GridWidth := by
  unfold drawPixel store; split_ifs <;> rfl

theorem drawPixel_height (g : RasterMap) (x y : Int) (c : Color4f) :
    (g.drawPixel x y c).m_GridHeight = g.m_GridHeight := by
  unfold drawPixel store; split_ifs <;> rfl

theorem drawPixel_color (g : RasterMap) (x y : Int) (c : Color4f) :
    (g.drawPixel x y c).m_Color = g.m_Color := by
  unfold drawPixel store; split_ifs <;> rfl

theorem drawPixel_cell (g : RasterMap) (x y : Int) (c : Color4f) (i j : Int) :
    (g.drawPixel x y c).m_RasterMap i j =
      if inGrid g x y ∧ i = x ∧ j = y then c else g.m_RasterMap i j := by
  by_cases h : inGrid g x y
  · rw [drawPixel_of_inGrid g x y c h]
    simp [store, h]
  · rw [drawPixel_of_not_inGrid g x y c h]
    simp [h]

theorem clampSample_range (extent centre t : Int) (h0 : 0 < extent) (h1 : centre < extent)
    (ht : t ≤ centre + 1) :
    0 ≤ clampSample extent centre t ∧ clampSample extent centre t < extent := by
  unfold clampSample
  simp only
  split_ifs <;> omega

/-- Whenever the grid is not empty and `x`, `y` lie below the extents, every read of
`superSample( x, y )` is inside the raster and the call ends in `drawPixel( x, y, c )`. -/
theorem superSample_defined (g : RasterMap) (x y : Int) (hw : 0 < g.m_GridWidth)
    (hh : 0 < g.m_GridHeight) (hx : x < g.m_GridWidth) (hy : y < g.m_GridHeight) :
    ∃ c, g.superSample x y = some (g.drawPixel x y c) := by
  have hread : ∀ iX iY : Int, iX ≤ 1 → iY ≤ 1 → ∃ c, g.colorGrid x y iX iY = some c := by
    intro iX iY hiX hiY
    have h1 := clampSample_range g.m_GridWidth x (x + iX) hw hx (by omega)
    have h2 := clampSample_range g.m_GridHeight y (y + iY) hh hy (by omega)
    exact ⟨_, by unfold colorGrid sampleIndex readCell; rw [if_pos ⟨h1.1, h1.2, h2.1, h2.2⟩]⟩
  obtain ⟨c00, e00⟩ := hread (-1) (-1) (by decide) (by decide)
  obtain ⟨c01, e01⟩ := hread (-1) 0 (by decide) (by decide)
  obtain ⟨c02, e02⟩ := hread (-1) 1 (by decide) (by decide)
  obtain ⟨c10, e10⟩ := hread 0 (-1) (by decide) (by decide)
  obtain ⟨c11, e11⟩ := hread 0 0 (by decide) (by decide)
  obtain ⟨c12, e12⟩ := hread 0 1 (by decide) (by decide)
  obtain ⟨c20, e20⟩ := hread 1 (-1) (by decide) (by decide)
  obtain ⟨c21, e21⟩ := hread 1 0 (by decide) (by decide)
  obtain ⟨c22, e22⟩ := hread 1 1 (by decide) (by decide)
  unfold superSample
  simp only [e00, e01, e02, e10, e11, e12, e20, e21, e22, Option.bind_eq_bind,
    Option.some_bind, Option.pure_def]
  exact ⟨_, rfl⟩

/-- A returning `superSample( x, y )` has read its cells inside the raster, among them
those for the loop indices `(-1, -1)`, `(0, -1)` and `(0, 0)`. -/
theorem superSample_reads (g g1 : RasterMap) (x y : Int) (h : g.superSample x y = some g1) :
    (∃ c, g.colorGrid x y (-1) (-1) = some c) ∧ (∃ c, g.colorGrid x y 0 (-1) = some c)
      ∧ (∃ c, g.colorGrid x y 0 0 = some c) := by
  unfold superSample at h
  simp only [Option.bind_eq_bind, Option.pure_def, Option.bind_eq_some] at h
  obtain ⟨c00, h00, _, _, _, _, c10, h10, c11, h11, _⟩ := h
  exact ⟨⟨c00, h00⟩, ⟨c10, h10⟩, ⟨c11, h11⟩⟩

theorem superSample_none_of_read (g : RasterMap) (x y : Int)
    (h : g.colorGrid x y (-1) (-1) = none ∨ g.colorGrid x y 0 (-1) = none
      ∨ g.colorGrid x y 0 0 = none) : g.superSample x y = none := by
  cases hs : g.superSample x y with
  | none => rfl
  | some g1 =>
    obtain ⟨⟨_, h1⟩, ⟨_, h2⟩, ⟨_, h3⟩⟩ := superSample_reads g g1 x y hs
    rcases h with h | h | h
    · rw [h] at h1; exact absurd h1 (by simp)
    · rw [h] at h2; exact absurd h2 (by simp)
    · rw [h] at h3; exact absurd h3 (by simp)

/-- At a column at or beyond the width, `superSample` reads `m_RasterMap[x]` outside the
raster: the clamp replaces the neighbour coordinate by `x` itself. -/
theorem superSample_undefined (g : RasterMap) (x y : Int) (h0 : 0 ≤ x)
    (hw : g.m_GridWidth ≤ x) : g.superSample x y = none := by
  have e10 : g.colorGrid x y 0 (-1) = none := by
    unfold colorGrid sampleIndex readCell clampSample
    simp only [add_zero]
    split_ifs <;> first | rfl | omega
  exact superSample_none_of_read g x y (Or.inr (Or.inl e10))

/-- A returning `superSample( x, y )` is a `drawPixel( x, y, c )`. -/
theorem superSample_some (g g1 : RasterMap) (x y : Int) (h : g.superSample x y = some g1) :
    ∃ c, g1 = g.drawPixel x y c := by
  unfold superSample at h
  simp only [Option.bind_eq_bind, Option.pure_def, Option.bind_eq_some] at h
  obtain ⟨_, _, _, _, _, _, _, _, _, _, _, _, _, _, _, _, _, _, h⟩ := h
  simp only [Option.some.injEq] at h
  exact ⟨_, h.symm⟩

theorem exec_extent (g g1 : RasterMap) (c : Call) (h : exec g c = some g1) :
    g1.m_GridWidth = g.m_GridWidth ∧ g1.m_GridHeight = g.m_GridHeight := by
  cases c with
  | pixel x y col =>
    simp only [exec, Option.some.injEq] at h
    subst h
    exact ⟨drawPixel_width _ _ _ _, drawPixel_height _ _ _ _⟩
  | sample x y =>
    obtain ⟨c, rfl⟩ := superSample_some g g1 x y h
    exact ⟨drawPixel_width _ _ _ _, drawPixel_height _ _ _ _⟩


/-- A read of `superSample( x, y )` leaves the raster as soon as the grid is empty or `x`
or `y` is at or beyond its extent. -/
theorem colorGrid_centre_none (g : RasterMap) (x y : Int)
    (h : ¬ (0 < g.m_GridWidth ∧ 0 < g.m_GridHeight ∧ x < g.m_GridWidth ∧ y < g.m_GridHeight)) :
    g.colorGrid x y (-1) (-1) = none ∨ g.colorGrid x y 0 0 = none := by
  unfold colorGrid sampleIndex readCell clampSample
  simp only [add_zero]
  by_cases h1 : 0 < g.m_GridWidth ∧ 0 < g.m_GridHeight
  · right
    split_ifs <;> first | rfl | omega
  · left
    split_ifs <;> first | rfl | omega

/-- The call `superSample( x, y )` returns exactly when the grid is not empty and `x` and
`y` lie below its extents. -/
theorem superSample_isSome_iff (g : RasterMap) (x y : Int) :
    (g.superSample x y).isSome ↔
      (0 < g.m_GridWidth ∧ 0 < g.m_GridHeight ∧ x < g.m_GridWidth ∧ y < g.m_GridHeight) := by
  constructor
  · intro hs
    by_contra hcon
    have hnone : g.superSample x y = none := by
      rcases colorGrid_centre_none g x y hcon with h | h
      · exact superSample_none_of_read g x y (Or.inl h)
      · exact superSample_none_of_read g x y (Or.inr (Or.inr h))
    rw [hnone] at hs
    exact absurd hs (by simp)
  · rintro ⟨hw, hh, hx, hy⟩
    obtain ⟨c, hc⟩ := superSample_defined g x y hw hh hx hy
    rw [hc]
    rfl

theorem slope_horizontal (x0 y x1 : Int) : slope x0 y x1 y = 0 := by
  simp [slope, Ieee.binary32_zero]

/-- A round of the first loop for a horizontal line in a row `y` that is a `float` and for
which `floor( y + 0.5 )` is `y`. -/
theorem lineLoopX_horizontal_succ (col : Color4f) (x1 y : Int)
    (hy : Ieee.binary32 (y : Rat) = y) (hr : roundHalfUp (y : Rat) = y) (n : Nat) (ix : Int)
    (h : ix ≤ x1) :
    lineLoopX col x1 0 (n + 1) ix (y : Rat) =
      Call.pixel ix y col :: Call.sample ix (y - 1) :: Call.sample ix (y + 1)
        :: lineLoopX col x1 0 n (ix + 1) (y : Rat) := by
  rw [lineLoopX, if_pos h, hr, add_zero, hy]

/-- A horizontal run of the first loop of `drawLine` that stays left of the width and
below the top row returns; it leaves the current colour in the in-grid cells of row `y`
and changes nothing outside rows `y-1 .. y+1` and columns `ix .. x1`. -/
theorem run_horizontal (col : Color4f) (x1 y : Int)
    (hy32 : Ieee.binary32 (y : Rat) = y) (hr : roundHalfUp (y : Rat) = y) :
    ∀ (n : Nat) (ix : Int) (g : RasterMap), ix + n = x1 + 1 → 0 < g.m_GridWidth →
      0 < g.m_GridHeight → x1 < g.m_GridWidth → y + 1 < g.m_GridHeight →
      ∃ g1, run (lineLoopX col x1 0 n ix (y : Rat)) g = some g1
        ∧ g1.m_GridWidth = g.m_GridWidth ∧ g1.m_GridHeight = g.m_GridHeight
        ∧ g1.m_Color = g.m_Color
        ∧ (∀ i j, ¬ (ix ≤ i ∧ i ≤ x1 ∧ y - 1 ≤ j ∧ j ≤ y + 1) →
            g1.m_RasterMap i j = g.m_RasterMap i j)
        ∧ (∀ i, ix ≤ i → i ≤ x1 → inGrid g i y → g1.m_RasterMap i y = col) := by
  intro n
  induction n with
  | zero =>
    intro ix g _ _ _ _ _
    refine ⟨g, rfl, rfl, rfl, rfl, fun _ _ _ => rfl, ?_⟩
    intro i h1 h2 _
    omega
  | succ n ih =>
    intro ix g hn hw hh hx hy
    have hle : ix ≤ x1 := by push_cast at hn; omega
    rw [lineLoopX_horizontal_succ col x1 y hy32 hr n ix hle]
    obtain ⟨c2, e2⟩ := superSample_defined (g.drawPixel ix y col) ix (y - 1)
      (by rw [drawPixel_width]; exact hw) (by rw [drawPixel_height]; exact hh)
      (by rw [drawPixel_width]; omega) (by rw [drawPixel_height]; omega)
    obtain ⟨c3, e3⟩ := superSample_defined
      (((g.drawPixel ix y col).drawPixel ix (y - 1) c2)) ix (y + 1)
      (by rw [drawPixel_width, drawPixel_width]; exact hw)
      (by rw [drawPixel_height, drawPixel_height]; exact hh)
      (by rw [drawPixel_width, drawPixel_width]; omega)
      (by rw [drawPixel_height, drawPixel_height]; omega)
    obtain ⟨g1, r1, w1, hh1, col1, frame1, row1⟩ :=
      ih (ix + 1) ((((g.drawPixel ix y col).drawPixel ix (y - 1) c2)).drawPixel ix (y + 1) c3)
        (by push_cast at hn; omega)
        (by simp only [drawPixel_width]; exact hw)
        (by simp only [drawPixel_height]; exact hh)
        (by simp only [drawPixel_width]; exact hx)
        (by simp only [drawPixel_height]; exact hy)
    refine ⟨g1, ?_, ?_, ?_, ?_, ?_, ?_⟩
    · simp only [run, exec, Option.some_bind, e2, e3]
      exact r1
    · rw [w1]; simp only [drawPixel_width]
    · rw [hh1]; simp only [drawPixel_height]
    · rw [col1]; simp only [drawPixel_color]
    · intro i j hij
      rw [frame1 i j (by omega), drawPixel_cell, if_neg (by omega), drawPixel_cell,
        if_neg (by omega), drawPixel_cell, if_neg (by omega)]
    · intro i h1 h2 hin
      by_cases hi : i = ix
      · subst hi
        rw [frame1 i y (by omega), drawPixel_cell, if_neg (by omega), drawPixel_cell,
          if_neg (by omega), drawPixel_cell, if_pos ⟨hin, rfl, rfl⟩]
      · refine row1 i (by omega) h2 ?_
        unfold inGrid at hin ⊢
        simp only [drawPixel_width, drawPixel_height]
        exact hin

/-- A horizontal run of the first loop of `drawLine` that reaches a column at or beyond
the width does not return: `superSample` reads outside the raster there. -/
theorem run_horizontal_undefined (col : Color4f) (x1 y : Int)
    (hy32 : Ieee.binary32 (y : Rat) = y) (hr : roundHalfUp (y : Rat) = y) :
    ∀ (n : Nat) (ix : Int) (g : RasterMap), ix + n = x1 + 1 → 1 ≤ n → 0 ≤ x1 →
      g.m_GridWidth ≤ x1 → run (lineLoopX col x1 0 n ix (y : Rat)) g = none := by
  intro n
  induction n with
  | zero => intro ix g _ h; omega
  | succ n ih =>
    intro ix g hn _ h0 hw
    have hle : ix ≤ x1 := by push_cast at hn; omega
    rw [lineLoopX_horizontal_succ col x1 y hy32 hr n ix hle]
    simp only [run, exec, Option.some_bind]
    by_cases hcase : 0 ≤ ix ∧ g.m_GridWidth ≤ ix
    · rw [superSample_undefined _ ix (y - 1) hcase.1 (by rw [drawPixel_width]; exact hcase.2)]
      rfl
    · cases e2 : (g.drawPixel ix y col).superSample ix (y - 1) with
      | none => rfl
      | some g2 =>
        simp only [Option.some_bind]
        cases e3 : g2.superSample ix (y + 1) with
        | none => rfl
        | some g3 =>
          simp only [Option.some_bind]
          have w2 := (exec_extent _ g2 (Call.sample ix (y - 1)) e2).1
          have w3 := (exec_extent _ g3 (Call.sample ix (y + 1)) e3).1
          rw [drawPixel_width] at w2
          exact ih (ix + 1) g3 (by push_cast at hn; omega) (by omega) h0
            (by rw [w3, w2]; exact hw)


/-! ### C7: horizontal lines -/

theorem drawLineCalls_horizontal (col : Color4f) (x0 y x1 : Int)
    (hy32 : Ieee.binary32 (y : Rat) = y) (hx : x0 < x1) :
    drawLineCalls col x0 y x1 y = some (lineLoopX col x1 0 (x1 + 1 - x0).toNat x0 (y : Rat)) := by
  unfold drawLineCalls
  rw [if_neg (by omega), slope_horizontal, hy32]
  simp

theorem pixel_row_horizontal (col : Color4f) (x1 y : Int)
    (hy32 : Ieee.binary32 (y : Rat) = y) (hr : roundHalfUp (y : Rat) = y) :
    ∀ (n : Nat) (ix : Int) (a b : Int) (c : Color4f),
      Call.pixel a b c ∈ lineLoopX col x1 0 n ix (y : Rat) → b = y ∧ c = col := by
  intro n
  induction n with
  | zero => intro ix a b c h; simp [lineLoopX] at h
  | succ n ih =>
    intro ix a b c h
    by_cases hle : ix ≤ x1
    · rw [lineLoopX_horizontal_succ col x1 y hy32 hr n ix hle] at h
      simp only [List.mem_cons, Call.pixel.injEq] at h
      rcases h with h | h | h | h
      · exact ⟨h.2.1, h.2.2⟩
      · exact absurd h (by simp)
      · exact absurd h (by simp)
      · exact ih _ _ _ _ h
    · rw [lineLoopX, if_neg hle] at h
      simp at h

/-- A horizontal `drawLine( x0, y, x1, y )` with `x0 < x1` on a non-empty grid, with
`x1` below the width and `y + 1` below the height, in a row `y` of magnitude below
`2 ^ 24` (which a `float` holds exactly), returns; afterwards every in-grid cell
`(x, y)` with `x` in `[x0, x1]` holds the current colour, every `drawPixel` call issued by
`drawLine` itself is in row `y` with the current colour, and no cell outside rows
`y-1 .. y+1` and columns `x0 .. x1` is changed. -/
theorem drawLine_horizontal_in_range (g : RasterMap) (x0 y x1 : Int) (hb : |y| < 2 ^ 24)
    (hx : x0 < x1) (hw : 0 < g.m_GridWidth) (hh : 0 < g.m_GridHeight)
    (hx1 : x1 < g.m_GridWidth) (hy : y + 1 < g.m_GridHeight) :
    ∃ g1, g.drawLine x0 y x1 y = some g1
      ∧ (∀ x, x0 ≤ x → x ≤ x1 → inGrid g x y → g1.m_RasterMap x y = g.m_Color)
      ∧ (∀ cs, drawLineCalls g.m_Color x0 y x1 y = some cs →
          ∀ a b c, Call.pixel a b c ∈ cs → b = y ∧ c = g.m_Color)
      ∧ (∀ i j, ¬ (x0 ≤ i ∧ i ≤ x1 ∧ y - 1 ≤ j ∧ j ≤ y + 1) →
          g1.m_RasterMap i j = g.m_RasterMap i j) := by
  have hy32 := Ieee.binary32_int y hb
  have hr := roundHalfUp_int y hb
  obtain ⟨g1, r1, _, _, _, frame1, row1⟩ :=
    run_horizontal g.m_Color x1 y hy32 hr (x1 + 1 - x0).toNat x0 g
      (by rw [Int.toNat_of_nonneg (by omega)]; ring) hw hh hx1 hy
  refine ⟨g1, ?_, row1, ?_, frame1⟩
  · unfold drawLine
    rw [drawLineCalls_horizontal _ _ _ _ hy32 hx]
    exact r1
  · intro cs hcs a b c hmem
    rw [drawLineCalls_horizontal _ _ _ _ hy32 hx] at hcs
    simp only [Option.some.injEq] at hcs
    subst hcs
    exact pixel_row_horizontal _ _ _ hy32 hr _ _ _ _ _ hmem

/-- A horizontal `drawLine( x0, y, x1, y )` with `x0 < x1`, in a row of magnitude below
`2 ^ 24`, whose last column `x1` is at or beyond the width does not return: `superSample`
reads outside the raster. -/
theorem drawLine_horizontal_undefined (g : RasterMap) (x0 y x1 : Int) (hb : |y| < 2 ^ 24)
    (hx : x0 < x1) (h0 : 0 ≤ x1) (hw : g.m_GridWidth ≤ x1) : g.drawLine x0 y x1 y = none := by
  have hy32 := Ieee.binary32_int y hb
  have hr := roundHalfUp_int y hb
  unfold drawLine
  rw [drawLineCalls_horizontal _ _ _ _ hy32 hx]
  exact run_horizontal_undefined g.m_Color x1 y hy32 hr (x1 + 1 - x0).toNat x0 g
    (by rw [Int.toNat_of_nonneg (by omega)]; ring) (by omega) h0 hw

/-- C7, failing input: on the 40 x 30 grid of the demo, the horizontal call
`drawLine( 30, 5, 45, 5 )` does not return a grid: at `ix = 40` `superSample( 40, 4 )`
reads `m_RasterMap[40]`, beyond the 40 allocated columns. -/
theorem drawLine_horizontal_failing :
    ((new 40 30 (1 / 10)).setColor ⟨10, 30, 100, 0⟩).drawLine 30 5 45 5 = none :=
  drawLine_horizontal_undefined _ 30 5 45 (by norm_num) (by decide) (by decide) (by decide)

/-- The demo-like call `drawLine( 0, 0, 10, 0 )` on the 40 x 30 grid returns and leaves the
current colour in row 0, for instance in cell `(7, 0)`. -/
theorem drawLine_horizontal_in_range_witness :
    ∃ g1, ((new 40 30 (1 / 10)).setColor ⟨10, 30, 100, 0⟩).drawLine 0 0 10 0 = some g1
      ∧ g1.m_RasterMap 7 0 = ⟨10, 30, 100, 0⟩ := by
  obtain ⟨g1, h1, h2, _, _⟩ := drawLine_horizontal_in_range
    ((new 40 30 (1 / 10)).setColor ⟨10, 30, 100, 0⟩) 0 0 10 (by norm_num) (by decide)
    (by decide) (by decide) (by decide) (by decide)
  exact ⟨g1, h1, h2 7 (by decide) (by decide) (by decide)⟩

/-! ### C8 - C9: `drawCircle` -/

/-- Running `drawPixel` calls that all carry the colour `col` returns; a cell named by one
of the calls holds `col` afterwards when it is in the grid, every other cell is unchanged. -/
theorem run_pixels (col : Color4f) :
    ∀ (cs : List Call) (g : RasterMap), (∀ c ∈ cs, ∃ a b, c = Call.pixel a b col) →
      ∃ g1, run cs g = some g1
        ∧ g1.m_GridWidth = g.m_GridWidth ∧ g1.m_GridHeight = g.m_GridHeight
        ∧ (∀ i j, Call.pixel i j col ∈ cs → inGrid g i j → g1.m_RasterMap i j = col)
        ∧ (∀ i j, Call.pixel i j col ∉ cs → g1.m_RasterMap i j = g.m_RasterMap i j) := by
  intro cs
  induction cs with
  | nil =>
    intro g _
    exact ⟨g, rfl, rfl, rfl, fun _ _ h => absurd h (List.not_mem_nil _), fun _ _ _ => rfl⟩
  | cons c cs ih =>
    intro g hall
    obtain ⟨a, b, rfl⟩ := hall c (List.mem_cons_self _ _)
    obtain ⟨g1, r1, w1, h1, in1, out1⟩ :=
      ih (g.drawPixel a b col) (fun c hc => hall c (List.mem_cons_of_mem _ hc))
    rw [drawPixel_width] at w1
    rw [drawPixel_height] at h1
    refine ⟨g1, ?_, w1, h1, ?_, ?_⟩
    · simp only [run, exec, Option.some_bind]
      exact r1
    · intro i j hmem hin
      by_cases hcs : Call.pixel i j col ∈ cs
      · exact in1 i j hcs (by unfold inGrid at hin ⊢; rw [drawPixel_width, drawPixel_height]; exact hin)
      · have hij : i = a ∧ j = b := by
          rcases List.mem_cons.mp hmem with h | h
          · simp only [Call.pixel.injEq] at h
            exact ⟨h.1, h.2.1⟩
          · exact absurd h hcs
        obtain ⟨rfl, rfl⟩ := hij
        rw [out1 i j hcs, drawPixel_cell, if_pos ⟨hin, rfl, rfl⟩]
    · intro i j hmem
      have hcs : Call.pixel i j col ∉ cs := fun h => hmem (List.mem_cons_of_mem _ h)
      have hne : ¬ (i = a ∧ j = b) := by
        rintro ⟨rfl, rfl⟩
        exact hmem (List.mem_cons_self _ _)
      rw [out1 i j hcs, drawPixel_cell, if_neg (fun h => hne h.2)]

theorem circleLoop_pixels (col : Color4f) (x0 y0 : Int) :
    ∀ (n : Nat) (s : CircleState), ∀ c ∈ circleLoop col x0 y0 n s,
      ∃ a b, c = Call.pixel a b col := by
  intro n
  induction n with
  | zero => intro s c h; simp [circleLoop] at h
  | succ n ih =>
    intro s c h
    rw [circleLoop] at h
    split_ifs at h with hyx
    · rcases List.mem_append.mp h with h | h
      · simp only [octantCalls, List.mem_cons, List.mem_singleton, List.not_mem_nil,
          or_false] at h
        rcases h with h | h | h | h | h | h | h | h <;> exact ⟨_, _, h⟩
      · exact ih _ c h
    · simp at h

theorem drawCircleCalls_pixels (col : Color4f) (x0 y0 R : Int) :
    ∀ c ∈ drawCircleCalls col x0 y0 R, ∃ a b, c = Call.pixel a b col := by
  intro c h
  rcases List.mem_append.mp h with h | h
  · simp only [startCalls, List.mem_cons, List.mem_singleton, List.not_mem_nil,
      or_false] at h
    rcases h with h | h | h | h <;> exact ⟨_, _, h⟩
  · exact circleLoop_pixels col x0 y0 _ _ c h

/-- C8: for every centre and every `R`, in particular `R > 0`, the first four calls of
`drawCircle( x0, y0, R )`, issued before the loop, are `drawPixel` with the current colour
at `(x0, y0+R)`, `(x0+R, y0)`, `(x0, y0-R)`, `(x0-R, y0)`; the call returns, and each of
the four points that lies inside the grid holds the current colour afterwards. -/
theorem drawCircle_start (g : RasterMap) (x0 y0 R : Int) :
    (drawCircleCalls g.m_Color x0 y0 R).take 4 =
        [ Call.pixel x0 (y0 + R) g.m_Color, Call.pixel (x0 + R) y0 g.m_Color,
          Call.pixel x0 (y0 - R) g.m_Color, Call.pixel (x0 - R) y0 g.m_Color ]
      ∧ (drawCircleCalls g.m_Color x0 y0 R).drop 4 =
        circleLoop g.m_Color x0 y0 R.toNat (circleInit R)
      ∧ ∃ g1, g.drawCircle x0 y0 R = some g1
        ∧ (inGrid g x0 (y0 + R) → g1.m_RasterMap x0 (y0 + R) = g.m_Color)
        ∧ (inGrid g x0 (y0 - R) → g1.m_RasterMap x0 (y0 - R) = g.m_Color)
        ∧ (inGrid g (x0 + R) y0 → g1.m_RasterMap (x0 + R) y0 = g.m_Color)
        ∧ (inGrid g (x0 - R) y0 → g1.m_RasterMap (x0 - R) y0 = g.m_Color) := by
  refine ⟨rfl, rfl, ?_⟩
  obtain ⟨g1, r1, _, _, in1, _⟩ :=
    run_pixels g.m_Color (drawCircleCalls g.m_Color x0 y0 R) g
      (drawCircleCalls_pixels g.m_Color x0 y0 R)
  have hmem : ∀ c ∈ startCalls g.m_Color x0 y0 R, c ∈ drawCircleCalls g.m_Color x0 y0 R :=
    fun c hc => List.mem_append_left _ hc
  refine ⟨g1, r1, ?_, ?_, ?_, ?_⟩
  · exact in1 _ _ (hmem _ (by simp [startCalls]))
  · exact in1 _ _ (hmem _ (by simp [startCalls]))
  · exact in1 _ _ (hmem _ (by simp [startCalls]))
  · exact in1 _ _ (hmem _ (by simp [startCalls]))


/-- Witness of C8 on the demo call `drawCircle( 17, 17, 10 )` on the 40 x 30 grid. -/
theorem drawCircle_start_witness :
    ∃ g1, ((new 40 30 (1 / 10)).setColor ⟨145, 20, 0, 0⟩).drawCircle 17 17 10 = some g1
      ∧ g1.m_RasterMap 17 27 = ⟨145, 20, 0, 0⟩ ∧ g1.m_RasterMap 17 7 = ⟨145, 20, 0, 0⟩
      ∧ g1.m_RasterMap 27 17 = ⟨145, 20, 0, 0⟩ ∧ g1.m_RasterMap 7 17 = ⟨145, 20, 0, 0⟩ := by
  obtain ⟨_, _, g1, h, p1, p2, p3, p4⟩ :=
    drawCircle_start ((new 40 30 (1 / 10)).setColor ⟨145, 20, 0, 0⟩) 17 17 10
  exact ⟨g1, h, p1 (by decide), p2 (by decide), p3 (by decide), p4 (by decide)⟩

/-- The calls of `drawCircle( 10, 20, 5 )`: the starting pixels and the rounds for the
octant points `(1, 5)`, `(2, 5)`, `(3, 4)`, `(4, 3)`. -/
theorem drawCircleCalls_10_20_5 (col : Color4f) :
    drawCircleCalls col 10 20 5 =
      startCalls col 10 20 5 ++ octantCalls col 10 20 1 5 ++ octantCalls col 10 20 2 5
        ++ octantCalls col 10 20 3 4 ++ octantCalls col 10 20 4 3 := by
  have h5 : (5 : Int).toNat = 5 := rfl
  unfold drawCircleCalls
  rw [h5]
  norm_num [circleLoop, circleStep, circleInit]

/-- C9, failing input: in `drawCircle( 10, 20, 5 )` the first round reaches the octant
point `(1, 5)` and passes `(15, 9)`, `(5, 9)`, `(5, 11)` to `drawPixel` where the
reflections about the centre are `(15, 19)`, `(5, 19)`, `(5, 21)`; on the 40 x 30 grid the
cell `(15, 19)` keeps the initial colour and the cell `(15, 9)` is painted. -/
theorem drawCircle_octant_failing :
    circleStep (circleInit 5) = ⟨1, 5, 5, -3, -3 / 4⟩
      ∧ ((drawCircleCalls ⟨145, 20, 0, 0⟩ 10 20 5).drop 4).take 8 =
        [ Call.pixel 11 25 ⟨145, 20, 0, 0⟩, Call.pixel 11 15 ⟨145, 20, 0, 0⟩,
          Call.pixel 9 15 ⟨145, 20, 0, 0⟩, Call.pixel 9 25 ⟨145, 20, 0, 0⟩,
          Call.pixel 15 21 ⟨145, 20, 0, 0⟩, Call.pixel 15 9 ⟨145, 20, 0, 0⟩,
          Call.pixel 5 9 ⟨145, 20, 0, 0⟩, Call.pixel 5 11 ⟨145, 20, 0, 0⟩ ]
      ∧ reflections ⟨145, 20, 0, 0⟩ 10 20 1 5 =
        [ Call.pixel 11 25 ⟨145, 20, 0, 0⟩, Call.pixel 11 15 ⟨145, 20, 0, 0⟩,
          Call.pixel 9 15 ⟨145, 20, 0, 0⟩, Call.pixel 9 25 ⟨145, 20, 0, 0⟩,
          Call.pixel 15 21 ⟨145, 20, 0, 0⟩, Call.pixel 15 19 ⟨145, 20, 0, 0⟩,
          Call.pixel 5 19 ⟨145, 20, 0, 0⟩, Call.pixel 5 21 ⟨145, 20, 0, 0⟩ ]
      ∧ (((new 40 30 (1 / 10)).setColor ⟨145, 20, 0, 0⟩).drawCircle 10 20 5).map
          (fun g1 => (g1.m_RasterMap 15 19, g1.m_RasterMap 15 9))
        = some (initialColor, ⟨145, 20, 0, 0⟩) := by
  refine ⟨?_, ?_, ?_, ?_⟩
  · norm_num [circleStep, circleInit]
  · rw [drawCircleCalls_10_20_5]
    norm_num [startCalls, octantCalls]
  · norm_num [reflections]
  · obtain ⟨g1, r1, _, _, in1, out1⟩ :=
      run_pixels ⟨145, 20, 0, 0⟩ (drawCircleCalls ⟨145, 20, 0, 0⟩ 10 20 5)
        ((new 40 30 (1 / 10)).setColor ⟨145, 20, 0, 0⟩)
        (drawCircleCalls_pixels _ 10 20 5)
    have e : ((new 40 30 (1 / 10)).setColor ⟨145, 20, 0, 0⟩).drawCircle 10 20 5 = some g1 := r1
    rw [e, Option.map_some']
    have h1 := out1 15 19 (by rw [drawCircleCalls_10_20_5]; norm_num [startCalls, octantCalls])
    have h2 := in1 15 9 (by rw [drawCircleCalls_10_20_5]; norm_num [startCalls, octantCalls])
      (by decide)
    rw [h1, h2]
    rfl

/-- For a centre with `y0 = x0`, as in both circles of the demo, the eight calls of a
round are the eight reflections. -/
theorem octantCalls_diagonal (col : Color4f) (x0 x y : Int) :
    octantCalls col x0 x0 x y = reflections col x0 x0 x y := rfl

/-! ### The fuel of the loops is enough -/

/-- More fuel than the counter of the first loop of `drawLine` has values changes nothing:
the loop ends because `ix <= x1` fails. -/
theorem lineLoopX_fuel (col : Color4f) (x1 : Int) (m : Rat) :
    ∀ (n k : Nat) (ix : Int) (y : Rat), x1 + 1 - ix ≤ n →
      lineLoopX col x1 m (n + k) ix y = lineLoopX col x1 m n ix y := by
  intro n
  induction n with
  | zero =>
    intro k ix y h
    cases k with
    | zero => rfl
    | succ k =>
      have hgt : ¬ ix ≤ x1 := by push_cast at h; omega
      simp [lineLoopX, hgt]
  | succ n ih =>
    intro k ix y h
    rw [Nat.add_right_comm, lineLoopX, lineLoopX]
    by_cases hle : ix ≤ x1
    · rw [if_pos hle, if_pos hle, ih k (ix + 1) _ (by push_cast at h; omega)]
    · rw [if_neg hle, if_neg hle]

/-- More fuel than the counter of the second loop of `drawLine` has values changes
nothing. -/
theorem lineLoopY_fuel (col : Color4f) (y1 : Int) (m : Rat) :
    ∀ (n k : Nat) (iy : Int) (x : Rat), y1 + 1 - iy ≤ n →
      lineLoopY col y1 m (n + k) iy x = lineLoopY col y1 m n iy x := by
  intro n
  induction n with
  | zero =>
    intro k iy x h
    cases k with
    | zero => rfl
    | succ k =>
      have hgt : ¬ iy ≤ y1 := by push_cast at h; omega
      simp [lineLoopY, hgt]
  | succ n ih =>
    intro k iy x h
    rw [Nat.add_right_comm, lineLoopY, lineLoopY]
    by_cases hle : iy ≤ y1
    · rw [if_pos hle, if_pos hle, ih k (iy + 1) _ (by push_cast at h; omega)]
    · rw [if_neg hle, if_neg hle]

theorem circleStep_x (s : CircleState) : (circleStep s).x = s.x + 1 := by
  unfold circleStep
  split_ifs <;> rfl

theorem circleStep_y_le (s : CircleState) : (circleStep s).y ≤ s.y := by
  unfold circleStep
  split_ifs
  · exact le_refl _
  · show s.y - 1 ≤ s.y
    omega

/-- More fuel than the difference `y - x` changes nothing: the loop of `drawCircle` ends
because `y > x` fails. -/
theorem circleLoop_fuel (col : Color4f) (x0 y0 : Int) :
    ∀ (n k : Nat) (s : CircleState), s.y - s.x ≤ n →
      circleLoop col x0 y0 (n + k) s = circleLoop col x0 y0 n s := by
  intro n
  induction n with
  | zero =>
    intro k s h
    cases k with
    | zero => rfl
    | succ k =>
      have hgt : ¬ s.y > s.x := by push_cast at h; omega
      simp [circleLoop, hgt]
  | succ n ih =>
    intro k s h
    rw [Nat.add_right_comm, circleLoop, circleLoop]
    by_cases hgt : s.y > s.x
    · have hx := circleStep_x s
      have hy := circleStep_y_le s
      rw [if_pos hgt, if_pos hgt, ih k (circleStep s) (by push_cast at h; omega)]
    · rw [if_neg hgt, if_neg hgt]

/-- The fuel `R` given to the loop of `drawCircle` is enough. -/
theorem drawCircleCalls_fuel (col : Color4f) (x0 y0 R : Int) (k : Nat) :
    startCalls col x0 y0 R ++ circleLoop col x0 y0 (R.toNat + k) (circleInit R) =
      drawCircleCalls col x0 y0 R := by
  unfold drawCircleCalls
  rw [circleLoop_fuel col x0 y0 R.toNat k (circleInit R) (by simp [circleInit])]

end RasterMap

namespace Scanf

/-! ### Scanning decimal literals -/

theorem isDigit_digitChar (d : Fin 10) : (digitChar d).isDigit = true := by
  fin_cases d <;> rfl

theorem isSpace_digitChar (d : Fin 10) : isSpace (digitChar d) = false := by
  fin_cases d <;> rfl

theorem digitVal_digitChar (d : Fin 10) : digitVal (digitChar d) = d.val := by
  fin_cases d <;> rfl

theorem scanSign_digitChar (d : Fin 10) (cs : List Char) :
    scanSign (digitChar d :: cs) = (false, digitChar d :: cs) := by
  fin_cases d <;> rfl

theorem takeWhile_digits (ds : List (Fin 10)) (c : Char) (t : List Char)
    (hc : c.isDigit = false) :
    (ds.map digitChar ++ c :: t).takeWhile Char.isDigit = ds.map digitChar := by
  induction ds with
  | nil => simp [List.takeWhile, hc]
  | cons d ds ih => simp [List.takeWhile, isDigit_digitChar, ih]

theorem dropWhile_digits (ds : List (Fin 10)) (c : Char) (t : List Char)
    (hc : c.isDigit = false) :
    (ds.map digitChar ++ c :: t).dropWhile Char.isDigit = c :: t := by
  induction ds with
  | nil => simp [List.dropWhile, hc]
  | cons d ds ih => simp [List.dropWhile, isDigit_digitChar, ih]

theorem takeWhile_digits_end (ds : List (Fin 10)) :
    (ds.map digitChar).takeWhile Char.isDigit = ds.map digitChar := by
  induction ds with
  | nil => rfl
  | cons d ds ih => simp [List.takeWhile, isDigit_digitChar, ih]

theorem dropWhile_digits_end (ds : List (Fin 10)) :
    (ds.map digitChar).dropWhile Char.isDigit = [] := by
  induction ds with
  | nil => rfl
  | cons d ds ih => simp [List.dropWhile, isDigit_digitChar, ih]

theorem natOfDigits_map (ds : List (Fin 10)) :
    natOfDigits (ds.map digitChar) = digitsNat ds := by
  unfold natOfDigits digitsNat
  rw [List.foldl_map]
  simp only [digitVal_digitChar]


theorem scale_zero (v : Rat) : scale v 0 = v := by
  simp [scale]

theorem scanExp_delimited (rest : List Char) (h : Delimited rest) :
    scanExp rest = some (0, rest) := by
  rcases h with rfl | ⟨r, rfl⟩
  · rfl
  · rfl

theorem fraction_delimited (fp : List (Fin 10)) (rest : List Char) (h : Delimited rest) :
    (fp.map digitChar ++ rest).takeWhile Char.isDigit = fp.map digitChar
      ∧ (fp.map digitChar ++ rest).dropWhile Char.isDigit = rest := by
  rcases h with rfl | ⟨r, rfl⟩
  · rw [List.append_nil]
    exact ⟨takeWhile_digits_end fp, dropWhile_digits_end fp⟩
  · exact ⟨takeWhile_digits fp _ r rfl, dropWhile_digits fp _ r rfl⟩

/-- The unsigned part of a literal, followed by a delimiter, is scanned in full by the steps
of `scanFloat` after the sign. -/
theorem scanFloat_unsigned (i : Fin 10) (is fp : List (Fin 10)) (rest : List Char)
    (h : Delimited rest) (sg : Bool) (s : List Char)
    (hs : scanSign (skipSpace s) = (sg, (i :: is).map digitChar ++ '.' :: (fp.map digitChar ++ rest))) :
    scanFloat s = some
      (if sg then -((digitsNat ((i :: is) ++ fp) : Rat) / (10 : Rat) ^ fp.length)
        else (digitsNat ((i :: is) ++ fp) : Rat) / (10 : Rat) ^ fp.length, rest) := by
  obtain ⟨hf1, hf2⟩ := fraction_delimited fp rest h
  unfold scanFloat
  simp only [hs, takeWhile_digits _ '.' _ rfl, dropWhile_digits _ '.' _ rfl, hf1, hf2,
    scanExp_delimited rest h, scale_zero]
  rw [if_neg (by simp)]
  rw [← List.map_append, natOfDigits_map, List.length_map]

theorem scanFloat_render (d : Decimal) (hd : d.ip ≠ []) (rest : List Char)
    (h : Delimited rest) : scanFloat (d.render ++ rest) = some (d.value, rest) := by
  obtain ⟨neg, ip, fp⟩ := d
  cases ip with
  | nil => exact absurd rfl hd
  | cons i is =>
    cases neg with
    | true =>
      have hs : scanSign (skipSpace (Decimal.render ⟨true, i :: is, fp⟩ ++ rest)) =
          (true, (i :: is).map digitChar ++ '.' :: (fp.map digitChar ++ rest)) := by
        simp [Decimal.render, skipSpace, List.dropWhile, isSpace, scanSign]
      rw [scanFloat_unsigned i is fp rest h true _ hs]
      rfl
    | false =>
      have hs : scanSign (skipSpace (Decimal.render ⟨false, i :: is, fp⟩ ++ rest)) =
          (false, (i :: is).map digitChar ++ '.' :: (fp.map digitChar ++ rest)) := by
        simp only [Decimal.render, skipSpace, List.map_cons, List.nil_append, List.cons_append,
          List.dropWhile, isSpace_digitChar, scanSign_digitChar, Bool.false_eq_true, if_false]
        simp
      rw [scanFloat_unsigned i is fp rest h false _ hs]
      rfl


theorem skipSpace_render (d : Decimal) (hd : d.ip ≠ []) (rest : List Char) :
    skipSpace (' ' :: (d.render ++ rest)) = d.render ++ rest := by
  obtain ⟨neg, ip, fp⟩ := d
  cases ip with
  | nil => exact absurd rfl hd
  | cons i is =>
    cases neg with
    | true => simp [Decimal.render, skipSpace, List.dropWhile, isSpace]
    | false =>
      simp only [Decimal.render, skipSpace, List.map_cons, List.nil_append, List.cons_append,
        List.dropWhile, isSpace_digitChar, Bool.false_eq_true, if_false]
      simp [isSpace]

/-- On the line `v a b c` the three `%f` of `"%*s %f %f %f"` convert to the values of the
literals `a`, `b`, `c`. -/
theorem sscanf_vertexLine (a b c : Decimal) (ha : a.ip ≠ []) (hb : b.ip ≠ [])
    (hc : c.ip ≠ []) :
    sscanf fmtFFF (vertexLine a b c) = [Val.float a.value, Val.float b.value, Val.float c.value] := by
  have h1 : scanStr (vertexLine a b c) =
      some (['v'], ' ' :: (a.render ++ ' ' :: (b.render ++ ' ' :: (c.render ++ [])))) := by
    simp [scanStr, vertexLine, skipSpace, List.dropWhile, List.takeWhile, isSpace]
  simp only [fmtFFF, sscanf, h1, Bool.false_eq_true, if_false, skipSpace_render a ha,
    scanFloat_render a ha _ (Or.inr ⟨_, rfl⟩), skipSpace_render b hb,
    scanFloat_render b hb _ (Or.inr ⟨_, rfl⟩), skipSpace_render c hc,
    scanFloat_render c hc _ (Or.inl rfl)]

/-! ### Scanning index tokens and face lines -/

theorem digitChar_ne_slash (d : Fin 10) : digitChar d ≠ '/' := by
  fin_cases d <;> decide

theorem digitChar_ne_percent (d : Fin 10) : digitChar d ≠ '%' := by
  fin_cases d <;> decide

theorem digits_ne_nil (ds : List (Fin 10)) (h : ds ≠ []) : digits ds ≠ [] := by
  cases ds with
  | nil => exact absurd rfl h
  | cons d ds => simp [digits]

theorem skipSpace_digits (ds : List (Fin 10)) (t : List Char) (h : ds ≠ []) :
    skipSpace (digits ds ++ t) = digits ds ++ t := by
  cases ds with
  | nil => exact absurd rfl h
  | cons d ds => simp [digits, skipSpace, List.dropWhile, isSpace_digitChar]

theorem scanSign_digits (ds : List (Fin 10)) (t : List Char) (h : ds ≠ []) :
    scanSign (digits ds ++ t) = (false, digits ds ++ t) := by
  cases ds with
  | nil => exact absurd rfl h
  | cons d ds => simp [digits, scanSign_digitChar]

/-- A run of digits followed by a character that is no digit is read in full by `%d`. -/
theorem scanInt_digits (ds : List (Fin 10)) (h : ds ≠ []) (c : Char) (t : List Char)
    (hc : c.isDigit = false) :
    scanInt (digits ds ++ c :: t) = some ((digitsNat ds : Int), c :: t) := by
  unfold scanInt
  simp only [skipSpace_digits ds _ h, scanSign_digits ds _ h]
  unfold digits
  rw [takeWhile_digits ds c t hc, dropWhile_digits ds c t hc,
    if_neg (by simpa [digits] using digits_ne_nil ds h), natOfDigits_map]
  simp

/-- A run of digits at the end of the input is read in full by `%d`. -/
theorem scanInt_digits_end (ds : List (Fin 10)) (h : ds ≠ []) :
    scanInt (digits ds) = some ((digitsNat ds : Int), []) := by
  have h1 := skipSpace_digits ds [] h
  have h2 := scanSign_digits ds [] h
  rw [List.append_nil] at h1 h2
  unfold scanInt
  simp only [h1, h2]
  unfold digits
  rw [takeWhile_digits_end, dropWhile_digits_end,
    if_neg (by simpa [digits] using digits_ne_nil ds h), natOfDigits_map]
  simp

theorem sscanf_int_digits (fmt : List Dir) (ds : List (Fin 10)) (h : ds ≠ []) (c : Char)
    (t : List Char) (hc : c.isDigit = false) :
    sscanf (Dir.int :: fmt) (digits ds ++ c :: t) =
      Val.int (digitsNat ds) :: sscanf fmt (c :: t) := by
  simp only [sscanf, scanInt_digits ds h c t hc]

theorem sscanf_int_digits_end (fmt : List Dir) (ds : List (Fin 10)) (h : ds ≠ []) :
    sscanf (Dir.int :: fmt) (digits ds) = Val.int (digitsNat ds) :: sscanf fmt [] := by
  simp only [sscanf, scanInt_digits_end ds h]

theorem sscanf_space_digits (fmt : List Dir) (ds : List (Fin 10)) (h : ds ≠ [])
    (t : List Char) :
    sscanf (Dir.space :: fmt) (' ' :: (digits ds ++ t)) = sscanf fmt (digits ds ++ t) := by
  have : skipSpace (' ' :: (digits ds ++ t)) = skipSpace (digits ds ++ t) := by
    simp [skipSpace, List.dropWhile, isSpace]
  simp only [sscanf, this, skipSpace_digits ds t h]

theorem sscanf_chars_one (fmt : List Dir) (c : Char) (t : List Char) :
    sscanf (Dir.chars 1 :: fmt) (c :: t) = sscanf fmt t := by
  simp [sscanf]

theorem sscanf_chars_two (fmt : List Dir) (c d : Char) (t : List Char) :
    sscanf (Dir.chars 2 :: fmt) (c :: d :: t) = sscanf fmt t := by
  simp [sscanf]

theorem takeWhile_token (tok rest : List Char) (h : ∀ c ∈ tok, isSpace c = false) :
    (tok ++ ' ' :: rest).takeWhile (fun c => !isSpace c) = tok
      ∧ (tok ++ ' ' :: rest).dropWhile (fun c => !isSpace c) = ' ' :: rest := by
  induction tok with
  | nil => simp [List.takeWhile, List.dropWhile, isSpace]
  | cons c tok ih =>
    have hc : isSpace c = false := h c (List.mem_cons_self _ _)
    have ih1 := ih (fun d hd => h d (List.mem_cons_of_mem _ hd))
    simp [List.takeWhile, List.dropWhile, hc, ih1.1, ih1.2]

theorem skipSpace_token (tok rest : List Char) (h : IsToken tok) :
    skipSpace (tok ++ rest) = tok ++ rest := by
  obtain ⟨hne, hs⟩ := h
  cases tok with
  | nil => exact absurd rfl hne
  | cons c tok =>
    have hc : isSpace c = false := hs c (List.mem_cons_self _ _)
    simp [skipSpace, List.dropWhile, hc]

/-- A token followed by a space is the input item of `%s`. -/
theorem scanStr_token (tok rest : List Char) (h : IsToken tok) :
    scanStr (tok ++ ' ' :: rest) = some (tok, ' ' :: rest) := by
  unfold scanStr
  simp only [skipSpace_token tok _ h, (takeWhile_token tok rest h.2).1,
    (takeWhile_token tok rest h.2).2]
  rw [if_neg h.1]

/-- On a line `f tok ...` the call `sscanf( line, "%*c %s", tempStr )` assigns `tok`. -/
theorem sscanf_first_token (tok rest : List Char) (h : IsToken tok) :
    sscanf fmtCS ('f' :: ' ' :: (tok ++ ' ' :: rest)) = [Val.str tok] := by
  have hsk : skipSpace (' ' :: (tok ++ ' ' :: rest)) = tok ++ ' ' :: rest := by
    have : skipSpace (' ' :: (tok ++ ' ' :: rest)) = skipSpace (tok ++ ' ' :: rest) := by
      simp [skipSpace, List.dropWhile, isSpace]
    rw [this, skipSpace_token tok _ h]
  simp [fmtCS, sscanf, hsk, scanStr_token tok rest h]

theorem isToken_digits (ds : List (Fin 10)) (h : ds ≠ []) : IsToken (digits ds) := by
  refine ⟨digits_ne_nil ds h, ?_⟩
  intro c hc
  simp only [digits, List.mem_map] at hc
  obtain ⟨d, _, rfl⟩ := hc
  exact isSpace_digitChar d

theorem isToken_tokVTN (v t n : List (Fin 10)) (h : v ≠ []) : IsToken (tokVTN v t n) := by
  refine ⟨?_, ?_⟩
  · have := digits_ne_nil v h
    simp [tokVTN, this]
  · intro c hc
    simp only [tokVTN, digits, List.mem_append, List.mem_cons, List.mem_map] at hc
    rcases hc with ⟨d, _, rfl⟩ | rfl | ⟨d, _, rfl⟩ | rfl | ⟨d, _, rfl⟩
    · exact isSpace_digitChar d
    · rfl
    · exact isSpace_digitChar d
    · rfl
    · exact isSpace_digitChar d

theorem isToken_tokVN (v n : List (Fin 10)) (h : v ≠ []) : IsToken (tokVN v n) := by
  refine ⟨?_, ?_⟩
  · have := digits_ne_nil v h
    simp [tokVN, this]
  · intro c hc
    simp only [tokVN, digits, List.mem_append, List.mem_cons, List.mem_map] at hc
    rcases hc with ⟨d, _, rfl⟩ | rfl | rfl | ⟨d, _, rfl⟩
    · exact isSpace_digitChar d
    · rfl
    · rfl
    · exact isSpace_digitChar d

/-- On the line `f v1/t1/n1 v2/t2/n2 v3/t3/n3` the nine `%d` of the format
`"%*c %d%*c%d%*c%d %d%*c%d%*c%d %d%*c%d%*c%d"` convert to the nine indices. -/
theorem sscanf_faceLineVTN (v1 t1 n1 v2 t2 n2 v3 t3 n3 : List (Fin 10))
    (hv1 : v1 ≠ []) (ht1 : t1 ≠ []) (hn1 : n1 ≠ []) (hv2 : v2 ≠ []) (ht2 : t2 ≠ [])
    (hn2 : n2 ≠ []) (hv3 : v3 ≠ []) (ht3 : t3 ≠ []) (hn3 : n3 ≠ []) :
    sscanf fmtVTN (faceLineVTN v1 t1 n1 v2 t2 n2 v3 t3 n3) =
      [Val.int (digitsNat v1), Val.int (digitsNat t1), Val.int (digitsNat n1),
        Val.int (digitsNat v2), Val.int (digitsNat t2), Val.int (digitsNat n2),
        Val.int (digitsNat v3), Val.int (digitsNat t3), Val.int (digitsNat n3)] := by
  unfold fmtVTN faceLineVTN tokVTN
  simp only [List.append_assoc, List.cons_append]
  rw [sscanf_chars_one, sscanf_space_digits _ _ hv1, sscanf_int_digits _ _ hv1 '/' _ rfl,
    sscanf_chars_one, sscanf_int_digits _ _ ht1 '/' _ rfl, sscanf_chars_one,
    sscanf_int_digits _ _ hn1 ' ' _ rfl, sscanf_space_digits _ _ hv2,
    sscanf_int_digits _ _ hv2 '/' _ rfl, sscanf_chars_one,
    sscanf_int_digits _ _ ht2 '/' _ rfl, sscanf_chars_one,
    sscanf_int_digits _ _ hn2 ' ' _ rfl, sscanf_space_digits _ _ hv3,
    sscanf_int_digits _ _ hv3 '/' _ rfl, sscanf_chars_one,
    sscanf_int_digits _ _ ht3 '/' _ rfl, sscanf_chars_one,
    sscanf_int_digits_end _ _ hn3]
  rfl

/-- On the line `f v1//n1 v2//n2 v3//n3` the six `%d` of the format
`"%*c %d%*2c%d %d%*2c%d %d%*2c%d"` convert to the six indices. -/
theorem sscanf_faceLineVN (v1 n1 v2 n2 v3 n3 : List (Fin 10))
    (hv1 : v1 ≠ []) (hn1 : n1 ≠ []) (hv2 : v2 ≠ []) (hn2 : n2 ≠ []) (hv3 : v3 ≠ [])
    (hn3 : n3 ≠ []) :
    sscanf fmtVN (faceLineVN v1 n1 v2 n2 v3 n3) =
      [Val.int (digitsNat v1), Val.int (digitsNat n1), Val.int (digitsNat v2),
        Val.int (digitsNat n2), Val.int (digitsNat v3), Val.int (digitsNat n3)] := by
  unfold fmtVN faceLineVN tokVN
  simp only [List.append_assoc, List.cons_append]
  rw [sscanf_chars_one, sscanf_space_digits _ _ hv1, sscanf_int_digits _ _ hv1 '/' _ rfl,
    sscanf_chars_two, sscanf_int_digits _ _ hn1 ' ' _ rfl, sscanf_space_digits _ _ hv2,
    sscanf_int_digits _ _ hv2 '/' _ rfl, sscanf_chars_two,
    sscanf_int_digits _ _ hn2 ' ' _ rfl, sscanf_space_digits _ _ hv3,
    sscanf_int_digits _ _ hv3 '/' _ rfl, sscanf_chars_two, sscanf_int_digits_end _ _ hn3]
  rfl

end Scanf

namespace WFLoader

open Scanf

/-! ### C10: a vertex line -/

/-- C10: for a line that starts with `v` and a space and on which the three `%f` of
`"%*s %f %f %f"` convert to `a`, `b`, `c`, `parseObjectFile` returns and appends exactly
the one element `(a, b, c)` to the end of `vertices`; every other sequence of the model
data, the flag, the current material name and the material map are unchanged. -/
theorem parseObjectFile_vertex (fs : FileSystem) (junk : Nat → Junk) (u : Junk)
    (rest : List Char) (w : World) (a b c : Rat)
    (hscan : sscanf fmtFFF ('v' :: ' ' :: rest) = [Val.float a, Val.float b, Val.float c]) :
    parseObjectFile fs junk u ('v' :: ' ' :: rest) w =
      some { w with loader := { w.loader with m_LoadedData :=
        { w.loader.m_LoadedData with
          vertices := w.loader.m_LoadedData.vertices ++ [⟨a, b, c⟩] } } } := by
  simp [parseObjectFile, hscan, argFloat]

/-- Witness of C10 on the line `v 1.0 2.0 3.0` and an empty model. -/
theorem parseObjectFile_vertex_witness :
    parseObjectFile (fun _ => none) (fun _ => ⟨9, 9, 9, 9, 9, 9, 9, 9, 9, 9, 9, 9, 9⟩)
        ⟨9, 9, 9, 9, 9, 9, 9, 9, 9, 9, 9, 9, 9⟩ "v 1.0 2.0 3.0".toList
        ⟨⟨⟨[], [], [], [], [], [], false⟩, []⟩, ⟨[]⟩⟩ =
      some ⟨⟨⟨[⟨1, 2, 3⟩], [], [], [], [], [], false⟩, []⟩, ⟨[]⟩⟩ :=
  parseObjectFile_vertex (fun _ => none) _ _ "1.0 2.0 3.0".toList
    ⟨⟨⟨[], [], [], [], [], [], false⟩, []⟩, ⟨[]⟩⟩ 1 2 3 (by decide!)

/-- For every line `v a b c` made of three decimal literals `[-]digits.digits` separated by
single spaces, `parseObjectFile` returns and appends exactly the element made of the values
of the three literals to the end of `vertices`, and changes nothing else. -/
theorem parseObjectFile_vertexLine (fs : FileSystem) (junk : Nat → Junk) (u : Junk)
    (w : World) (a b c : Decimal) (ha : a.ip ≠ []) (hb : b.ip ≠ []) (hc : c.ip ≠ []) :
    parseObjectFile fs junk u (vertexLine a b c) w =
      some { w with loader := { w.loader with m_LoadedData :=
        { w.loader.m_LoadedData with
          vertices := w.loader.m_LoadedData.vertices ++ [⟨a.value, b.value, c.value⟩] } } } := by
  have hscan := sscanf_vertexLine a b c ha hb hc
  unfold vertexLine at hscan ⊢
  rw [List.append_nil] at hscan ⊢
  simp [parseObjectFile, hscan, argFloat]

/-! ### Face lines -/

/-- The face branch of `parseObjectFile`. -/
theorem parseObjectFile_face (fs : FileSystem) (junk : Nat → Junk) (u : Junk)
    (rest : List Char) (w : World) :
    parseObjectFile fs junk u ('f' :: rest) w =
      (argStr (sscanf fmtCS ('f' :: rest)) 20 []).bind fun tempStr =>
        (scanFace u ('f' :: rest) tempStr).bind fun f =>
          some { w with loader := { w.loader with m_LoadedData :=
            (saveFace w.loader.m_LoadedData f) } } := by
  simp [parseObjectFile]

theorem dropWhile_digits_append (p : Char → Bool) (ds : List (Fin 10)) (t : List Char)
    (h : ∀ d : Fin 10, p (digitChar d) = true) :
    (digits ds ++ t).dropWhile p = t.dropWhile p := by
  induction ds with
  | nil => rfl
  | cons d ds ih =>
    show (digitChar d :: (digits ds ++ t)).dropWhile p = t.dropWhile p
    rw [List.dropWhile_cons_of_pos (h d), ih]

theorem dropWhile_slash_digits (ds : List (Fin 10)) (t : List Char) :
    (digits ds ++ '/' :: t).dropWhile (fun c => c ≠ '/') = '/' :: t := by
  rw [dropWhile_digits_append _ ds _ (fun d => by simpa using digitChar_ne_slash d)]
  simp [List.dropWhile]

theorem dropWhile_slash_digits_end (ds : List (Fin 10)) :
    (digits ds).dropWhile (fun c => c ≠ '/') = [] := by
  have := dropWhile_digits_append (fun c => c ≠ '/') ds []
    (fun d => by simpa using digitChar_ne_slash d)
  rw [List.append_nil] at this
  rw [this]
  rfl

theorem argStr_fits (tok old : List Char) (cap : Nat) (h : tok.length < cap) :
    argStr [Val.str tok] cap old = some tok := by
  simp [argStr, h]

theorem argStr_overrun (tok old : List Char) (cap : Nat) (h : cap ≤ tok.length) :
    argStr [Val.str tok] cap old = none := by
  simp [argStr, Nat.not_lt.mpr h]

theorem saveFace_all (d : ModelData) (f : FaceLocals) (ht : f.t1 ≠ -1) (hn : f.n1 ≠ -1) :
    saveFace d f =
      { d with vertexFaces := d.vertexFaces ++ [f.v1, f.v2, f.v3],
               textureFaces := d.textureFaces ++ [f.t1, f.t2, f.t3],
               normalFaces := d.normalFaces ++ [f.n1, f.n2, f.n3] } := by
  simp [saveFace, ht, hn]

theorem saveFace_normals (d : ModelData) (f : FaceLocals) (ht : f.t1 = -1) (hn : f.n1 ≠ -1) :
    saveFace d f =
      { d with vertexFaces := d.vertexFaces ++ [f.v1, f.v2, f.v3],
               normalFaces := d.normalFaces ++ [f.n1, f.n2, f.n3] } := by
  simp [saveFace, ht, hn]

theorem saveFace_vertices (d : ModelData) (f : FaceLocals) (ht : f.t1 = -1) (hn : f.n1 = -1) :
    saveFace d f = { d with vertexFaces := d.vertexFaces ++ [f.v1, f.v2, f.v3] } := by
  simp [saveFace, ht, hn]

theorem natCast_ne_neg_one (n : Nat) : (n : Int) ≠ -1 := by omega

/-- A face line `f v1/t1/n1 v2/t2/n2 v3/t3/n3` whose first vertex token fits `tempStr`. -/
theorem parseObjectFile_faceLineVTN (fs : FileSystem) (junk : Nat → Junk) (u : Junk)
    (w : World) (v1 t1 n1 v2 t2 n2 v3 t3 n3 : List (Fin 10))
    (hv1 : v1 ≠ []) (ht1 : t1 ≠ []) (hn1 : n1 ≠ []) (hv2 : v2 ≠ []) (ht2 : t2 ≠ [])
    (hn2 : n2 ≠ []) (hv3 : v3 ≠ []) (ht3 : t3 ≠ []) (hn3 : n3 ≠ [])
    (hfit : (tokVTN v1 t1 n1).length < 20) :
    parseObjectFile fs junk u (faceLineVTN v1 t1 n1 v2 t2 n2 v3 t3 n3) w =
      some { w with loader := { w.loader with m_LoadedData :=
        { w.loader.m_LoadedData with
          vertexFaces := w.loader.m_LoadedData.vertexFaces ++
            [(digitsNat v1 : Int), (digitsNat v2 : Int), (digitsNat v3 : Int)],
          textureFaces := w.loader.m_LoadedData.textureFaces ++
            [(digitsNat t1 : Int), (digitsNat t2 : Int), (digitsNat t3 : Int)],
          normalFaces := w.loader.m_LoadedData.normalFaces ++
            [(digitsNat n1 : Int), (digitsNat n2 : Int), (digitsNat n3 : Int)] } } } := by
  have hscan := sscanf_faceLineVTN v1 t1 n1 v2 t2 n2 v3 t3 n3 hv1 ht1 hn1 hv2 ht2 hn2 hv3 ht3 hn3
  have htok : sscanf fmtCS (faceLineVTN v1 t1 n1 v2 t2 n2 v3 t3 n3) = [Val.str (tokVTN v1 t1 n1)] :=
    sscanf_first_token _ _ (isToken_tokVTN v1 t1 n1 hv1)
  have hdrop : (tokVTN v1 t1 n1).dropWhile (fun c => c ≠ '/') = '/' :: (digits t1 ++ '/' :: digits n1) :=
    dropWhile_slash_digits v1 _
  have hface : scanFace u (faceLineVTN v1 t1 n1 v2 t2 n2 v3 t3 n3) (tokVTN v1 t1 n1) =
      some { v1 := digitsNat v1, t1 := digitsNat t1, n1 := digitsNat n1,
             v2 := digitsNat v2, t2 := digitsNat t2, n2 := digitsNat n2,
             v3 := digitsNat v3, t3 := digitsNat t3, n3 := digitsNat n3 } := by
    unfold scanFace
    rw [hdrop]
    cases t1 with
    | nil => exact absurd rfl ht1
    | cons d t1 =>
      have hd := digitChar_ne_slash d
      simp [digits, hd, hscan, argInt]
  have hline : faceLineVTN v1 t1 n1 v2 t2 n2 v3 t3 n3 = 'f' :: (faceLineVTN v1 t1 n1 v2 t2 n2 v3 t3 n3).tail := rfl
  rw [hline, parseObjectFile_face, ← hline, htok, argStr_fits _ _ _ hfit, Option.some_bind, hface,
    Option.some_bind, saveFace_all _ _ (natCast_ne_neg_one _) (natCast_ne_neg_one _)]

/-- A face line `f v1//n1 v2//n2 v3//n3` whose first vertex token fits `tempStr`. -/
theorem parseObjectFile_faceLineVN (fs : FileSystem) (junk : Nat → Junk) (u : Junk)
    (w : World) (v1 n1 v2 n2 v3 n3 : List (Fin 10))
    (hv1 : v1 ≠ []) (hn1 : n1 ≠ []) (hv2 : v2 ≠ []) (hn2 : n2 ≠ []) (hv3 : v3 ≠ [])
    (hn3 : n3 ≠ []) (hfit : (tokVN v1 n1).length < 20) :
    parseObjectFile fs junk u (faceLineVN v1 n1 v2 n2 v3 n3) w =
      some { w with loader := { w.loader with m_LoadedData :=
        { w.loader.m_LoadedData with
          vertexFaces := w.loader.m_LoadedData.vertexFaces ++
            [(digitsNat v1 : Int), (digitsNat v2 : Int), (digitsNat v3 : Int)],
          normalFaces := w.loader.m_LoadedData.normalFaces ++
            [(digitsNat n1 : Int), (digitsNat n2 : Int), (digitsNat n3 : Int)] } } } := by
  have hscan := sscanf_faceLineVN v1 n1 v2 n2 v3 n3 hv1 hn1 hv2 hn2 hv3 hn3
  have htok : sscanf fmtCS (faceLineVN v1 n1 v2 n2 v3 n3) = [Val.str (tokVN v1 n1)] :=
    sscanf_first_token _ _ (isToken_tokVN v1 n1 hv1)
  have hdrop : (tokVN v1 n1).dropWhile (fun c => c ≠ '/') = '/' :: '/' :: digits n1 :=
    dropWhile_slash_digits v1 _
  have hface : scanFace u (faceLineVN v1 n1 v2 n2 v3 n3) (tokVN v1 n1) =
      some { v1 := digitsNat v1, n1 := digitsNat n1, v2 := digitsNat v2, n2 := digitsNat n2,
             v3 := digitsNat v3, n3 := digitsNat n3, t1 := -1, t2 := u.t2, t3 := u.t3 } := by
    unfold scanFace
    rw [hdrop]
    simp [hscan, argInt]
  have hline : faceLineVN v1 n1 v2 n2 v3 n3 = 'f' :: (faceLineVN v1 n1 v2 n2 v3 n3).tail := rfl
  rw [hline, parseObjectFile_face, ← hline, htok, argStr_fits _ _ _ hfit, Option.some_bind, hface,
    Option.some_bind, saveFace_normals _ _ rfl (natCast_ne_neg_one _)]

theorem not_mem_digits_percent (ds : List (Fin 10)) : '%' ∉ digits ds := by
  intro h
  simp only [digits, List.mem_map] at h
  obtain ⟨d, _, hd⟩ := h
  exact digitChar_ne_percent d hd

/-- A face line `f a b c` whose first vertex token fits `tempStr`: no slash is found, the
source calls `scanf` with the line as its format, nothing is assigned, and the three
entries appended to `vertexFaces` are `-1` and the indeterminate `v2`, `v3`. -/
theorem parseObjectFile_faceLineBare (fs : FileSystem) (junk : Nat → Junk) (u : Junk)
    (w : World) (a b c : List (Fin 10)) (ha : a ≠ []) (hfit : (digits a).length < 20) :
    parseObjectFile fs junk u (faceLineBare a b c) w =
      some { w with loader := { w.loader with m_LoadedData :=
        { w.loader.m_LoadedData with
          vertexFaces := w.loader.m_LoadedData.vertexFaces ++ [-1, u.v2, u.v3] } } } := by
  have htok : sscanf fmtCS (faceLineBare a b c) = [Val.str (digits a)] :=
    sscanf_first_token _ _ (isToken_digits a ha)
  have hpc : '%' ∉ faceLineBare a b c := by
    have h1 := not_mem_digits_percent a
    have h2 := not_mem_digits_percent b
    have h3 := not_mem_digits_percent c
    simp [faceLineBare, h1, h2, h3]
  have hface : scanFace u (faceLineBare a b c) (digits a) = some (faceInit u) := by
    unfold scanFace
    rw [dropWhile_slash_digits_end]
    simp [hpc]
  have hline : faceLineBare a b c = 'f' :: (faceLineBare a b c).tail := rfl
  rw [hline, parseObjectFile_face, ← hline, htok, argStr_fits _ _ _ hfit, Option.some_bind, hface,
    Option.some_bind, saveFace_vertices _ _ rfl rfl]
  rfl

/-- A face line whose first vertex token has 20 characters or more: `%s` writes past
the end of `tempStr`. -/
theorem parseObjectFile_face_overrun (fs : FileSystem) (junk : Nat → Junk) (u : Junk)
    (w : World) (tok rest : List Char) (htok : IsToken tok) (hlen : 20 ≤ tok.length) :
    parseObjectFile fs junk u ('f' :: ' ' :: (tok ++ ' ' :: rest)) w = none := by
  rw [parseObjectFile_face, sscanf_first_token tok rest htok, argStr_overrun _ _ _ hlen]
  rfl

theorem scanFace_t1 (u : Junk) (line tempStr : List Char) (f : FaceLocals)
    (h : scanFace u line tempStr = some f) (ht : f.t1 ≠ -1) : detect tempStr = Pattern.vtn := by
  unfold scanFace at h
  unfold detect
  split at h
  · split at h
    · exact absurd h (by simp)
    · simp only [Option.some.injEq] at h
      subst h
      exact absurd rfl ht
  · rename_i c after heq
    split at h
    · rename_i hs
      split at h
      · simp only [Option.some.injEq] at h
        subst h
        exact absurd rfl ht
      · rename_i hh
        try rw [heq]
        simp [hs, hh]
    · split at h
      · exact absurd h (by simp)
      · simp only [Option.some.injEq] at h
        subst h
        exact absurd rfl ht

theorem scanFace_n1 (u : Junk) (line tempStr : List Char) (f : FaceLocals)
    (h : scanFace u line tempStr = some f) (hn : f.n1 ≠ -1) :
    detect tempStr = Pattern.vtn ∨ detect tempStr = Pattern.vn := by
  unfold scanFace at h
  unfold detect
  split at h
  · split at h
    · exact absurd h (by simp)
    · simp only [Option.some.injEq] at h
      subst h
      exact absurd rfl hn
  · rename_i c after heq
    split at h
    · rename_i hs
      split at h
      · rename_i hh
        try rw [heq]
        simp [hs, hh]
      · rename_i hh
        try rw [heq]
        simp [hs, hh]
    · split at h
      · exact absurd h (by simp)
      · simp only [Option.some.injEq] at h
        subst h
        exact absurd rfl hn

theorem saveFace_vertexFaces (d : ModelData) (f : FaceLocals) :
    (saveFace d f).vertexFaces = d.vertexFaces ++ [f.v1, f.v2, f.v3] := by
  unfold saveFace
  by_cases ht : f.t1 = -1 <;> by_cases hn : f.n1 = -1 <;> simp [ht, hn]

theorem saveFace_textureFaces (d : ModelData) (f : FaceLocals) :
    (saveFace d f).textureFaces =
      if f.t1 ≠ -1 then d.textureFaces ++ [f.t1, f.t2, f.t3] else d.textureFaces := by
  unfold saveFace
  by_cases ht : f.t1 = -1 <;> by_cases hn : f.n1 = -1 <;> simp [ht, hn]

theorem saveFace_normalFaces (d : ModelData) (f : FaceLocals) :
    (saveFace d f).normalFaces =
      if f.n1 ≠ -1 then d.normalFaces ++ [f.n1, f.n2, f.n3] else d.normalFaces := by
  unfold saveFace
  by_cases ht : f.t1 = -1 <;> by_cases hn : f.n1 = -1 <;> simp [ht, hn]

theorem saveFace_rest (d : ModelData) (f : FaceLocals) :
    (saveFace d f).vertices = d.vertices ∧ (saveFace d f).normals = d.normals
      ∧ (saveFace d f).textureCoords = d.textureCoords
      ∧ (saveFace d f).isSmoothShaded = d.isSmoothShaded := by
  unfold saveFace
  by_cases ht : f.t1 = -1 <;> by_cases hn : f.n1 = -1 <;> simp [ht, hn]

/-- What a face line that is processed does: the first token is stored in `tempStr`, the
line is scanned, and the face data are saved. -/
theorem parseObjectFile_face_some (fs : FileSystem) (junk : Nat → Junk) (u : Junk)
    (rest : List Char) (w w1 : World)
    (h : parseObjectFile fs junk u ('f' :: rest) w = some w1) :
    ∃ tempStr f, argStr (sscanf fmtCS ('f' :: rest)) 20 [] = some tempStr
      ∧ scanFace u ('f' :: rest) tempStr = some f
      ∧ w1 = { w with loader := { w.loader with m_LoadedData :=
          (saveFace w.loader.m_LoadedData f) } } := by
  rw [parseObjectFile_face] at h
  obtain ⟨tempStr, h1, h2⟩ := Option.bind_eq_some.mp h
  obtain ⟨f, h3, h4⟩ := Option.bind_eq_some.mp h2
  refine ⟨tempStr, f, h1, h3, ?_⟩
  simpa using h4.symm


/-! ### C11 - C13: face lines -/

/-- C11: the failing input `f 1 2 3`, a face line of the bare-vertex pattern. For every
state and whatever the uninitialised locals hold, `parseObjectFile` returns and appends
`-1` and the indeterminate `v2`, `v3` to `vertexFaces`, which is not `1, 2, 3`: with no
slash in the first token the source calls `scanf` with the line as its format instead of
`sscanf`, so no index is stored in `v1`, `v2`, `v3`. -/
theorem parseObjectFile_bare_failing (fs : FileSystem) (junk : Nat → Junk) (u : Junk)
    (w : World) :
    ∃ w1, parseObjectFile fs junk u "f 1 2 3".toList w = some w1
      ∧ w1.loader.m_LoadedData.vertexFaces =
          w.loader.m_LoadedData.vertexFaces ++ [-1, u.v2, u.v3]
      ∧ w1.loader.m_LoadedData.vertexFaces ≠ w.loader.m_LoadedData.vertexFaces ++ [1, 2, 3]
      ∧ w1.loader.m_LoadedData.normalFaces = w.loader.m_LoadedData.normalFaces
      ∧ w1.loader.m_LoadedData.textureFaces = w.loader.m_LoadedData.textureFaces := by
  have h := parseObjectFile_faceLineBare fs junk u w [1] [2] [3] (by decide) (by decide)
  have hl : faceLineBare [1] [2] [3] = "f 1 2 3".toList := by decide
  rw [hl] at h
  exact ⟨_, h, rfl, by simp, rfl, rfl⟩

/-- C12: the failing input
`f 1000000/1000000/1000000 1000001/1000001/1000001 1000002/1000002/1000002`, a face line
of the pattern `f v1/t1/n1 v2/t2/n2 v3/t3/n3` with positive indices. The first `sscanf`
of the face branch stores the first vertex token, 23 characters and the terminator, in
the 20 bytes of `tempStr`: the write runs past the end of the array, the call has no
defined result, and the nine indices are not appended. -/
theorem parseObjectFile_face_vtn_failing (fs : FileSystem) (junk : Nat → Junk) (u : Junk)
    (w : World) :
    parseObjectFile fs junk u
      "f 1000000/1000000/1000000 1000001/1000001/1000001 1000002/1000002/1000002".toList w =
      none :=
  parseObjectFile_face_overrun fs junk u w "1000000/1000000/1000000".toList
    "1000001/1000001/1000001 1000002/1000002/1000002".toList (by decide) (by decide)

/-- The line `f 1/1/1 2/2/2 3/3/3` on an empty model: the nine indices are appended. -/
theorem parseObjectFile_face_vtn_example :
    parseObjectFile (fun _ => none) (fun _ => ⟨9, 9, 9, 9, 9, 9, 9, 9, 9, 9, 9, 9, 9⟩)
        ⟨9, 9, 9, 9, 9, 9, 9, 9, 9, 9, 9, 9, 9⟩ "f 1/1/1 2/2/2 3/3/3".toList
        ⟨⟨⟨[], [], [], [], [], [], false⟩, []⟩, ⟨[]⟩⟩ =
      some ⟨⟨⟨[], [], [], [1, 2, 3], [1, 2, 3], [1, 2, 3], false⟩, []⟩, ⟨[]⟩⟩ :=
  parseObjectFile_faceLineVTN (fun _ => none) _ _ ⟨⟨⟨[], [], [], [], [], [], false⟩, []⟩, ⟨[]⟩⟩
    [1] [1] [1] [2] [2] [2] [3] [3] [3] (by decide) (by decide) (by decide) (by decide)
    (by decide) (by decide) (by decide) (by decide) (by decide) (by decide)

/-- C13: the failing input `f 1234567890//1234567890 2//2 3//3`, a face line of the pattern
`f v1//n1 v2//n2 v3//n3`. The first `sscanf` of the face branch stores the first vertex
token, 22 characters and the terminator, in the 20 bytes of `tempStr`: the write runs
past the end of the array, the call has no defined result, and `n1, n2, n3` are not
appended to `normalFaces`. -/
theorem parseObjectFile_face_vn_failing (fs : FileSystem) (junk : Nat → Junk) (u : Junk)
    (w : World) :
    parseObjectFile fs junk u "f 1234567890//1234567890 2//2 3//3".toList w = none :=
  parseObjectFile_face_overrun fs junk u w "1234567890//1234567890".toList
    "2//2 3//3".toList (by decide) (by decide)

/-- For every face line that `parseObjectFile` processes, `textureFaces` changes only if
the pattern detected from the first vertex token is `v/t` or `v/t/n`, `normalFaces`
changes only if that pattern is `v/t/n` or `v//n`, and a sequence that changes gains
exactly 3 entries at its end; and for every line `f v1//n1 v2//n2 v3//n3` of non-empty
runs of decimal digits whose first vertex token is shorter than the 20 characters of
`tempStr`, the call returns, appends `n1, n2, n3` to `normalFaces` (and `v1, v2, v3` to
`vertexFaces`) and leaves `textureFaces` and everything else unchanged. -/
theorem parseObjectFile_face_components (fs : FileSystem) (junk : Nat → Junk) (u : Junk) :
    (∀ (rest : List Char) (w w1 : World),
      parseObjectFile fs junk u ('f' :: rest) w = some w1 →
      ∃ tempStr, argStr (sscanf fmtCS ('f' :: rest)) 20 [] = some tempStr
        ∧ (w1.loader.m_LoadedData.textureFaces ≠ w.loader.m_LoadedData.textureFaces →
            detect tempStr = Pattern.vt ∨ detect tempStr = Pattern.vtn)
        ∧ (w1.loader.m_LoadedData.normalFaces ≠ w.loader.m_LoadedData.normalFaces →
            detect tempStr = Pattern.vtn ∨ detect tempStr = Pattern.vn)
        ∧ (w1.loader.m_LoadedData.textureFaces = w.loader.m_LoadedData.textureFaces
            ∨ ∃ a b c, w1.loader.m_LoadedData.textureFaces =
                w.loader.m_LoadedData.textureFaces ++ [a, b, c])
        ∧ (w1.loader.m_LoadedData.normalFaces = w.loader.m_LoadedData.normalFaces
            ∨ ∃ a b c, w1.loader.m_LoadedData.normalFaces =
                w.loader.m_LoadedData.normalFaces ++ [a, b, c]))
    ∧ (∀ (w : World) (v1 n1 v2 n2 v3 n3 : List (Fin 10)),
        v1 ≠ [] → n1 ≠ [] → v2 ≠ [] → n2 ≠ [] → v3 ≠ [] → n3 ≠ [] →
        (tokVN v1 n1).length < 20 →
        parseObjectFile fs junk u (faceLineVN v1 n1 v2 n2 v3 n3) w =
          some { w with loader := { w.loader with m_LoadedData :=
            { w.loader.m_LoadedData with
              vertexFaces := w.loader.m_LoadedData.vertexFaces ++
                [(digitsNat v1 : Int), (digitsNat v2 : Int), (digitsNat v3 : Int)],
              normalFaces := w.loader.m_LoadedData.normalFaces ++
                [(digitsNat n1 : Int), (digitsNat n2 : Int), (digitsNat n3 : Int)] } } }) := by
  refine ⟨?_, ?_⟩
  · intro rest w w1 h
    obtain ⟨tempStr, f, h1, h2, h3⟩ := parseObjectFile_face_some fs junk u rest w w1 h
    subst h3
    refine ⟨tempStr, h1, ?_, ?_, ?_, ?_⟩
    · intro hne
      right
      apply scanFace_t1 u _ _ f h2
      intro ht
      apply hne
      simp [saveFace_textureFaces, ht]
    · intro hne
      apply scanFace_n1 u _ _ f h2
      intro hn
      apply hne
      simp [saveFace_normalFaces, hn]
    · by_cases ht : f.t1 = -1
      · left
        simp [saveFace_textureFaces, ht]
      · right
        exact ⟨f.t1, f.t2, f.t3, by simp [saveFace_textureFaces, ht]⟩
    · by_cases hn : f.n1 = -1
      · left
        simp [saveFace_normalFaces, hn]
      · right
        exact ⟨f.n1, f.n2, f.n3, by simp [saveFace_normalFaces, hn]⟩
  · intro w v1 n1 v2 n2 v3 n3 hv1 hn1 hv2 hn2 hv3 hn3 hfit
    exact parseObjectFile_faceLineVN fs junk u w v1 n1 v2 n2 v3 n3 hv1 hn1 hv2 hn2 hv3 hn3 hfit

/-- The lines `f 1/7/4 2/8/5 3/9/6` and `f 1//4 2//5 3//6` on an empty model. -/
theorem parseObjectFile_face_components_witness :
    (∃ tempStr, argStr (sscanf fmtCS "f 1/7/4 2/8/5 3/9/6".toList) 20 [] = some tempStr
      ∧ (([7, 8, 9] : List Int) ≠ [] → detect tempStr = Pattern.vt ∨ detect tempStr = Pattern.vtn)
      ∧ (([4, 5, 6] : List Int) ≠ [] → detect tempStr = Pattern.vtn ∨ detect tempStr = Pattern.vn)
      ∧ (([7, 8, 9] : List Int) = [] ∨ ∃ a b c, ([7, 8, 9] : List Int) = [] ++ [a, b, c])
      ∧ (([4, 5, 6] : List Int) = [] ∨ ∃ a b c, ([4, 5, 6] : List Int) = [] ++ [a, b, c]))
    ∧ parseObjectFile (fun _ => none) (fun _ => ⟨9, 9, 9, 9, 9, 9, 9, 9, 9, 9, 9, 9, 9⟩)
        ⟨9, 9, 9, 9, 9, 9, 9, 9, 9, 9, 9, 9, 9⟩ "f 1//4 2//5 3//6".toList
        ⟨⟨⟨[], [], [], [], [], [], false⟩, []⟩, ⟨[]⟩⟩ =
      some ⟨⟨⟨[], [], [], [1, 2, 3], [4, 5, 6], [], false⟩, []⟩, ⟨[]⟩⟩ :=
  ⟨(parseObjectFile_face_components (fun _ => none)
      (fun _ => ⟨9, 9, 9, 9, 9, 9, 9, 9, 9, 9, 9, 9, 9⟩)
      ⟨9, 9, 9, 9, 9, 9, 9, 9, 9, 9, 9, 9, 9⟩).1 " 1/7/4 2/8/5 3/9/6".toList
      ⟨⟨⟨[], [], [], [], [], [], false⟩, []⟩, ⟨[]⟩⟩
      ⟨⟨⟨[], [], [], [1, 2, 3], [4, 5, 6], [7, 8, 9], false⟩, []⟩, ⟨[]⟩⟩ (by decide),
   (parseObjectFile_face_components (fun _ => none)
      (fun _ => ⟨9, 9, 9, 9, 9, 9, 9, 9, 9, 9, 9, 9, 9⟩)
      ⟨9, 9, 9, 9, 9, 9, 9, 9, 9, 9, 9, 9, 9⟩).2
      ⟨⟨⟨[], [], [], [], [], [], false⟩, []⟩, ⟨[]⟩⟩ [1] [4] [2] [5] [3] [6]
      (by decide) (by decide) (by decide) (by decide) (by decide) (by decide) (by decide)⟩

/-! ### The loop of `load` -/

theorem readLoop_store (parse : Nat → List Char → World → Option World) (l cs : List Char)
    (k : Nat) (w : World) (h : ∀ c ∈ l, c ≠ '\n') :
    ∀ buf : List Char, buf.length + l.length ≤ 99 →
      readLoop parse (l ++ cs) k buf w = readLoop parse cs k (buf ++ l) w := by
  induction l with
  | nil => intro buf _; simp
  | cons c l ih =>
    intro buf hlen
    have hc : c ≠ '\n' := h c (List.mem_cons_self _ _)
    have hb : buf.length < 99 := by simp at hlen; omega
    have := ih (fun d hd => h d (List.mem_cons_of_mem _ hd)) (buf ++ [c])
      (by simp at hlen ⊢; omega)
    show readLoop parse (c :: (l ++ cs)) k buf w = _
    rw [readLoop, if_pos ⟨hc, hb⟩, this]
    simp

theorem readLoop_newline (parse : Nat → List Char → World → Option World) (cs : List Char)
    (k : Nat) (buf : List Char) (w : World) :
    readLoop parse ('\n' :: cs) k buf w =
      (parse k (cstr buf) w).bind (readLoop parse cs (k + 1) []) := by
  simp [readLoop]

theorem readLoop_full (parse : Nat → List Char → World → Option World) (c : Char)
    (cs : List Char) (k : Nat) (buf : List Char) (w : World) (h : buf.length = 99) :
    readLoop parse (c :: cs) k buf w =
      (parse k (cstr buf) w).bind (readLoop parse cs (k + 1) []) := by
  simp [readLoop, h]

/-- A line of at most 99 characters that ends with a newline is handed to the parser. -/
theorem readLoop_line (parse : Nat → List Char → World → Option World) (l cs : List Char)
    (k : Nat) (w : World) (h : ∀ c ∈ l, c ≠ '\n') (hlen : l.length ≤ 99) :
    readLoop parse (l ++ '\n' :: cs) k [] w =
      (parse k (cstr l) w).bind (readLoop parse cs (k + 1) []) := by
  rw [readLoop_store parse l _ k w h [] (by simpa using hlen), readLoop_newline]
  simp

/-- A physical line of more than 99 characters: the first 99 are handed to the parser, the
next character is dropped, and reading goes on after it with an empty buffer. -/
theorem readLoop_long (parse : Nat → List Char → World → Option World) (l : List Char)
    (c : Char) (cs : List Char) (k : Nat) (w : World) (h : ∀ x ∈ l, x ≠ '\n')
    (hlen : l.length = 99) :
    readLoop parse (l ++ c :: cs) k [] w =
      (parse k (cstr l) w).bind (readLoop parse cs (k + 1) []) := by
  rw [readLoop_store parse l _ k w h [] (by simp [hlen]), List.nil_append,
    readLoop_full parse c cs k l w hlen]

theorem cstr_eq (l : List Char) (h : ∀ c ∈ l, c ≠ Char.ofNat 0) : cstr l = l := by
  unfold cstr
  rw [List.takeWhile_eq_self_iff]
  intro c hc
  simpa using h c hc

/-- The loop of `load` on a file of lines without newline or NUL, of at most 99 characters
each: every line is handed to the parser. -/
theorem readLoop_fileOf (fs : FileSystem) (junk : Nat → Junk) :
    ∀ (lines : List (List Char)) (k : Nat) (w : World),
      (∀ l ∈ lines, l.length ≤ 99 ∧ ∀ c ∈ l, c ≠ '\n' ∧ c ≠ Char.ofNat 0) →
      readLoop (fun k => parseObjectFile fs junk (junk k)) (fileOf lines) k [] w =
        parseLines fs junk lines k w := by
  intro lines
  induction lines with
  | nil => intro k w _; rfl
  | cons l ls ih =>
    intro k w h
    have hl := h l (List.mem_cons_self _ _)
    show readLoop _ (l ++ '\n' :: fileOf ls) k [] w = _
    rw [readLoop_line _ l _ k w (fun c hc => (hl.2 c hc).1) hl.1,
      cstr_eq l (fun c hc => (hl.2 c hc).2)]
    show _ = (parseObjectFile fs junk (junk k) l w).bind (parseLines fs junk ls (k + 1))
    congr 1
    funext w1
    exact ih (k + 1) w1 (fun l1 h1 => h l1 (List.mem_cons_of_mem _ h1))

/-- What holds of the state before and after each call of the parser holds of the state
before and after the loop of `load`. -/
theorem readLoop_invariant {α : Type} (f : World → α)
    (parse : Nat → List Char → World → Option World)
    (hp : ∀ k l w w1, parse k l w = some w1 → f w1 = f w) :
    ∀ (cs : List Char) (k : Nat) (buf : List Char) (w w1 : World),
      readLoop parse cs k buf w = some w1 → f w1 = f w := by
  intro cs
  induction cs with
  | nil =>
    intro k buf w w1 h
    simp only [readLoop, Option.some.injEq] at h
    rw [h]
  | cons c cs ih =>
    intro k buf w w1 h
    simp only [readLoop] at h
    split_ifs at h with hc
    · exact ih k _ w w1 h
    · obtain ⟨w2, h2, h3⟩ := Option.bind_eq_some.mp h
      rw [ih (k + 1) [] w2 w1 h3, hp k _ w w2 h2]

theorem parseMaterialFile_loadedData (u : Junk) (line : List Char) (w w1 : World)
    (h : parseMaterialFile u line w = some w1) :
    w1.loader.m_LoadedData = w.loader.m_LoadedData := by
  unfold parseMaterialFile at h
  split at h
  · simp only [Option.some.injEq] at h; subst h; rfl
  · split_ifs at h with h1 h2 h3
    · obtain ⟨t, _, h⟩ := Option.bind_eq_some.mp h
      split_ifs at h
      · obtain ⟨name, _, h⟩ := Option.bind_eq_some.mp h
        simp only [Option.some.injEq] at h; subst h; rfl
      · simp only [Option.some.injEq] at h; subst h; rfl
    · split at h <;> (simp only [Option.some.injEq] at h; subst h; rfl)
    · split at h <;> (simp only [Option.some.injEq] at h; subst h; rfl)
    · simp only [Option.some.injEq] at h; subst h; rfl

theorem loadWith_material_loadedData (fs : FileSystem) (junk : Nat → Junk)
    (path : List Char) (w : World) (r : Bool × World)
    (h : loadWith fs (fun k => parseMaterialFile (junk k)) path w = some r) :
    r.2.loader.m_LoadedData = w.loader.m_LoadedData := by
  unfold loadWith at h
  split at h
  · simp only [Option.some.injEq] at h; subst h; rfl
  · obtain ⟨w1, h1, h2⟩ := Option.map_eq_some'.mp h
    subst h2
    exact readLoop_invariant (fun w => w.loader.m_LoadedData) _
      (fun k l w w1 h => parseMaterialFile_loadedData (junk k) l w w1 h) _ _ _ _ _ h1

/-- A call of `parseObjectFile` that returns has lengthened `vertexFaces` by 3 when the
line begins with `f`, and has left its length alone otherwise. -/
theorem parseObjectFile_vertexFaces_length (fs : FileSystem) (junk : Nat → Junk)
    (u : Junk) (line : List Char) (w w1 : World)
    (h : parseObjectFile fs junk u line w = some w1) :
    w1.loader.m_LoadedData.vertexFaces.length =
      w.loader.m_LoadedData.vertexFaces.length + (if line.head? = some 'f' then 3 else 0) := by
  unfold parseObjectFile at h
  split at h
  · simp only [Option.some.injEq] at h; subst h; simp
  · rename_i c0 rest
    split_ifs at h with h1 h2 h3 h4
    · obtain ⟨t, _, h⟩ := Option.bind_eq_some.mp h
      have hf : ¬ (c0 = 'f') := by rw [h1]; decide
      split_ifs at h
      · obtain ⟨path, _, h⟩ := Option.bind_eq_some.mp h
        obtain ⟨r, hr, h⟩ := Option.map_eq_some'.mp h
        subst h
        rw [loadWith_material_loadedData fs junk path w r hr]
        simp [hf]
      · simp only [Option.some.injEq] at h; subst h; simp [hf]
    · have hf : ¬ (c0 = 'f') := by rw [h2]; decide
      split at h <;> (simp only [Option.some.injEq] at h; subst h; simp [hf])
    · have hf : ¬ (c0 = 'f') := by rw [h3]; decide
      simp only [Option.some.injEq] at h; subst h; simp [hf]
    · obtain ⟨t, _, h⟩ := Option.bind_eq_some.mp h
      obtain ⟨f, _, h⟩ := Option.bind_eq_some.mp h
      simp only [Option.some.injEq] at h; subst h
      simp [h4, saveFace_vertexFaces]
    · simp only [Option.some.injEq] at h; subst h; simp [h4]

theorem parseLines_vertexFaces_length (fs : FileSystem) (junk : Nat → Junk) :
    ∀ (lines : List (List Char)) (k : Nat) (w w1 : World),
      parseLines fs junk lines k w = some w1 →
      w1.loader.m_LoadedData.vertexFaces.length =
        w.loader.m_LoadedData.vertexFaces.length
          + 3 * (lines.filter (fun l => l.head? = some 'f')).length := by
  intro lines
  induction lines with
  | nil =>
    intro k w w1 h
    simp only [parseLines, Option.some.injEq] at h
    subst h
    simp
  | cons l ls ih =>
    intro k w w1 h
    simp only [parseLines] at h
    obtain ⟨w2, h2, h3⟩ := Option.bind_eq_some.mp h
    rw [ih (k + 1) w2 w1 h3, parseObjectFile_vertexFaces_length fs junk _ l w w2 h2]
    by_cases hf : l.head? = some 'f'
    · simp [List.filter_cons, hf]; omega
    · simp [List.filter_cons, hf]


theorem parseObjectFile_plain (fs : FileSystem) (junk : Nat → Junk) (u : Junk)
    (line : List Char) (w : World) (hm : line.head? ≠ some 'm')
    (hf : line.head? ≠ some 'f') : ∃ w1, parseObjectFile fs junk u line w = some w1 := by
  unfold parseObjectFile
  split
  · exact ⟨_, rfl⟩
  · rename_i c0 rest
    have h1 : ¬ (c0 = 'm') := fun h => hm (by simp [h])
    have h4 : ¬ (c0 = 'f') := fun h => hf (by simp [h])
    rw [if_neg h1]
    split_ifs
    · split <;> exact ⟨_, rfl⟩
    · exact ⟨_, rfl⟩
    · exact ⟨_, rfl⟩

theorem parseObjectFile_handled (fs : FileSystem) (junk : Nat → Junk) (u : Junk)
    (line : List Char) (w : World) (h : Handled line) :
    ∃ w1, parseObjectFile fs junk u line w = some w1 := by
  cases h with
  | plain _ hm hf => exact parseObjectFile_plain fs junk u _ w hm hf
  | bare a b c ha hfit => exact ⟨_, parseObjectFile_faceLineBare fs junk u w a b c ha hfit⟩
  | vtn v1 t1 n1 v2 t2 n2 v3 t3 n3 hv1 ht1 hn1 hv2 ht2 hn2 hv3 ht3 hn3 hfit =>
    exact ⟨_, parseObjectFile_faceLineVTN fs junk u w v1 t1 n1 v2 t2 n2 v3 t3 n3 hv1 ht1 hn1
      hv2 ht2 hn2 hv3 ht3 hn3 hfit⟩
  | vn v1 n1 v2 n2 v3 n3 hv1 hn1 hv2 hn2 hv3 hn3 hfit =>
    exact ⟨_, parseObjectFile_faceLineVN fs junk u w v1 n1 v2 n2 v3 n3 hv1 hn1 hv2 hn2 hv3
      hn3 hfit⟩

theorem parseLines_handled (fs : FileSystem) (junk : Nat → Junk) :
    ∀ (lines : List (List Char)) (k : Nat) (w : World), (∀ l ∈ lines, Handled l) →
      ∃ w1, parseLines fs junk lines k w = some w1 := by
  intro lines
  induction lines with
  | nil => intro k w _; exact ⟨w, rfl⟩
  | cons l ls ih =>
    intro k w h
    obtain ⟨w2, h2⟩ := parseObjectFile_handled fs junk (junk k) l w
      (h l (List.mem_cons_self _ _))
    obtain ⟨w1, h1⟩ := ih (k + 1) w2 (fun l1 hl1 => h l1 (List.mem_cons_of_mem _ hl1))
    exact ⟨w1, by simp only [parseLines, h2, Option.some_bind, h1]⟩

/-! ### C14 - C15: the lengths of the index sequences -/

/-- C14: the failing input, the lines `v 0 0 0` and
`f 1000000/1000000/1000000 1000001/1000001/1000001 1000002/1000002/1000002` parsed into
any model. The second line begins with `f`, but its first vertex token does not fit the
20 bytes of `tempStr`: the `sscanf` of the face branch writes past the end of the array,
the sequence of calls has no defined result, and the line does not add exactly 3 entries
to `vertexFaces`. -/
theorem parseLines_face_failing (fs : FileSystem) (junk : Nat → Junk) (w : World) :
    parseLines fs junk ["v 0 0 0".toList,
      "f 1000000/1000000/1000000 1000001/1000001/1000001 1000002/1000002/1000002".toList]
      0 w = none := by
  have h := parseObjectFile_face_overrun fs junk (junk 1)
  have h0 : ∃ w1, parseObjectFile fs junk (junk 0) "v 0 0 0".toList w = some w1 :=
    parseObjectFile_plain fs junk (junk 0) _ w (by decide) (by decide)
  obtain ⟨w1, h1⟩ := h0
  simp only [parseLines, h1, Option.some_bind]
  rw [show "f 1000000/1000000/1000000 1000001/1000001/1000001 1000002/1000002/1000002".toList
    = 'f' :: ' ' :: ("1000000/1000000/1000000".toList ++
        ' ' :: "1000001/1000001/1000001 1000002/1000002/1000002".toList) from by decide,
    h w1 _ _ (by decide) (by decide)]
  rfl

/-- A call of `parseObjectFile` that returns has added exactly 3 entries to `vertexFaces`
when the line begins with `f` and none otherwise; so after any sequence of lines parsed
into a model whose `vertexFaces` is empty, `vertexFaces` has 3 entries for each line
beginning with `f` and its length is divisible by 3 (every prefix of a sequence is a
sequence, so this holds after every line); and the calls do return on every sequence of
lines that begin with neither `m` nor `f` or are face lines of the three index patterns
with a first vertex token shorter than the 20 characters of `tempStr`. -/
theorem parseLines_vertexFaces (fs : FileSystem) (junk : Nat → Junk) :
    (∀ (u : Junk) (line : List Char) (w w1 : World),
      parseObjectFile fs junk u line w = some w1 →
      w1.loader.m_LoadedData.vertexFaces.length =
        w.loader.m_LoadedData.vertexFaces.length + (if line.head? = some 'f' then 3 else 0))
    ∧ (∀ (lines : List (List Char)) (k : Nat) (w w1 : World),
        w.loader.m_LoadedData.vertexFaces = [] →
        parseLines fs junk lines k w = some w1 →
        w1.loader.m_LoadedData.vertexFaces.length =
            3 * (lines.filter (fun l => l.head? = some 'f')).length
          ∧ w1.loader.m_LoadedData.vertexFaces.length % 3 = 0)
    ∧ (∀ (lines : List (List Char)) (k : Nat) (w : World), (∀ l ∈ lines, Handled l) →
        ∃ w1, parseLines fs junk lines k w = some w1) := by
  refine ⟨fun u line w w1 h => parseObjectFile_vertexFaces_length fs junk u line w w1 h, ?_,
    parseLines_handled fs junk⟩
  intro lines k w w1 hw h
  have := parseLines_vertexFaces_length fs junk lines k w w1 h
  rw [hw] at this
  simp only [List.length_nil, Nat.zero_add] at this
  exact ⟨this, by rw [this]; exact Nat.mul_mod_right 3 _⟩

/-- The lines `s 1`, `f 1/1/1 2/2/2 3/3/3`, `f 1//4 2//5 3//6` on an empty model. -/
theorem parseLines_vertexFaces_witness :
    (([1, 2, 3] : List Int).length = ([] : List Int).length + 3)
    ∧ (([1, 2, 3, 1, 2, 3] : List Int).length = 3 * 2
        ∧ ([1, 2, 3, 1, 2, 3] : List Int).length % 3 = 0)
    ∧ (∃ w1, parseLines (fun _ => none) (fun _ => ⟨9, 9, 9, 9, 9, 9, 9, 9, 9, 9, 9, 9, 9⟩)
        ["s 1".toList, "f 1/1/1 2/2/2 3/3/3".toList, "f 1//4 2//5 3//6".toList] 0
        ⟨⟨⟨[], [], [], [], [], [], false⟩, []⟩, ⟨[]⟩⟩ = some w1) :=
  ⟨(parseLines_vertexFaces (fun _ => none)
      (fun _ => ⟨9, 9, 9, 9, 9, 9, 9, 9, 9, 9, 9, 9, 9⟩)).1
      ⟨9, 9, 9, 9, 9, 9, 9, 9, 9, 9, 9, 9, 9⟩ "f 1/1/1 2/2/2 3/3/3".toList
      ⟨⟨⟨[], [], [], [], [], [], false⟩, []⟩, ⟨[]⟩⟩
      ⟨⟨⟨[], [], [], [1, 2, 3], [1, 2, 3], [1, 2, 3], false⟩, []⟩, ⟨[]⟩⟩ (by decide),
   (parseLines_vertexFaces (fun _ => none)
      (fun _ => ⟨9, 9, 9, 9, 9, 9, 9, 9, 9, 9, 9, 9, 9⟩)).2.1
      ["s 1".toList, "f 1/1/1 2/2/2 3/3/3".toList, "f 1//4 2//5 3//6".toList] 0
      ⟨⟨⟨[], [], [], [], [], [], false⟩, []⟩, ⟨[]⟩⟩
      ⟨⟨⟨[], [], [], [1, 2, 3, 1, 2, 3], [1, 2, 3, 4, 5, 6], [1, 2, 3], true⟩, []⟩, ⟨[]⟩⟩
      rfl (by decide),
   (parseLines_vertexFaces (fun _ => none)
      (fun _ => ⟨9, 9, 9, 9, 9, 9, 9, 9, 9, 9, 9, 9, 9⟩)).2.2
      ["s 1".toList, "f 1/1/1 2/2/2 3/3/3".toList, "f 1//4 2//5 3//6".toList] 0
      ⟨⟨⟨[], [], [], [], [], [], false⟩, []⟩, ⟨[]⟩⟩
      (by
        intro l hl
        simp only [List.mem_cons, List.mem_singleton, List.not_mem_nil, or_false] at hl
        rcases hl with rfl | rfl | rfl
        · exact Handled.plain _ (by decide) (by decide)
        · exact Handled.vtn [1] [1] [1] [2] [2] [2] [3] [3] [3] (by decide) (by decide)
            (by decide) (by decide) (by decide) (by decide) (by decide) (by decide)
            (by decide) (by decide)
        · exact Handled.vn [1] [4] [2] [5] [3] [6] (by decide) (by decide) (by decide)
            (by decide) (by decide) (by decide) (by decide))⟩

/-- C15: the failing input, the lines `f 1/1/1 2/2/2 3/3/3` and `f 1//1 2//2 3//3` parsed
into an empty model. Both calls return; afterwards `vertexFaces` and `normalFaces` have 6
entries and `textureFaces` has 3, so `textureFaces` is neither empty nor as long as
`vertexFaces`: a face line appends to `textureFaces` only when its own pattern has a
texture index, whatever the earlier lines appended. -/
theorem parseLines_mixed_failing (fs : FileSystem) (junk : Nat → Junk) :
    ∃ w1, parseLines fs junk ["f 1/1/1 2/2/2 3/3/3".toList, "f 1//1 2//2 3//3".toList] 0
        ⟨⟨⟨[], [], [], [], [], [], false⟩, []⟩, ⟨[]⟩⟩ = some w1
      ∧ w1.loader.m_LoadedData.vertexFaces = [1, 2, 3, 1, 2, 3]
      ∧ w1.loader.m_LoadedData.normalFaces = [1, 2, 3, 1, 2, 3]
      ∧ w1.loader.m_LoadedData.textureFaces = [1, 2, 3]
      ∧ ¬ (w1.loader.m_LoadedData.textureFaces = []
          ∨ w1.loader.m_LoadedData.textureFaces.length =
              w1.loader.m_LoadedData.vertexFaces.length) := by
  have h1 := parseObjectFile_faceLineVTN fs junk (junk 0)
    ⟨⟨⟨[], [], [], [], [], [], false⟩, []⟩, ⟨[]⟩⟩ [1] [1] [1] [2] [2] [2] [3] [3] [3]
    (by decide) (by decide) (by decide) (by decide) (by decide) (by decide) (by decide)
    (by decide) (by decide) (by decide)
  have h2 := parseObjectFile_faceLineVN fs junk (junk 1)
    ⟨⟨⟨[], [], [], [1, 2, 3], [1, 2, 3], [1, 2, 3], false⟩, []⟩, ⟨[]⟩⟩ [1] [1] [2] [2] [3] [3]
    (by decide) (by decide) (by decide) (by decide) (by decide) (by decide) (by decide)
  have hl1 : faceLineVTN [1] [1] [1] [2] [2] [2] [3] [3] [3] = "f 1/1/1 2/2/2 3/3/3".toList := by
    decide
  have hl2 : faceLineVN [1] [1] [2] [2] [3] [3] = "f 1//1 2//2 3//3".toList := by decide
  rw [hl1] at h1
  rw [hl2] at h2
  refine ⟨⟨⟨⟨[], [], [], [1, 2, 3, 1, 2, 3], [1, 2, 3, 1, 2, 3], [1, 2, 3], false⟩, []⟩, ⟨[]⟩⟩,
    ?_, rfl, rfl, rfl, by decide⟩
  simp only [parseLines, h1, Option.some_bind]
  exact h2

/-! ### C16 - C17: `load` -/

/-- A file that cannot be opened: `load` returns `false` and changes nothing. -/
theorem load_unopenable (fs : FileSystem) (junk : Nat → Junk) (path : List Char)
    (type : FileType) (w : World) (h : fs path = none) :
    load fs junk path type w = some (false, w) := by
  cases type <;> simp [load, loadWith, h]

/-- Whenever `load` returns, the flag is `false` exactly when the file cannot be opened. -/
theorem load_flag (fs : FileSystem) (junk : Nat → Junk) (path : List Char)
    (type : FileType) (w : World) (r : Bool × World)
    (h : load fs junk path type w = some r) : r.1 = false ↔ fs path = none := by
  cases type <;>
  · simp only [load, loadWith] at h
    split at h
    · rename_i hn
      simp only [Option.some.injEq] at h
      subst h
      simp [hn]
    · rename_i content hs
      obtain ⟨w1, _, h2⟩ := Option.map_eq_some'.mp h
      subst h2
      simp [hs]

/-- The `mtllib` branch of `parseObjectFile`: the file name is stored in `tempStr` when it
is shorter than 20 characters, and the material file is loaded; a longer name is written
past the end of `tempStr`. -/
theorem parseObjectFile_mtllib (fs : FileSystem) (junk : Nat → Junk) (u : Junk)
    (rest path : List Char) (w : World)
    (h1 : sscanf fmtS ('m' :: rest) = [Val.str "mtllib".toList])
    (h2 : sscanf fmtSkipS ('m' :: rest) = [Val.str path]) :
    parseObjectFile fs junk u ('m' :: rest) w =
      if path.length < 20 then
        (loadWith fs (fun k => parseMaterialFile (junk k)) path w).map Prod.snd
      else none := by
  simp only [parseObjectFile, if_true, h1, h2, argStr, List.get?_cons_zero]
  rw [if_pos (by decide : "mtllib".toList.length < 20)]
  simp only [Option.some_bind, if_true]
  split_ifs <;> rfl

/-- An `mtllib` line whose file cannot be opened changes nothing. -/
theorem parseObjectFile_mtllib_unopenable (junk : Nat → Junk) (u : Junk) (w : World) :
    parseObjectFile (fun _ => none) junk u "mtllib nofile.mtl".toList w = some w :=
  parseObjectFile_mtllib (fun _ => none) junk u "tllib nofile.mtl".toList
    "nofile.mtl".toList w (by decide) (by decide)

/-- C16: the failing input, an openable geometry file whose only line is
`mtllib materials_of_the_scene.mtl`. The line is handed to `parseObjectFile`, whose second
`sscanf` stores the 26 characters of the file name and a terminator in the 20 bytes of
`tempStr`: the write runs past the end of the array, so `load` has no defined result and
does not return `true` (`load` has no other way to fail: the flag it returns is `false`
exactly when the file cannot be opened). -/
theorem load_mtllib_failing (junk : Nat → Junk) (w : World) :
    load (fun p => if p = "scene.obj".toList
        then some "mtllib materials_of_the_scene.mtl\n".toList else none) junk
      "scene.obj".toList FileType.OBJ_FILE w = none := by
  have hp : ∀ fs u, parseObjectFile fs junk u "mtllib materials_of_the_scene.mtl".toList w =
      none := fun fs u =>
    parseObjectFile_mtllib fs junk u "tllib materials_of_the_scene.mtl".toList
      "materials_of_the_scene.mtl".toList w (by decide) (by decide)
  have hc : "mtllib materials_of_the_scene.mtl\n".toList =
      "mtllib materials_of_the_scene.mtl".toList ++ '\n' :: [] := by decide
  have hs : cstr "mtllib materials_of_the_scene.mtl".toList =
      "mtllib materials_of_the_scene.mtl".toList := by decide
  simp only [load, loadWith, if_true]
  rw [hc, readLoop_line _ _ _ _ _ (by decide) (by decide), hs, hp]
  rfl

/-- C17: a file whose only physical line has 113 characters: `#`, 98 times `x`, `y`, and
then `v 1.0 2.0 3.0`. The characters after the 100th are parsed as a line of their own
and put the vertex `(1, 2, 3)` into the model. -/
theorem load_long_line_counterexample :
    load (fun p => if p = "a.obj".toList
        then some ('#' :: List.replicate 98 'x' ++ 'y' :: "v 1.0 2.0 3.0\n".toList) else none)
      (fun _ => ⟨9, 9, 9, 9, 9, 9, 9, 9, 9, 9, 9, 9, 9⟩) "a.obj".toList FileType.OBJ_FILE
      ⟨⟨⟨[], [], [], [], [], [], false⟩, []⟩, ⟨[]⟩⟩ =
      some (true, ⟨⟨⟨[⟨1, 2, 3⟩], [], [], [], [], [], false⟩, []⟩, ⟨[]⟩⟩) := by
  decide!

/-- C17: when the loop of `load` is at the start of a physical line that goes on for more
than 99 characters, the first 99 characters are handed to the line parser as one line, the
100th character is dropped, and the loop goes on after it with an empty buffer: what
follows the 100th character, the rest of the physical line included, is read and parsed
like the text of further lines. -/
theorem readLoop_long_line (parse : Nat → List Char → World → Option World)
    (l : List Char) (c : Char) (cs : List Char) (k : Nat) (w : World)
    (hlen : l.length = 99) (hnl : ∀ x ∈ l, x ≠ '\n') :
    readLoop parse (l ++ c :: cs) k [] w =
      (parse k (cstr l) w).bind (readLoop parse cs (k + 1) []) :=
  readLoop_long parse l c cs k w hnl hlen

/-- Witness of C17 on the line of 113 characters `#x...xyv 1.0 2.0 3.0`. -/
theorem readLoop_long_line_witness :
    readLoop (fun _ => parseObjectFile (fun _ => none)
        (fun _ => ⟨9, 9, 9, 9, 9, 9, 9, 9, 9, 9, 9, 9, 9⟩) ⟨9, 9, 9, 9, 9, 9, 9, 9, 9, 9, 9, 9, 9⟩)
      (('#' :: List.replicate 98 'x') ++ 'y' :: "v 1.0 2.0 3.0\n".toList) 0 []
      ⟨⟨⟨[], [], [], [], [], [], false⟩, []⟩, ⟨[]⟩⟩ =
      (parseObjectFile (fun _ => none) (fun _ => ⟨9, 9, 9, 9, 9, 9, 9, 9, 9, 9, 9, 9, 9⟩)
        ⟨9, 9, 9, 9, 9, 9, 9, 9, 9, 9, 9, 9, 9⟩ (cstr ('#' :: List.replicate 98 'x'))
        ⟨⟨⟨[], [], [], [], [], [], false⟩, []⟩, ⟨[]⟩⟩).bind
        (readLoop (fun _ => parseObjectFile (fun _ => none)
          (fun _ => ⟨9, 9, 9, 9, 9, 9, 9, 9, 9, 9, 9, 9, 9⟩)
          ⟨9, 9, 9, 9, 9, 9, 9, 9, 9, 9, 9, 9, 9⟩) "v 1.0 2.0 3.0\n".toList 1 []) :=
  readLoop_long_line _ ('#' :: List.replicate 98 'x') 'y' "v 1.0 2.0 3.0\n".toList 0 _
    (by decide) (by decide)

end WFLoader

/-! ### The material map -/

namespace MaterialManager

theorem lookup_cons_same (k : List Char) (v : MaterialData)
    (l : List (List Char × MaterialData)) : List.lookup k ((k, v) :: l) = some v := by
  simp [List.lookup]

theorem lookup_cons_diff (a k : List Char) (v : MaterialData)
    (l : List (List Char × MaterialData)) (h : a ≠ k) :
    List.lookup a ((k, v) :: l) = List.lookup a l := by
  have : (a == k) = false := by simpa using h
  simp [List.lookup, this]

theorem lookup_append_absent (l : List (List Char × MaterialData)) (name : List Char)
    (d : MaterialData) (h : l.lookup name = none) :
    (l ++ [(name, d)]).lookup name = some d := by
  induction l with
  | nil => exact lookup_cons_same name d []
  | cons p l ih =>
    obtain ⟨k, v⟩ := p
    by_cases hk : name = k
    · subst hk
      rw [lookup_cons_same] at h
      exact absurd h (by simp)
    · rw [lookup_cons_diff _ _ _ _ hk] at h
      show List.lookup name ((k, v) :: (l ++ [(name, d)])) = _
      rw [lookup_cons_diff _ _ _ _ hk]
      exact ih h

theorem lookup_append_other (l : List (List Char × MaterialData)) (name other : List Char)
    (d : MaterialData) (h : other ≠ name) :
    (l ++ [(name, d)]).lookup other = l.lookup other := by
  induction l with
  | nil => exact lookup_cons_diff other name d [] h
  | cons p l ih =>
    obtain ⟨k, v⟩ := p
    show List.lookup other ((k, v) :: (l ++ [(name, d)])) = _
    by_cases hk : other = k
    · subst hk
      rw [lookup_cons_same, lookup_cons_same]
    · rw [lookup_cons_diff _ _ _ _ hk, lookup_cons_diff _ _ _ _ hk]
      exact ih

theorem find_addMaterial_absent (m : MaterialManager) (name : List Char) (d : MaterialData)
    (h : m.find name = none) : (m.addMaterial name d).find name = some d := by
  unfold addMaterial
  rw [h]
  exact lookup_append_absent _ _ _ h

theorem find_addMaterial_other (m : MaterialManager) (name other : List Char)
    (d : MaterialData) (h : other ≠ name) :
    (m.addMaterial name d).find other = m.find other := by
  unfold addMaterial
  split
  · rfl
  · exact lookup_append_other _ _ _ _ h

theorem addMaterial_present (m : MaterialManager) (name : List Char) (d d0 : MaterialData)
    (h : m.find name = some d0) : m.addMaterial name d = m := by
  unfold addMaterial
  rw [h]

theorem lookup_setValue (l : List (List Char × MaterialData)) (X Y : List Char)
    (attr : MaterialAttribute) (c : Color4f) :
    (l.map (fun p => if p.1 = X then (p.1, assign p.2 attr c) else p)).lookup Y =
      if Y = X then (l.lookup Y).map (fun d => assign d attr c) else l.lookup Y := by
  induction l with
  | nil => simp [List.lookup]
  | cons p l ih =>
    obtain ⟨k, v⟩ := p
    show List.lookup Y ((if k = X then (k, assign v attr c) else (k, v)) :: l.map _) = _
    by_cases hk : k = X
    · rw [if_pos hk]
      by_cases hy : Y = k
      · subst hy
        rw [lookup_cons_same, lookup_cons_same, if_pos hk]
        rfl
      · rw [lookup_cons_diff _ _ _ _ hy, lookup_cons_diff _ _ _ _ hy]
        exact ih
    · rw [if_neg hk]
      by_cases hy : Y = k
      · subst hy
        rw [lookup_cons_same, lookup_cons_same, if_neg hk]
      · rw [lookup_cons_diff _ _ _ _ hy, lookup_cons_diff _ _ _ _ hy]
        exact ih

theorem find_setValue (m : MaterialManager) (X Y : List Char) (attr : MaterialAttribute)
    (c : Color4f) :
    (m.setValue X attr c).find Y =
      if Y = X then (m.find Y).map (fun d => assign d attr c) else m.find Y :=
  lookup_setValue m.m_Materials X Y attr c

theorem keys_setValue (m : MaterialManager) (X : List Char) (attr : MaterialAttribute)
    (c : Color4f) :
    (m.setValue X attr c).m_Materials.map Prod.fst = m.m_Materials.map Prod.fst := by
  unfold setValue
  simp only [List.map_map]
  apply List.map_congr_left
  intro p _
  simp only [Function.comp]
  split_ifs <;> rfl

end MaterialManager

namespace Scanf

theorem takeWhile_token_end (tok : List Char) (h : ∀ c ∈ tok, isSpace c = false) :
    tok.takeWhile (fun c => !isSpace c) = tok ∧ tok.dropWhile (fun c => !isSpace c) = [] := by
  induction tok with
  | nil => simp
  | cons c tok ih =>
    have hc : isSpace c = false := h c (List.mem_cons_self _ _)
    have ih1 := ih (fun d hd => h d (List.mem_cons_of_mem _ hd))
    simp [List.takeWhile, List.dropWhile, hc, ih1.1, ih1.2]

/-- A token at the end of the input is the input item of `%s`. -/
theorem scanStr_token_end (tok : List Char) (h : IsToken tok) :
    scanStr tok = some (tok, []) := by
  have hs := skipSpace_token tok [] h
  rw [List.append_nil] at hs
  unfold scanStr
  simp only [hs, (takeWhile_token_end tok h.2).1, (takeWhile_token_end tok h.2).2]
  rw [if_neg h.1]

/-- On a line `tok ...` the call `sscanf( line, "%s", tempStr )` assigns `tok`. -/
theorem sscanf_fmtS_token (tok rest : List Char) (h : IsToken tok) :
    sscanf fmtS (tok ++ ' ' :: rest) = [Val.str tok] := by
  simp only [fmtS, sscanf, scanStr_token tok rest h, if_true]

/-- On a line `tok name` the call `sscanf( line, "%*s %s", buffer )` assigns `name`. -/
theorem sscanf_fmtSkipS_tokens (tok name : List Char) (h : IsToken tok)
    (hn : IsToken name) : sscanf fmtSkipS (tok ++ ' ' :: name) = [Val.str name] := by
  have hs : skipSpace (' ' :: name) = name := by
    have := skipSpace_token name [] hn
    rw [List.append_nil] at this
    simpa [skipSpace, List.dropWhile, isSpace] using this
  simp [fmtSkipS, sscanf, scanStr_token tok name h, hs, scanStr_token_end name hn]

end Scanf

namespace WFLoader
open Scanf

/-- The effect of `setValue` on the current material, when it is registered. -/
theorem setValue_updated (w : World) (m : MaterialData) (attr : MaterialAttribute)
    (c : Color4f) (h : w.manager.find w.loader.m_CurrentMatName = some m) :
    RegistrySpec.Updated w
      { w with manager := (w.manager.setValue w.loader.m_CurrentMatName attr c) }
      (MaterialManager.assign m attr c) := by
  refine ⟨rfl, ?_, ?_, ?_⟩
  · show (w.manager.setValue _ attr c).find _ = _
    rw [MaterialManager.find_setValue, if_pos rfl, h]
    rfl
  · intro other ho
    show (w.manager.setValue _ attr c).find _ = _
    rw [MaterialManager.find_setValue, if_neg ho]
  · exact MaterialManager.keys_setValue _ _ _ _


/-! ### C18: lines that are not recognised -/

/-- C18: the lines `v abc` and `foo bar` on an empty model, with 9 in every uninitialised
local. `v abc` takes the vertex branch although no number is converted and appends the
indeterminate `(x, y, z)` to `vertices`; `foo bar` begins with `f`, takes the face branch
and appends `-1` and the indeterminate `v2`, `v3` to `vertexFaces`. -/
theorem parseObjectFile_ignored_counterexample :
    parseObjectFile (fun _ => none) (fun _ => ⟨9, 9, 9, 9, 9, 9, 9, 9, 9, 9, 9, 9, 9⟩)
        ⟨9, 9, 9, 9, 9, 9, 9, 9, 9, 9, 9, 9, 9⟩ "v abc".toList
        ⟨⟨⟨[], [], [], [], [], [], false⟩, []⟩, ⟨[]⟩⟩ =
      some ⟨⟨⟨[⟨9, 9, 9⟩], [], [], [], [], [], false⟩, []⟩, ⟨[]⟩⟩
    ∧ parseObjectFile (fun _ => none) (fun _ => ⟨9, 9, 9, 9, 9, 9, 9, 9, 9, 9, 9, 9, 9⟩)
        ⟨9, 9, 9, 9, 9, 9, 9, 9, 9, 9, 9, 9, 9⟩ "foo bar".toList
        ⟨⟨⟨[], [], [], [], [], [], false⟩, []⟩, ⟨[]⟩⟩ =
      some ⟨⟨⟨[], [], [], [-1, 9, 9], [], [], false⟩, []⟩, ⟨[]⟩⟩ := by
  constructor <;> decide!

/-- C18: `parseObjectFile` returns and leaves the model data (every sequence and the
flag), the current material name and the material map unchanged for every line whose
first character is none of `m`, `v`, `s`, `f` (the empty line included), for every line
that begins with `v` followed by a character other than a space, `n` or `t` (or by
nothing), and for every line that begins with `m` and whose first token is shorter than
20 characters and is not `mtllib`. -/
theorem parseObjectFile_unrecognised (fs : FileSystem) (junk : Nat → Junk) (u : Junk)
    (w : World) :
    (∀ line : List Char, line.head? ≠ some 'm' → line.head? ≠ some 'v' →
      line.head? ≠ some 's' → line.head? ≠ some 'f' →
      parseObjectFile fs junk u line w = some w)
    ∧ (∀ rest : List Char, rest.head? ≠ some ' ' → rest.head? ≠ some 'n' →
        rest.head? ≠ some 't' → parseObjectFile fs junk u ('v' :: rest) w = some w)
    ∧ (∀ rest tok : List Char, sscanf fmtS ('m' :: rest) = [Val.str tok] →
        tok.length < 20 → tok ≠ "mtllib".toList →
        parseObjectFile fs junk u ('m' :: rest) w = some w) := by
  refine ⟨?_, ?_, ?_⟩
  · intro line hm hv hs hf
    cases line with
    | nil => rfl
    | cons c0 rest =>
      have h1 : ¬ (c0 = 'm') := fun h => hm (by simp [h])
      have h2 : ¬ (c0 = 'v') := fun h => hv (by simp [h])
      have h3 : ¬ (c0 = 's') := fun h => hs (by simp [h])
      have h4 : ¬ (c0 = 'f') := fun h => hf (by simp [h])
      simp only [parseObjectFile, if_neg h1, if_neg h2, if_neg h3, if_neg h4]
  · intro rest h1 h2 h3
    cases rest with
    | nil => simp [parseObjectFile]
    | cons c1 rest =>
      have g1 : ¬ (c1 = ' ') := fun h => h1 (by simp [h])
      have g2 : ¬ (c1 = 'n') := fun h => h2 (by simp [h])
      have g3 : ¬ (c1 = 't') := fun h => h3 (by simp [h])
      unfold parseObjectFile
      simp only [if_true]
      rw [if_neg (by decide)]
      split
      · rename_i heq
        exact absurd (List.cons.inj heq).1 g1
      · rename_i heq
        exact absurd (List.cons.inj heq).1 g2
      · rename_i heq
        exact absurd (List.cons.inj heq).1 g3
      · rfl
  · intro rest tok hscan hlen hne
    simp only [parseObjectFile, if_true, hscan, argStr, List.get?_cons_zero, if_pos hlen,
      Option.some_bind, if_neg hne]

/-- Witness of C18 on the lines `# a cube`, `vp 1 2` and `material x`. -/
theorem parseObjectFile_unrecognised_witness :
    parseObjectFile (fun _ => none) (fun _ => ⟨9, 9, 9, 9, 9, 9, 9, 9, 9, 9, 9, 9, 9⟩)
        ⟨9, 9, 9, 9, 9, 9, 9, 9, 9, 9, 9, 9, 9⟩ "# a cube".toList
        ⟨⟨⟨[], [], [], [], [], [], false⟩, []⟩, ⟨[]⟩⟩ =
      some ⟨⟨⟨[], [], [], [], [], [], false⟩, []⟩, ⟨[]⟩⟩
    ∧ parseObjectFile (fun _ => none) (fun _ => ⟨9, 9, 9, 9, 9, 9, 9, 9, 9, 9, 9, 9, 9⟩)
        ⟨9, 9, 9, 9, 9, 9, 9, 9, 9, 9, 9, 9, 9⟩ "vp 1 2".toList
        ⟨⟨⟨[], [], [], [], [], [], false⟩, []⟩, ⟨[]⟩⟩ =
      some ⟨⟨⟨[], [], [], [], [], [], false⟩, []⟩, ⟨[]⟩⟩
    ∧ parseObjectFile (fun _ => none) (fun _ => ⟨9, 9, 9, 9, 9, 9, 9, 9, 9, 9, 9, 9, 9⟩)
        ⟨9, 9, 9, 9, 9, 9, 9, 9, 9, 9, 9, 9, 9⟩ "material x".toList
        ⟨⟨⟨[], [], [], [], [], [], false⟩, []⟩, ⟨[]⟩⟩ =
      some ⟨⟨⟨[], [], [], [], [], [], false⟩, []⟩, ⟨[]⟩⟩ :=
  ⟨(parseObjectFile_unrecognised _ _ _ _).1 "# a cube".toList (by decide) (by decide)
      (by decide) (by decide),
   (parseObjectFile_unrecognised _ _ _ _).2.1 "p 1 2".toList (by decide) (by decide)
      (by decide),
   (parseObjectFile_unrecognised _ _ _ _).2.2 "aterial x".toList "material".toList
      (by decide) (by decide) (by decide)⟩

/-! ### C19 - C20: material files -/

/-- The `newmtl` branch of `parseMaterialFile`: a name shorter than 50 characters becomes
the current material name and is added to the map; a longer name is written past the end
of `m_CurrentMatName`. -/
theorem parseMaterialFile_newmtl_branch (u : Junk) (rest name : List Char) (w : World)
    (h1 : sscanf fmtS ('n' :: rest) = [Val.str "newmtl".toList])
    (h2 : sscanf fmtSkipS ('n' :: rest) = [Val.str name]) :
    parseMaterialFile u ('n' :: rest) w =
      if name.length < 50 then
        some { loader := { w.loader with m_CurrentMatName := name },
               manager := w.manager.addMaterial name (matData u) }
      else none := by
  simp only [parseMaterialFile, if_true, h1, h2, argStr, List.get?_cons_zero]
  rw [if_pos (by decide : "newmtl".toList.length < 20)]
  simp only [Option.some_bind, if_true]
  split_ifs <;> rfl

/-- C19: the line `newmtl Wood` on an empty registry, with 9 in every uninitialised local.
The entry made for `Wood` has alpha 1 in each of the four colours (the default
constructor of `Color4f`), not 0, and its `shininess` is the content of the uninitialised
member, here 9. -/
theorem parseMaterialFile_newmtl_counterexample :
    parseMaterialFile ⟨9, 9, 9, 9, 9, 9, 9, 9, 9, 9, 9, 9, 9⟩ "newmtl Wood".toList
        ⟨⟨⟨[], [], [], [], [], [], false⟩, []⟩, ⟨[]⟩⟩ =
      some ⟨⟨⟨[], [], [], [], [], [], false⟩, "Wood".toList⟩,
        ⟨[("Wood".toList, ⟨⟨0, 0, 0, 1⟩, ⟨0, 0, 0, 1⟩, ⟨0, 0, 0, 1⟩, ⟨0, 0, 0, 1⟩, 9⟩)]⟩⟩ := by
  decide!

/-- C19: for every registry state and every name without white space of fewer than 50
characters, `parseMaterialFile` returns on `newmtl <name>`; afterwards `<name>` is the
current material name, the model data and the entries of all other names are as before;
when `<name>` was not registered, it is now mapped to a material whose ambient, diffuse,
specular and emission colours are each `(0, 0, 0, 1)`; when it was registered, the map is
unchanged and `<name>` keeps the material it had. -/
theorem parseMaterialFile_newmtl (u : Junk) (w : World) (name : List Char)
    (hname : IsToken name) (hlen : name.length < 50) :
    ∃ w1, parseMaterialFile u ("newmtl".toList ++ ' ' :: name) w = some w1
      ∧ w1.loader.m_CurrentMatName = name
      ∧ w1.loader.m_LoadedData = w.loader.m_LoadedData
      ∧ (∀ other, other ≠ name → w1.manager.find other = w.manager.find other)
      ∧ (w.manager.find name = none →
          ∃ m, w1.manager.find name = some m ∧ m.ambient = ⟨0, 0, 0, 1⟩
            ∧ m.diffuse = ⟨0, 0, 0, 1⟩ ∧ m.specular = ⟨0, 0, 0, 1⟩
            ∧ m.emission = ⟨0, 0, 0, 1⟩ ∧ m.shininess = u.shininess)
      ∧ (∀ m, w.manager.find name = some m → w1.manager = w.manager) := by
  have ht : IsToken "newmtl".toList := by decide
  have h1 := sscanf_fmtS_token "newmtl".toList name ht
  have h2 := sscanf_fmtSkipS_tokens "newmtl".toList name ht hname
  have hb := parseMaterialFile_newmtl_branch u ("ewmtl".toList ++ ' ' :: name) name w h1 h2
  rw [if_pos hlen] at hb
  refine ⟨_, hb, rfl, rfl, ?_, ?_, ?_⟩
  · intro other ho
    exact MaterialManager.find_addMaterial_other _ _ _ _ ho
  · intro hn
    exact ⟨matData u, MaterialManager.find_addMaterial_absent _ _ _ hn, rfl, rfl, rfl, rfl, rfl⟩
  · intro m hm
    exact MaterialManager.addMaterial_present _ _ _ m hm

/-- Witness of C19 on the line `newmtl Wood`. -/
theorem parseMaterialFile_newmtl_witness :
    ∃ w1, parseMaterialFile ⟨9, 9, 9, 9, 9, 9, 9, 9, 9, 9, 9, 9, 9⟩ "newmtl Wood".toList
        ⟨⟨⟨[], [], [], [], [], [], false⟩, []⟩, ⟨[]⟩⟩ = some w1
      ∧ w1.loader.m_CurrentMatName = "Wood".toList
      ∧ w1.loader.m_LoadedData = ⟨[], [], [], [], [], [], false⟩
      ∧ (∀ other, other ≠ "Wood".toList → w1.manager.find other = none)
      ∧ ((none : Option MaterialData) = none →
          ∃ m, w1.manager.find "Wood".toList = some m ∧ m.ambient = ⟨0, 0, 0, 1⟩
            ∧ m.diffuse = ⟨0, 0, 0, 1⟩ ∧ m.specular = ⟨0, 0, 0, 1⟩
            ∧ m.emission = ⟨0, 0, 0, 1⟩ ∧ m.shininess = 9)
      ∧ (∀ m, (none : Option MaterialData) = some m → w1.manager = ⟨[]⟩) :=
  parseMaterialFile_newmtl ⟨9, 9, 9, 9, 9, 9, 9, 9, 9, 9, 9, 9, 9⟩
    ⟨⟨⟨[], [], [], [], [], [], false⟩, []⟩, ⟨[]⟩⟩ "Wood".toList (by decide) (by decide)

/-- C20: when the current material name `X` is mapped to a material `m`, then on a line
that begins with `Ka` (resp. `Kd`, `Ks`) and on which the three `%f` of `"%*s %f %f %f"`
convert to `r`, `g`, `b`, `parseMaterialFile` returns and `X` is mapped to `m` with the
ambient (resp. diffuse, specular) colour replaced by `(r, g, b, 1)`; on a line that begins
with `Ns` and on which the `%f` of `"%*s %f"` converts to `v`, `X` is mapped to `m` with
`shininess` replaced by `v`; in each case every other name is mapped as before, the names
registered are the same and the loader is unchanged. -/
theorem parseMaterialFile_attribute (u : Junk) (w : World) (m : MaterialData)
    (hfind : w.manager.find w.loader.m_CurrentMatName = some m) :
    (∀ (rest : List Char) (r g b : Rat),
      sscanf fmtFFF ('K' :: 'a' :: rest) = [Val.float r, Val.float g, Val.float b] →
      ∃ w1, parseMaterialFile u ('K' :: 'a' :: rest) w = some w1
        ∧ RegistrySpec.Updated w w1 { m with ambient := ⟨r, g, b, 1⟩ })
    ∧ (∀ (rest : List Char) (r g b : Rat),
      sscanf fmtFFF ('K' :: 'd' :: rest) = [Val.float r, Val.float g, Val.float b] →
      ∃ w1, parseMaterialFile u ('K' :: 'd' :: rest) w = some w1
        ∧ RegistrySpec.Updated w w1 { m with diffuse := ⟨r, g, b, 1⟩ })
    ∧ (∀ (rest : List Char) (r g b : Rat),
      sscanf fmtFFF ('K' :: 's' :: rest) = [Val.float r, Val.float g, Val.float b] →
      ∃ w1, parseMaterialFile u ('K' :: 's' :: rest) w = some w1
        ∧ RegistrySpec.Updated w w1 { m with specular := ⟨r, g, b, 1⟩ })
    ∧ (∀ (rest : List Char) (v : Rat),
      sscanf fmtF ('N' :: 's' :: rest) = [Val.float v] →
      ∃ w1, parseMaterialFile u ('N' :: 's' :: rest) w = some w1
        ∧ RegistrySpec.Updated w w1 { m with shininess := v }) := by
  refine ⟨?_, ?_, ?_, ?_⟩
  · intro rest r g b hscan
    refine ⟨_, ?_, setValue_updated w m MaterialAttribute.MAT_AMBIENT ⟨r, g, b, 1⟩ hfind⟩
    simp [parseMaterialFile, hscan, argFloat]
  · intro rest r g b hscan
    refine ⟨_, ?_, setValue_updated w m MaterialAttribute.MAT_DIFFUSE ⟨r, g, b, 1⟩ hfind⟩
    simp [parseMaterialFile, hscan, argFloat]
  · intro rest r g b hscan
    refine ⟨_, ?_, setValue_updated w m MaterialAttribute.MAT_SPECULAR ⟨r, g, b, 1⟩ hfind⟩
    simp [parseMaterialFile, hscan, argFloat]
  · intro rest v hscan
    refine ⟨_, ?_, setValue_updated w m MaterialAttribute.MAT_SHININESS ⟨v, 0, 0, 1⟩ hfind⟩
    simp [parseMaterialFile, hscan, argFloat]


/-- Witness of C20 on the lines `Ka 0.1 0.2 0.3`, `Kd 0.5 0.5 0.5`, `Ks 1.0 1.0 1.0` and
`Ns 96.0`, with `Wood` the current material. -/
theorem parseMaterialFile_attribute_witness :
    (∃ w1, parseMaterialFile ⟨9, 9, 9, 9, 9, 9, 9, 9, 9, 9, 9, 9, 9⟩ "Ka 0.1 0.2 0.3".toList
        ⟨⟨⟨[], [], [], [], [], [], false⟩, "Wood".toList⟩,
        ⟨[("Wood".toList, ⟨⟨0, 0, 0, 1⟩, ⟨0, 0, 0, 1⟩, ⟨0, 0, 0, 1⟩, ⟨0, 0, 0, 1⟩, 5⟩)]⟩⟩ = some w1
      ∧ RegistrySpec.Updated
        ⟨⟨⟨[], [], [], [], [], [], false⟩, "Wood".toList⟩,
        ⟨[("Wood".toList, ⟨⟨0, 0, 0, 1⟩, ⟨0, 0, 0, 1⟩, ⟨0, 0, 0, 1⟩, ⟨0, 0, 0, 1⟩, 5⟩)]⟩⟩ w1
        ⟨⟨1 / 10, 1 / 5, 3 / 10, 1⟩, ⟨0, 0, 0, 1⟩, ⟨0, 0, 0, 1⟩, ⟨0, 0, 0, 1⟩, 5⟩)
    ∧ (∃ w1, parseMaterialFile ⟨9, 9, 9, 9, 9, 9, 9, 9, 9, 9, 9, 9, 9⟩ "Kd 0.5 0.5 0.5".toList
        ⟨⟨⟨[], [], [], [], [], [], false⟩, "Wood".toList⟩,
        ⟨[("Wood".toList, ⟨⟨0, 0, 0, 1⟩, ⟨0, 0, 0, 1⟩, ⟨0, 0, 0, 1⟩, ⟨0, 0, 0, 1⟩, 5⟩)]⟩⟩ = some w1
      ∧ RegistrySpec.Updated
        ⟨⟨⟨[], [], [], [], [], [], false⟩, "Wood".toList⟩,
        ⟨[("Wood".toList, ⟨⟨0, 0, 0, 1⟩, ⟨0, 0, 0, 1⟩, ⟨0, 0, 0, 1⟩, ⟨0, 0, 0, 1⟩, 5⟩)]⟩⟩ w1
        ⟨⟨0, 0, 0, 1⟩, ⟨1 / 2, 1 / 2, 1 / 2, 1⟩, ⟨0, 0, 0, 1⟩, ⟨0, 0, 0, 1⟩, 5⟩)
    ∧ (∃ w1, parseMaterialFile ⟨9, 9, 9, 9, 9, 9, 9, 9, 9, 9, 9, 9, 9⟩ "Ks 1.0 1.0 1.0".toList
        ⟨⟨⟨[], [], [], [], [], [], false⟩, "Wood".toList⟩,
        ⟨[("Wood".toList, ⟨⟨0, 0, 0, 1⟩, ⟨0, 0, 0, 1⟩, ⟨0, 0, 0, 1⟩, ⟨0, 0, 0, 1⟩, 5⟩)]⟩⟩ = some w1
      ∧ RegistrySpec.Updated
        ⟨⟨⟨[], [], [], [], [], [], false⟩, "Wood".toList⟩,
        ⟨[("Wood".toList, ⟨⟨0, 0, 0, 1⟩, ⟨0, 0, 0, 1⟩, ⟨0, 0, 0, 1⟩, ⟨0, 0, 0, 1⟩, 5⟩)]⟩⟩ w1
        ⟨⟨0, 0, 0, 1⟩, ⟨0, 0, 0, 1⟩, ⟨1, 1, 1, 1⟩, ⟨0, 0, 0, 1⟩, 5⟩)
    ∧ (∃ w1, parseMaterialFile ⟨9, 9, 9, 9, 9, 9, 9, 9, 9, 9, 9, 9, 9⟩ "Ns 96.0".toList
        ⟨⟨⟨[], [], [], [], [], [], false⟩, "Wood".toList⟩,
        ⟨[("Wood".toList, ⟨⟨0, 0, 0, 1⟩, ⟨0, 0, 0, 1⟩, ⟨0, 0, 0, 1⟩, ⟨0, 0, 0, 1⟩, 5⟩)]⟩⟩ = some w1
      ∧ RegistrySpec.Updated
        ⟨⟨⟨[], [], [], [], [], [], false⟩, "Wood".toList⟩,
        ⟨[("Wood".toList, ⟨⟨0, 0, 0, 1⟩, ⟨0, 0, 0, 1⟩, ⟨0, 0, 0, 1⟩, ⟨0, 0, 0, 1⟩, 5⟩)]⟩⟩ w1
        ⟨⟨0, 0, 0, 1⟩, ⟨0, 0, 0, 1⟩, ⟨0, 0, 0, 1⟩, ⟨0, 0, 0, 1⟩, 96⟩) :=
  ⟨(parseMaterialFile_attribute ⟨9, 9, 9, 9, 9, 9, 9, 9, 9, 9, 9, 9, 9⟩
      ⟨⟨⟨[], [], [], [], [], [], false⟩, "Wood".toList⟩,
        ⟨[("Wood".toList, ⟨⟨0, 0, 0, 1⟩, ⟨0, 0, 0, 1⟩, ⟨0, 0, 0, 1⟩, ⟨0, 0, 0, 1⟩, 5⟩)]⟩⟩
      ⟨⟨0, 0, 0, 1⟩, ⟨0, 0, 0, 1⟩, ⟨0, 0, 0, 1⟩, ⟨0, 0, 0, 1⟩, 5⟩ rfl).1
      " 0.1 0.2 0.3".toList (1 / 10) (1 / 5) (3 / 10) (by decide!),
   (parseMaterialFile_attribute ⟨9, 9, 9, 9, 9, 9, 9, 9, 9, 9, 9, 9, 9⟩
      ⟨⟨⟨[], [], [], [], [], [], false⟩, "Wood".toList⟩,
        ⟨[("Wood".toList, ⟨⟨0, 0, 0, 1⟩, ⟨0, 0, 0, 1⟩, ⟨0, 0, 0, 1⟩, ⟨0, 0, 0, 1⟩, 5⟩)]⟩⟩
      ⟨⟨0, 0, 0, 1⟩, ⟨0, 0, 0, 1⟩, ⟨0, 0, 0, 1⟩, ⟨0, 0, 0, 1⟩, 5⟩ rfl).2.1
      " 0.5 0.5 0.5".toList (1 / 2) (1 / 2) (1 / 2) (by decide!),
   (parseMaterialFile_attribute ⟨9, 9, 9, 9, 9, 9, 9, 9, 9, 9, 9, 9, 9⟩
      ⟨⟨⟨[], [], [], [], [], [], false⟩, "Wood".toList⟩,
        ⟨[("Wood".toList, ⟨⟨0, 0, 0, 1⟩, ⟨0, 0, 0, 1⟩, ⟨0, 0, 0, 1⟩, ⟨0, 0, 0, 1⟩, 5⟩)]⟩⟩
      ⟨⟨0, 0, 0, 1⟩, ⟨0, 0, 0, 1⟩, ⟨0, 0, 0, 1⟩, ⟨0, 0, 0, 1⟩, 5⟩ rfl).2.2.1
      " 1.0 1.0 1.0".toList 1 1 1 (by decide!),
   (parseMaterialFile_attribute ⟨9, 9, 9, 9, 9, 9, 9, 9, 9, 9, 9, 9, 9⟩
      ⟨⟨⟨[], [], [], [], [], [], false⟩, "Wood".toList⟩,
        ⟨[("Wood".toList, ⟨⟨0, 0, 0, 1⟩, ⟨0, 0, 0, 1⟩, ⟨0, 0, 0, 1⟩, ⟨0, 0, 0, 1⟩, 5⟩)]⟩⟩
      ⟨⟨0, 0, 0, 1⟩, ⟨0, 0, 0, 1⟩, ⟨0, 0, 0, 1⟩, ⟨0, 0, 0, 1⟩, 5⟩ rfl).2.2.2
      " 96.0".toList 96 (by decide!)⟩

end WFLoader

namespace MaterialManager

/-! ### C21 - C23: `addMaterial` and `getMaterial` -/

/-- C21: the registry that maps `Wood` to a material with shininess 5, and
`addMaterial( "Wood", M )` for a material `M` with shininess 7. Afterwards `Wood` is still
mapped to the material with shininess 5: the registry is unchanged, `M` is not stored. -/
theorem addMaterial_overwrite_counterexample :
    (addMaterial ⟨[("Wood".toList, ⟨⟨0, 0, 0, 1⟩, ⟨0, 0, 0, 1⟩, ⟨0, 0, 0, 1⟩, ⟨0, 0, 0, 1⟩, 5⟩)]⟩
        "Wood".toList ⟨⟨1, 1, 1, 1⟩, ⟨1, 1, 1, 1⟩, ⟨1, 1, 1, 1⟩, ⟨1, 1, 1, 1⟩, 7⟩).find
        "Wood".toList =
      some ⟨⟨0, 0, 0, 1⟩, ⟨0, 0, 0, 1⟩, ⟨0, 0, 0, 1⟩, ⟨0, 0, 0, 1⟩, 5⟩
    ∧ (⟨⟨0, 0, 0, 1⟩, ⟨0, 0, 0, 1⟩, ⟨0, 0, 0, 1⟩, ⟨0, 0, 0, 1⟩, 5⟩ : MaterialData) ≠
      ⟨⟨1, 1, 1, 1⟩, ⟨1, 1, 1, 1⟩, ⟨1, 1, 1, 1⟩, ⟨1, 1, 1, 1⟩, 7⟩ := by
  constructor
  · rfl
  · decide!

/-- C21, amended: for every registry state, every name and every material `M`, after
`addMaterial( name, M )` the registry maps `name` to `M` when `name` was absent, and is
unchanged, so that `name` keeps the material it had, when `name` was present; every other
name is mapped as before in both cases. -/
theorem addMaterial_insert (m : MaterialManager) (name : List Char) (M : MaterialData) :
    (m.find name = none → (m.addMaterial name M).find name = some M)
    ∧ (∀ d, m.find name = some d →
        m.addMaterial name M = m ∧ (m.addMaterial name M).find name = some d)
    ∧ (∀ other, other ≠ name → (m.addMaterial name M).find other = m.find other) := by
  refine ⟨find_addMaterial_absent m name M, ?_, fun other ho =>
    find_addMaterial_other m name other M ho⟩
  intro d hd
  have h := addMaterial_present m name M d hd
  exact ⟨h, by rw [h]; exact hd⟩

/-- Witness of C21 (amended) on the empty registry and on a registry that holds `Wood`. -/
theorem addMaterial_insert_witness :
    (addMaterial ⟨[]⟩ "Wood".toList
        ⟨⟨1, 1, 1, 1⟩, ⟨1, 1, 1, 1⟩, ⟨1, 1, 1, 1⟩, ⟨1, 1, 1, 1⟩, 7⟩).find "Wood".toList =
      some ⟨⟨1, 1, 1, 1⟩, ⟨1, 1, 1, 1⟩, ⟨1, 1, 1, 1⟩, ⟨1, 1, 1, 1⟩, 7⟩
    ∧ (addMaterial
        ⟨[("Wood".toList, ⟨⟨0, 0, 0, 1⟩, ⟨0, 0, 0, 1⟩, ⟨0, 0, 0, 1⟩, ⟨0, 0, 0, 1⟩, 5⟩)]⟩
        "Wood".toList ⟨⟨1, 1, 1, 1⟩, ⟨1, 1, 1, 1⟩, ⟨1, 1, 1, 1⟩, ⟨1, 1, 1, 1⟩, 7⟩ =
        ⟨[("Wood".toList, ⟨⟨0, 0, 0, 1⟩, ⟨0, 0, 0, 1⟩, ⟨0, 0, 0, 1⟩, ⟨0, 0, 0, 1⟩, 5⟩)]⟩
      ∧ (addMaterial
        ⟨[("Wood".toList, ⟨⟨0, 0, 0, 1⟩, ⟨0, 0, 0, 1⟩, ⟨0, 0, 0, 1⟩, ⟨0, 0, 0, 1⟩, 5⟩)]⟩
        "Wood".toList ⟨⟨1, 1, 1, 1⟩, ⟨1, 1, 1, 1⟩, ⟨1, 1, 1, 1⟩, ⟨1, 1, 1, 1⟩, 7⟩).find
        "Wood".toList =
        some ⟨⟨0, 0, 0, 1⟩, ⟨0, 0, 0, 1⟩, ⟨0, 0, 0, 1⟩, ⟨0, 0, 0, 1⟩, 5⟩)
    ∧ (addMaterial ⟨[]⟩ "Wood".toList
        ⟨⟨1, 1, 1, 1⟩, ⟨1, 1, 1, 1⟩, ⟨1, 1, 1, 1⟩, ⟨1, 1, 1, 1⟩, 7⟩).find "Iron".toList =
      find ⟨[]⟩ "Iron".toList :=
  ⟨(addMaterial_insert ⟨[]⟩ "Wood".toList _).1 rfl,
   (addMaterial_insert
      ⟨[("Wood".toList, ⟨⟨0, 0, 0, 1⟩, ⟨0, 0, 0, 1⟩, ⟨0, 0, 0, 1⟩, ⟨0, 0, 0, 1⟩, 5⟩)]⟩
      "Wood".toList _).2.1 _ rfl,
   (addMaterial_insert ⟨[]⟩ "Wood".toList _).2.2 "Iron".toList (by decide)⟩

/-- The reference `getMaterial` returns for a name that is present is to the stored
entry, which can be read. -/
theorem getMaterial_present (m : MaterialManager) (name : List Char) (d : MaterialData)
    (h : m.find name = some d) :
    (m.getMaterial name).1 = MaterialRef.entry d ∧ (m.getMaterial name).1.read = some d := by
  simp [getMaterial, h, MaterialRef.read]

/-- The reference `getMaterial` returns for a name that is absent is to its local
`dummy`, which is destroyed at the return: there is nothing to read. -/
theorem getMaterial_absent (m : MaterialManager) (name : List Char) (h : m.find name = none) :
    (m.getMaterial name).1 = MaterialRef.dangling ∧ (m.getMaterial name).1.read = none := by
  simp [getMaterial, h, MaterialRef.read]

/-- The registry is the same before and after `getMaterial`. -/
theorem getMaterial_registry (m : MaterialManager) (name : List Char) :
    (m.getMaterial name).2 = m := by
  unfold getMaterial
  split <;> rfl

/-- C22, failing input: `getMaterial( "Unknown" )` on the empty registry. The name is not
found, and the function returns a reference to its local `dummy`, which is destroyed at
the return: the reference dangles and no material, all-zero or other, can be read through
it. The registry is unchanged. -/
theorem getMaterial_absent_failing :
    (getMaterial ⟨[]⟩ "Unknown".toList).1 = MaterialRef.dangling
      ∧ (getMaterial ⟨[]⟩ "Unknown".toList).1.read = none
      ∧ (getMaterial ⟨[]⟩ "Unknown".toList).2 = ⟨[]⟩ :=
  ⟨rfl, rfl, rfl⟩

/-- C23: for every registry that does not contain `name` and every material `M`, after
`addMaterial( name, M )` the call `getMaterial( name )` returns a reference to an entry
equal to `M`, which can be read, and for every other name `getMaterial` returns what it
returned before the add. -/
theorem getMaterial_addMaterial (m : MaterialManager) (name : List Char) (M : MaterialData)
    (h : m.find name = none) :
    (((m.addMaterial name M).getMaterial name).1 = MaterialRef.entry M
      ∧ ((m.addMaterial name M).getMaterial name).1.read = some M)
    ∧ (∀ other, other ≠ name →
        ((m.addMaterial name M).getMaterial other).1 = (m.getMaterial other).1) := by
  refine ⟨?_, ?_⟩
  · simp [getMaterial, find_addMaterial_absent m name M h, MaterialRef.read]
  · intro other ho
    simp only [getMaterial, find_addMaterial_other m name other M ho]
    split <;> rfl

/-- Witness of C23 on the empty registry and the name `Wood`. -/
theorem getMaterial_addMaterial_witness :
    (((addMaterial ⟨[]⟩ "Wood".toList
          ⟨⟨1, 1, 1, 1⟩, ⟨1, 1, 1, 1⟩, ⟨1, 1, 1, 1⟩, ⟨1, 1, 1, 1⟩, 7⟩).getMaterial
          "Wood".toList).1 =
        MaterialRef.entry ⟨⟨1, 1, 1, 1⟩, ⟨1, 1, 1, 1⟩, ⟨1, 1, 1, 1⟩, ⟨1, 1, 1, 1⟩, 7⟩
      ∧ ((addMaterial ⟨[]⟩ "Wood".toList
          ⟨⟨1, 1, 1, 1⟩, ⟨1, 1, 1, 1⟩, ⟨1, 1, 1, 1⟩, ⟨1, 1, 1, 1⟩, 7⟩).getMaterial
          "Wood".toList).1.read =
        some ⟨⟨1, 1, 1, 1⟩, ⟨1, 1, 1, 1⟩, ⟨1, 1, 1, 1⟩, ⟨1, 1, 1, 1⟩, 7⟩)
    ∧ (∀ other, other ≠ "Wood".toList →
        ((addMaterial ⟨[]⟩ "Wood".toList
          ⟨⟨1, 1, 1, 1⟩, ⟨1, 1, 1, 1⟩, ⟨1, 1, 1, 1⟩, ⟨1, 1, 1, 1⟩, 7⟩).getMaterial other).1 =
        (getMaterial ⟨[]⟩ other).1) :=
  getMaterial_addMaterial ⟨[]⟩ "Wood".toList _ rfl

end MaterialManager

namespace RasterMap

open RasterSpec

/-! ### Running a list of calls -/

theorem run_append (a b : List Call) : ∀ g : RasterMap,
    run (a ++ b) g = (run a g).bind (run b) := by
  induction a with
  | nil => intro g; rfl
  | cons c a ih =>
    intro g
    simp only [List.cons_append, run]
    cases exec g c with
    | none => rfl
    | some g1 => simp only [Option.some_bind]; exact ih g1

theorem run_extent : ∀ (cs : List Call) (g g1 : RasterMap), run cs g = some g1 →
    g1.m_GridWidth = g.m_GridWidth ∧ g1.m_GridHeight = g.m_GridHeight := by
  intro cs
  induction cs with
  | nil =>
    intro g g1 h
    simp only [run, Option.some.injEq] at h
    subst h
    exact ⟨rfl, rfl⟩
  | cons c cs ih =>
    intro g g1 h
    simp only [run] at h
    obtain ⟨g2, h2, h3⟩ := Option.bind_eq_some.mp h
    obtain ⟨e1, e2⟩ := exec_extent g g2 c h2
    obtain ⟨e3, e4⟩ := ih g2 g1 h3
    exact ⟨e3.trans e1, e4.trans e2⟩

/-- A list of calls whose `superSample` calls all lie below the extents of a grid that is
not empty is performed to the end. -/
theorem run_defined : ∀ (cs : List Call) (g : RasterMap), 0 < g.m_GridWidth →
    0 < g.m_GridHeight → samplesBelow g.m_GridWidth g.m_GridHeight cs = true →
    ∃ g1, run cs g = some g1 := by
  intro cs
  induction cs with
  | nil => intro g _ _ _; exact ⟨g, rfl⟩
  | cons c cs ih =>
    intro g hw hh hs
    cases c with
    | pixel x y col =>
      simp only [samplesBelow] at hs
      obtain ⟨g1, h1⟩ := ih (g.drawPixel x y col) (by rw [drawPixel_width]; exact hw)
        (by rw [drawPixel_height]; exact hh)
        (by rw [drawPixel_width, drawPixel_height]; exact hs)
      exact ⟨g1, by simp only [run, exec, Option.some_bind]; exact h1⟩
    | sample x y =>
      simp only [samplesBelow, Bool.and_eq_true, decide_eq_true_eq] at hs
      obtain ⟨c, hc⟩ := superSample_defined g x y hw hh hs.1.1 hs.1.2
      obtain ⟨g1, h1⟩ := ih (g.drawPixel x y c) (by rw [drawPixel_width]; exact hw)
        (by rw [drawPixel_height]; exact hh)
        (by rw [drawPixel_width, drawPixel_height]; exact hs.2)
      exact ⟨g1, by simp only [run, exec, hc, Option.some_bind]; exact h1⟩

/-- A list of calls that holds a `superSample` call at a column or row at or beyond the
extent of the grid, or on an empty grid, is not performed to the end: a read leaves the
raster at that call at the latest. -/
theorem run_undefined : ∀ (cs : List Call) (g : RasterMap) (x y : Int),
    Call.sample x y ∈ cs →
    ¬ (0 < g.m_GridWidth ∧ 0 < g.m_GridHeight ∧ x < g.m_GridWidth ∧ y < g.m_GridHeight) →
    run cs g = none := by
  intro cs
  induction cs with
  | nil => intro g x y h _; exact absurd h (List.not_mem_nil _)
  | cons c cs ih =>
    intro g x y hmem hout
    simp only [run]
    cases hc : exec g c with
    | none => rfl
    | some g2 =>
      simp only [Option.some_bind]
      obtain ⟨e1, e2⟩ := exec_extent g g2 c hc
      rcases List.mem_cons.mp hmem with heq | hin
      · subst heq
        have hs : (g.superSample x y).isSome := by
          simp only [exec] at hc
          rw [hc]; rfl
        exact absurd ((superSample_isSome_iff g x y).mp hs) hout
      · exact ih g2 x y hin (by rw [e1, e2]; exact hout)

/-! ### The branches of `drawLine` -/

/-- The `float` slope of a line with `x0 < x1` and `y1 < y0` is not positive: rounding
keeps the sign. -/
theorem slope_descending (x0 y0 x1 y1 : Int) (hx : x0 < x1) (hy : y1 < y0) :
    slope x0 y0 x1 y1 ≤ 0 := by
  unfold slope
  apply Ieee.binary32_nonpos
  apply div_nonpos_of_nonpos_of_nonneg
  · exact Ieee.binary32_nonpos _ (by exact_mod_cast (by omega : y1 - y0 ≤ 0))
  · exact Ieee.binary32_nonneg _ (by exact_mod_cast (by omega : 0 ≤ x1 - x0))

/-- The `float` slope of a line with `x1 < x0` and `y0 <= y1` is not positive. -/
theorem slope_reversed (x0 y0 x1 y1 : Int) (hx : x1 < x0) (hy : y0 ≤ y1) :
    slope x0 y0 x1 y1 ≤ 0 := by
  unfold slope
  apply Ieee.binary32_nonpos
  apply div_nonpos_of_nonneg_of_nonpos
  · exact Ieee.binary32_nonneg _ (by exact_mod_cast (by omega : 0 ≤ y1 - y0))
  · exact Ieee.binary32_nonpos _ (by exact_mod_cast (by omega : x1 - x0 ≤ 0))

/-- After a `drawLine` that ran its first loop and returned, the cell plotted in the last
round, in column `x1`, holds the current colour when it is in the grid: the two
`superSample` calls that follow write the cells above and below it. -/
theorem drawLine_x_branch_last (g g1 : RasterMap) (x0 y0 x1 y1 : Int) (hx : x0 < x1)
    (hm : slope x0 y0 x1 y1 ≤ 1) (h : g.drawLine x0 y0 x1 y1 = some g1)
    (hin : inGrid g x1
      (roundHalfUp (lineY (slope x0 y0 x1 y1) (x1 - x0).toNat (Ieee.binary32 (y0 : Rat))))) :
    g1.m_RasterMap x1
        (roundHalfUp (lineY (slope x0 y0 x1 y1) (x1 - x0).toNat (Ieee.binary32 (y0 : Rat))))
      = g.m_Color := by
  unfold drawLine at h
  rw [drawLineCalls_x_branch g.m_Color x0 y0 x1 y1 hx hm, Option.some_bind] at h
  have hn : (x1 - x0 + 1).toNat = (x1 - x0).toNat + 1 := by omega
  have hk : x0 + (((x1 - x0).toNat : Nat) : Int) = x1 := by
    rw [Int.toNat_of_nonneg (by omega)]; ring
  rw [hn, List.range_succ, List.flatMap_append, List.flatMap_singleton, run_append] at h
  obtain ⟨g2, h2, h3⟩ := Option.bind_eq_some.mp h
  obtain ⟨e1, e2⟩ := run_extent _ g g2 h2
  simp only [roundX, hk] at h3
  generalize roundHalfUp (lineY (slope x0 y0 x1 y1) (x1 - x0).toNat
    (Ieee.binary32 (y0 : Rat))) = Y at h3 hin ⊢
  simp only [run, exec, Option.some_bind] at h3
  obtain ⟨g3, h4, h5⟩ := Option.bind_eq_some.mp h3
  obtain ⟨g4, h6, h7⟩ := Option.bind_eq_some.mp h5
  simp only [Option.some.injEq] at h7
  obtain ⟨c3, rfl⟩ := superSample_some _ g3 _ _ h4
  obtain ⟨c4, rfl⟩ := superSample_some _ g4 _ _ h6
  subst h7
  have hin2 : inGrid g2 x1 Y := by
    unfold inGrid at hin ⊢
    rw [e1, e2]
    exact hin
  rw [drawPixel_cell, if_neg (by omega), drawPixel_cell, if_neg (by omega), drawPixel_cell,
    if_pos ⟨hin2, rfl, rfl⟩]

/-! ### C24 - C25: lines drawn from right to left and lines that descend -/

/-- C24: for every grid and all integers with `x0 > x1`, `drawLine( x0, y0, x1, y1 )`
issues no call at all, neither `drawPixel` nor `superSample`, whichever branch the slope
selects, and returns the grid as it was. -/
theorem drawLine_reversed (g : RasterMap) (color : Color4f) (x0 y0 x1 y1 : Int)
    (hx : x1 < x0) :
    drawLineCalls color x0 y0 x1 y1 = some [] ∧ g.drawLine x0 y0 x1 y1 = some g := by
  have hc : ∀ col, drawLineCalls col x0 y0 x1 y1 = some [] := by
    intro col
    unfold drawLineCalls
    rw [if_neg (by omega)]
    by_cases hm : slope x0 y0 x1 y1 ≤ 1
    · simp only [hm, if_true]
      have : (x1 + 1 - x0).toNat = 0 := by omega
      rw [this]
      rfl
    · simp only [hm, if_false]
      have hlt : y1 < y0 := by
        by_contra hge
        exact hm (le_trans (slope_reversed x0 y0 x1 y1 hx (not_lt.mp hge)) zero_le_one)
      have : (y1 + 1 - y0).toNat = 0 := by omega
      rw [this]
      rfl
  refine ⟨hc color, ?_⟩
  unfold drawLine
  rw [hc g.m_Color]
  rfl

/-- Witness of C24 on the call `drawLine( 14, 9, 0, 0 )` on the 40 x 30 grid. -/
theorem drawLine_reversed_witness :
    drawLineCalls Color4f.default 14 9 0 0 = some []
      ∧ (new 40 30 (1 / 10)).drawLine 14 9 0 0 = some (new 40 30 (1 / 10)) :=
  drawLine_reversed (new 40 30 (1 / 10)) Color4f.default 14 9 0 0 (by decide)

/-- C25: the demo call `drawLine( -4, 20, 35, 5 )` on the 40 x 30 grid, with the colour
`(255, 0, 255, 0)` that `draw` sets before it. The call returns, and the cell `(35, 5)`,
which held the colour `(73, 74, 74, 255)` of a fresh grid, holds `(255, 0, 255, 0)`
afterwards: the line is drawn. -/
theorem drawLine_descending_counterexample :
    ∃ g1, ((new 40 30 (1 / 10)).setColor ⟨255, 0, 255, 0⟩).drawLine (-4) 20 35 5 = some g1
      ∧ g1.m_RasterMap 35 5 = ⟨255, 0, 255, 0⟩
      ∧ ((new 40 30 (1 / 10)).setColor ⟨255, 0, 255, 0⟩).m_RasterMap 35 5 =
          ⟨73, 74, 74, 255⟩ := by
  have hm : slope (-4) 20 35 5 ≤ 1 :=
    le_trans (slope_descending (-4) 20 35 5 (by decide) (by decide)) zero_le_one
  have hcalls := drawLineCalls_x_branch ⟨255, 0, 255, 0⟩ (-4) 20 35 5 (by decide) hm
  have hsafe : (drawLineCalls ⟨255, 0, 255, 0⟩ (-4) 20 35 5).map (samplesBelow 40 30) =
      some true := by
    decide!
  rw [hcalls] at hsafe
  simp only [Option.map_some', Option.some.injEq] at hsafe
  obtain ⟨g1, h1⟩ := run_defined _ ((new 40 30 (1 / 10)).setColor ⟨255, 0, 255, 0⟩)
    (by decide) (by decide) hsafe
  have hd : ((new 40 30 (1 / 10)).setColor ⟨255, 0, 255, 0⟩).drawLine (-4) 20 35 5 =
      some g1 := by
    unfold drawLine
    show (drawLineCalls ⟨255, 0, 255, 0⟩ (-4) 20 35 5).bind _ = _
    rw [hcalls, Option.some_bind]
    exact h1
  have hY : roundHalfUp (lineY (slope (-4) 20 35 5) ((35 : Int) - (-4)).toNat
      (Ieee.binary32 ((20 : Int) : Rat))) = 5 := by
    decide!
  have hlast := drawLine_x_branch_last _ g1 (-4) 20 35 5 (by decide) hm hd
  rw [hY] at hlast
  exact ⟨g1, hd, hlast ⟨by decide, by decide, by decide, by decide⟩, rfl⟩

/-- C25, amended: for all integers with `x0 < x1` and `y0 > y1`, the `float` slope `m` is
not positive and `drawLine( x0, y0, x1, y1 )` runs its first loop: for each `x = x0 + k`
from `x0` to `x1` it issues `drawPixel` with the current colour at `(x, floor(y + 1/2))`
followed by `superSample` on the cells below and above, where `y` is the `float` that
starts as `y0` and is replaced by the `float` sum `y + m` after each round; the first
round plots `(x0, y0)` when `|y0| < 2 ^ 24`, and whenever the call returns, the cell
plotted in the last round, in column `x1`, holds the current colour if it is in the
grid. -/
theorem drawLine_descending (color : Color4f) (x0 y0 x1 y1 : Int) (hx : x0 < x1)
    (hy : y1 < y0) :
    slope x0 y0 x1 y1 ≤ 0
      ∧ drawLineCalls color x0 y0 x1 y1 =
        some ((List.range (x1 - x0 + 1).toNat).flatMap
          (roundX color x0 (Ieee.binary32 (y0 : Rat)) (slope x0 y0 x1 y1)))
      ∧ (∀ k : Nat, roundX color x0 (Ieee.binary32 (y0 : Rat)) (slope x0 y0 x1 y1) k =
          [ Call.pixel (x0 + k)
              ⌊Ieee.binary64 (lineY (slope x0 y0 x1 y1) k (Ieee.binary32 (y0 : Rat)) + 1 / 2)⌋
              color,
            Call.sample (x0 + k)
              (⌊Ieee.binary64 (lineY (slope x0 y0 x1 y1) k (Ieee.binary32 (y0 : Rat)) + 1 / 2)⌋
                - 1),
            Call.sample (x0 + k)
              (⌊Ieee.binary64 (lineY (slope x0 y0 x1 y1) k (Ieee.binary32 (y0 : Rat)) + 1 / 2)⌋
                + 1) ])
      ∧ lineY (slope x0 y0 x1 y1) 0 (Ieee.binary32 (y0 : Rat)) = Ieee.binary32 (y0 : Rat)
      ∧ (∀ k : Nat, lineY (slope x0 y0 x1 y1) (k + 1) (Ieee.binary32 (y0 : Rat)) =
          Ieee.binary32
            (lineY (slope x0 y0 x1 y1) k (Ieee.binary32 (y0 : Rat)) + slope x0 y0 x1 y1))
      ∧ (|y0| < 2 ^ 24 →
          roundX color x0 (Ieee.binary32 (y0 : Rat)) (slope x0 y0 x1 y1) 0 =
            [Call.pixel x0 y0 color, Call.sample x0 (y0 - 1), Call.sample x0 (y0 + 1)])
      ∧ (∀ g g1 : RasterMap, g.drawLine x0 y0 x1 y1 = some g1 →
          inGrid g x1 (roundHalfUp (lineY (slope x0 y0 x1 y1) (x1 - x0).toNat
            (Ieee.binary32 (y0 : Rat)))) →
          g1.m_RasterMap x1 (roundHalfUp (lineY (slope x0 y0 x1 y1) (x1 - x0).toNat
            (Ieee.binary32 (y0 : Rat)))) = g.m_Color) := by
  have h0 := slope_descending x0 y0 x1 y1 hx hy
  have hm : slope x0 y0 x1 y1 ≤ 1 := le_trans h0 zero_le_one
  refine ⟨h0, drawLineCalls_x_branch color x0 y0 x1 y1 hx hm, fun _ => rfl, rfl,
    fun k => lineY_succ _ k _, ?_,
    fun g g1 h hin => drawLine_x_branch_last g g1 x0 y0 x1 y1 hx hm h hin⟩
  intro hb
  rw [roundX_zero, Ieee.binary32_int y0 hb, roundHalfUp_int y0 hb]

/-- Witness of C25 (amended) on the demo call `drawLine( -4, 20, 35, 5 )`, whose last round
plots `(35, 5)`, and the round for `x = 3` of `drawLine( 0, 1, 6, 0 )`: the `float` `y`
is just below `1/2` there and the pixel is `(3, 0)`, where exact arithmetic gives
`(3, 1)`. -/
theorem drawLine_descending_witness :
    (slope (-4) 20 35 5 ≤ 0
      ∧ drawLineCalls Color4f.default (-4) 20 35 5 =
        some ((List.range ((35 : Int) - (-4) + 1).toNat).flatMap
          (roundX Color4f.default (-4) (Ieee.binary32 ((20 : Int) : Rat))
            (slope (-4) 20 35 5))))
      ∧ roundHalfUp (lineY (slope (-4) 20 35 5) ((35 : Int) - (-4)).toNat
          (Ieee.binary32 ((20 : Int) : Rat))) = 5
      ∧ (drawLineCalls Color4f.default 0 1 6 0).map (fun cs => (cs.drop 9).take 3) =
        some [Call.pixel 3 0 Color4f.default, Call.sample 3 (-1), Call.sample 3 1]
      ∧ gentleRound Color4f.default 0 1 (exactSlope 0 1 6 0) 3 =
        [Call.pixel 3 1 Color4f.default, Call.sample 3 0, Call.sample 3 2] :=
  ⟨⟨(drawLine_descending Color4f.default (-4) 20 35 5 (by decide) (by decide)).1,
    (drawLine_descending Color4f.default (-4) 20 35 5 (by decide) (by decide)).2.1⟩,
   by decide!, by decide!, by decide!⟩

/-! ### C27: reads outside the raster -/

/-- The call `drawCircle( x0, y0, R )` always returns: it only calls `drawPixel`, which
clips. -/
theorem drawCircle_returns (g : RasterMap) (x0 y0 R : Int) :
    ∃ g1, g.drawCircle x0 y0 R = some g1 := by
  obtain ⟨g1, h, _⟩ := run_pixels g.m_Color (drawCircleCalls g.m_Color x0 y0 R) g
    (drawCircleCalls_pixels g.m_Color x0 y0 R)
  exact ⟨g1, h⟩

/-- C27: the failing inputs, on the 40 x 30 grid of the demo. `superSample( 40, 0 )` is
called with a column outside the grid: the clamp `if( tX >= m_GridWidth ) tX = x` leaves
`tX = 40` and `m_RasterMap[40]` is read, past the 40 columns allocated. The demo call
`drawLine( 30, -3, 33, 34 )` reaches the row `iy = 30` and calls `superSample` there: the
clamp `if( tY >= m_GridHeight ) tY = y` leaves `tY = 30` and row 30 of a column is read,
past the 30 rows allocated. In the embedding with checked reads both calls end in the
error branch. -/
theorem raster_access_failing :
    (new 40 30 (1 / 10)).superSample 40 0 = none
      ∧ ((new 40 30 (1 / 10)).setColor ⟨70, 30, 255, 0⟩).drawLine 30 (-3) 33 34 = none := by
  refine ⟨superSample_undefined _ 40 0 (by decide) (by decide), ?_⟩
  have hm : 1 < slope 30 (-3) 33 34 := by decide!
  unfold drawLine
  show (drawLineCalls ⟨70, 30, 255, 0⟩ 30 (-3) 33 34).bind _ = _
  rw [drawLineCalls_y_branch _ 30 (-3) 33 34 (by decide) hm, Option.some_bind]
  apply run_undefined _ _
    (roundHalfUp (lineX (slope 30 (-3) 33 34) 33 (Ieee.binary32 ((30 : Int) : Rat))) - 1)
    (-3 + ((33 : Nat) : Int))
  · rw [List.mem_flatMap]
    exact ⟨33, by decide, by simp [roundY]⟩
  · intro h
    have := h.2.2.2
    revert this
    decide

end RasterMap

namespace RasterMap

open RasterSpec

/-! ### The loop of `drawCircle` -/

theorem circleStep_east (s : CircleState) (hd : s.decision < 0) :
    circleStep s = ⟨s.x + 1, s.y, s.deltaE + 2, s.deltaSE + 2, s.decision + s.deltaE⟩ := by
  unfold circleStep
  simp [hd]

theorem circleStep_southeast (s : CircleState) (hd : ¬ s.decision < 0) :
    circleStep s =
      ⟨s.x + 1, s.y - 1, s.deltaE + 2, s.deltaSE + 2 + 2, s.decision + s.deltaSE⟩ := by
  unfold circleStep
  simp [hd]

/-- The calls of the loop are the eight pixels of each of its rounds. -/
theorem circleLoop_rounds (color : Color4f) (x0 y0 : Int) :
    ∀ (n : Nat) (s : CircleState), circleLoop color x0 y0 n s =
      (circleRounds n s).flatMap (fun t => octantCalls color x0 y0 t.x t.y) := by
  intro n
  induction n with
  | zero => intro s; rfl
  | succ n ih =>
    intro s
    unfold circleLoop circleRounds
    split_ifs
    · rw [List.flatMap_cons, ih]
    · rfl

theorem circleRounds_of_not_guard (n : Nat) (s : CircleState) (h : ¬ s.y > s.x) :
    circleRounds n s = [] := by
  cases n with
  | zero => rfl
  | succ n => simp [circleRounds, h]

/-- The loop runs at most `y - x` rounds. -/
theorem circleRounds_length : ∀ (n : Nat) (s : CircleState),
    ((circleRounds n s).length : Int) ≤ max (s.y - s.x) 0 := by
  intro n
  induction n with
  | zero => intro s; simp [circleRounds]
  | succ n ih =>
    intro s
    unfold circleRounds
    split_ifs with hg
    · have h1 := ih (circleStep s)
      have hx := circleStep_x s
      have hy := circleStep_y_le s
      simp only [List.length_cons, Nat.cast_add, Nat.cast_one]
      have : max ((circleStep s).y - (circleStep s).x) 0 + 1 ≤ max (s.y - s.x) 0 := by
        rw [hx]
        rcases max_cases ((circleStep s).y - (s.x + 1)) 0 with ⟨h, _⟩ | ⟨h, _⟩ <;>
          rcases max_cases (s.y - s.x) 0 with ⟨h', _⟩ | ⟨h', _⟩ <;> omega
      omega
    · simp

theorem circleInvariant_init (R : Int) : circleInvariant R (circleInit R) := by
  refine ⟨rfl, rfl, ?_⟩
  simp only [circleInit]
  push_cast
  ring

theorem circleInvariant_step (R : Int) (s : CircleState) (h : circleInvariant R s) :
    circleInvariant R (circleStep s) := by
  obtain ⟨h1, h2, h3⟩ := h
  by_cases hd : s.decision < 0
  · rw [circleStep_east s hd]
    refine ⟨by simp only; omega, by simp only; omega, ?_⟩
    simp only
    rw [h3, h1]
    push_cast
    ring
  · rw [circleStep_southeast s hd]
    refine ⟨by simp only; omega, by simp only; omega, ?_⟩
    simp only
    rw [h3, h2]
    push_cast
    ring

theorem circleInvariant_rounds (R : Int) : ∀ (n : Nat) (s : CircleState),
    circleInvariant R s → ∀ t ∈ circleRounds n s, circleInvariant R t := by
  intro n
  induction n with
  | zero => intro s _ t ht; exact absurd ht (List.not_mem_nil _)
  | succ n ih =>
    intro s hs t ht
    unfold circleRounds at ht
    split_ifs at ht with hg
    · rcases List.mem_cons.mp ht with rfl | ht
      · exact circleInvariant_step R s hs
      · exact ih (circleStep s) (circleInvariant_step R s hs) t ht
    · exact absurd ht (List.not_mem_nil _)

/-! ### C26: the invariant of the decision variable -/

/-- C26: for every `R`, the state at the entry to the loop of `drawCircle` satisfies
`deltaE = 2x + 3`, `deltaSE = 2(x - y) + 5` and
`decision = (x+1)^2 + (y - 1/2)^2 - R^2`; a round of the loop takes a state that satisfies
the three equations to one that does; so the state after every round of the loop
satisfies them, in exact arithmetic. -/
theorem drawCircle_invariant (R : Int) :
    circleInvariant R (circleInit R)
      ∧ (∀ s, circleInvariant R s → circleInvariant R (circleStep s))
      ∧ (∀ n, ∀ t ∈ circleRounds n (circleInit R), circleInvariant R t) :=
  ⟨circleInvariant_init R, circleInvariant_step R,
    fun n => circleInvariant_rounds R n (circleInit R) (circleInvariant_init R)⟩

/-- Witness of C26 on the first round of `drawCircle( x0, y0, 5 )`. -/
theorem drawCircle_invariant_witness :
    circleInvariant 5 (circleStep ⟨0, 5, 3, -5, -15 / 4⟩)
      ∧ circleInvariant 5 ⟨1, 5, 5, -3, -3 / 4⟩ :=
  ⟨(drawCircle_invariant 5).2.1 ⟨0, 5, 3, -5, -15 / 4⟩ (by decide!),
   (drawCircle_invariant 5).2.2 5 ⟨1, 5, 5, -3, -3 / 4⟩ (by decide!)⟩


/-! ### C28: the points of the circle -/

theorem circleBand_init (R : Int) (hR : 1 ≤ R) : circleBand R (circleInit R) := by
  refine ⟨circleInvariant_init R, ?_, ?_, ?_, ?_⟩ <;> simp only [circleInit] <;> nlinarith

/-- A round of the loop from a state within the band ends in a point near the circle, and
in a state within the band again if the loop goes on from there. -/
theorem circleBand_step (R : Int) (s : CircleState) (hb : circleBand R s)
    (hg : s.y > s.x) :
    nearCircle R (circleStep s)
      ∧ ((circleStep s).y > (circleStep s).x → circleBand R (circleStep s)) := by
  have hinv := circleInvariant_step R s hb.1
  obtain ⟨⟨_, _, h3⟩, hx, hy, hlo, hhi⟩ := hb
  by_cases hd : s.decision < 0
  · rw [circleStep_east s hd] at hinv ⊢
    have hq : (((s.x + 1) ^ 2 + s.y ^ 2 - R ^ 2 : Int) : Rat) < (s.y : Rat) := by
      rw [h3] at hd
      push_cast
      nlinarith [hd]
    have hz : (s.x + 1) ^ 2 + s.y ^ 2 - R ^ 2 < s.y := by exact_mod_cast hq
    have hl : -s.y ≤ (s.x + 1) ^ 2 + s.y ^ 2 - R ^ 2 := by nlinarith
    refine ⟨⟨by simp only; omega, by simp only; omega, hy, ?_⟩, ?_⟩
    · simp only
      exact abs_le.mpr ⟨hl, by omega⟩
    · intro _
      exact ⟨hinv, by simp only; omega, hy, hl, by simp only; omega⟩
  · rw [circleStep_southeast s hd] at hinv ⊢
    have hd0 : 0 ≤ s.decision := not_lt.mp hd
    have hq : -((s.y : Rat) - 1) - 1 <
        (((s.x + 1) ^ 2 + (s.y - 1) ^ 2 - R ^ 2 : Int) : Rat) := by
      rw [h3] at hd0
      push_cast
      nlinarith [hd0]
    have hz : -(s.y - 1) - 1 < (s.x + 1) ^ 2 + (s.y - 1) ^ 2 - R ^ 2 := by exact_mod_cast hq
    have hu : (s.x + 1) ^ 2 + (s.y - 1) ^ 2 - R ^ 2 ≤ 2 * s.x + 1 - s.y := by nlinarith
    refine ⟨⟨by simp only; omega, by simp only; omega, by simp only; omega, ?_⟩, ?_⟩
    · simp only
      exact abs_le.mpr ⟨by omega, by omega⟩
    · intro hg2
      simp only at hg2
      exact ⟨hinv, by simp only; omega, by simp only; omega, by simp only; omega,
        by simp only; omega⟩

theorem nearCircle_rounds (R : Int) : ∀ (n : Nat) (s : CircleState),
    circleBand R s → ∀ t ∈ circleRounds n s, nearCircle R t := by
  intro n
  induction n with
  | zero => intro s _ t ht; exact absurd ht (List.not_mem_nil _)
  | succ n ih =>
    intro s hs t ht
    unfold circleRounds at ht
    split_ifs at ht with hg
    · obtain ⟨h1, h2⟩ := circleBand_step R s hs hg
      rcases List.mem_cons.mp ht with rfl | ht
      · exact h1
      · by_cases hg2 : (circleStep s).y > (circleStep s).x
        · exact ih (circleStep s) (h2 hg2) t ht
        · rw [circleRounds_of_not_guard n _ hg2] at ht
          exact absurd ht (List.not_mem_nil _)
    · exact absurd ht (List.not_mem_nil _)

/-- C28: for every `R >= 1`, the loop of `drawCircle` runs at most `R` rounds, however
much fuel it is given, and every octant point `(x, y)` in which a round ends satisfies
`0 <= x`, `0 <= y <= R` and `|x^2 + y^2 - R^2| <= y`, in exact arithmetic. -/
theorem drawCircle_points (R : Int) (hR : 1 ≤ R) :
    (∀ n, ((circleRounds n (circleInit R)).length : Int) ≤ R)
      ∧ (∀ n, ∀ t ∈ circleRounds n (circleInit R), nearCircle R t) := by
  refine ⟨?_, fun n => nearCircle_rounds R n (circleInit R) (circleBand_init R hR)⟩
  intro n
  have h := circleRounds_length n (circleInit R)
  have h0 : max ((circleInit R).y - (circleInit R).x) 0 = R := by
    simp only [circleInit]
    rw [sub_zero]
    exact max_eq_left (by omega)
  rw [h0] at h
  exact h

/-- Witness of C28 on `R = 5`: the loop runs four rounds, which end in `(1, 5)`, `(2, 5)`,
`(3, 4)` and `(4, 3)`. -/
theorem drawCircle_points_witness :
    (((circleRounds 9 (circleInit 5)).length : Int) ≤ 5)
      ∧ nearCircle 5 ⟨3, 4, 9, 3, 13 / 4⟩ :=
  ⟨(drawCircle_points 5 (by decide)).1 9,
   (drawCircle_points 5 (by decide)).2 9 ⟨3, 4, 9, 3, 13 / 4⟩ (by decide!)⟩

end RasterMap

namespace WFLoader

open Scanf

/-! ### C29: the nesting of `load` -/

theorem parseObjectFileWith_loadWith (fs : FileSystem) (junk : Nat → Junk) (u : Junk)
    (line : List Char) (w : World) :
    parseObjectFileWith (loadWith fs (fun k => parseMaterialFile (junk k))) u line w =
      parseObjectFile fs junk u line w := by
  unfold parseObjectFileWith parseObjectFile
  rfl

/-- A line of a material file that begins with `m` is not recognised. -/
theorem parseMaterialFile_m (u : Junk) (rest : List Char) (w : World) :
    parseMaterialFile u ('m' :: rest) w = some w := by
  simp [parseMaterialFile]

/-- A geometry file whose only line is an `mtllib` line naming the file itself: the nested
call parses the line as a line of a material file, where it is not recognised, and both
calls return. -/
theorem load_self_reference (fs : FileSystem) (junk : Nat → Junk) (w : World)
    (hfs : fs "a.obj".toList = some "mtllib a.obj\n".toList) :
    load fs junk "a.obj".toList FileType.OBJ_FILE w = some (true, w) := by
  have hc : "mtllib a.obj\n".toList = "mtllib a.obj".toList ++ '\n' :: [] := by decide
  have hs : cstr "mtllib a.obj".toList = "mtllib a.obj".toList := by decide
  have hm : ∀ u, parseObjectFile fs junk u "mtllib a.obj".toList w =
      (loadWith fs (fun k => parseMaterialFile (junk k)) "a.obj".toList w).map Prod.snd := by
    intro u
    have := parseObjectFile_mtllib fs junk u "tllib a.obj".toList "a.obj".toList w
      (by decide) (by decide)
    rw [if_pos (by decide)] at this
    exact this
  have hin : loadWith fs (fun k => parseMaterialFile (junk k)) "a.obj".toList w =
      some (true, w) := by
    simp only [loadWith, hfs]
    rw [hc, readLoop_line _ _ _ _ _ (by decide) (by decide), hs]
    show ((parseMaterialFile (junk 0) ('m' :: "tllib a.obj".toList) w).bind _).map _ = _
    rw [parseMaterialFile_m]
    rfl
  simp only [load, loadWith, hfs]
  rw [hc, readLoop_line _ _ _ _ _ (by decide) (by decide), hs, hm, hin]
  rfl

/-- C29: a material file is loaded without any nested call of `load`, and a geometry file
with nested calls at depth 2 only: the recursion of the source cut off below depth 1 gives,
for a material file, and cut off below depth 2 gives, for a geometry file, what it gives
with any greater depth, which is the result of `load`; so the recursion ends for every
file system, and `load` returns `true` on a geometry file whose `mtllib` line names the
geometry file itself. -/
theorem load_nesting (fs : FileSystem) (junk : Nat → Junk) (path : List Char) (w : World) :
    (∀ d, loadNested fs junk (d + 1) path FileType.MTL_FILE w =
        load fs junk path FileType.MTL_FILE w)
      ∧ (∀ d, loadNested fs junk (d + 2) path FileType.OBJ_FILE w =
        load fs junk path FileType.OBJ_FILE w)
      ∧ load (fun p => if p = "a.obj".toList then some "mtllib a.obj\n".toList else none)
          junk "a.obj".toList FileType.OBJ_FILE w = some (true, w) := by
  refine ⟨fun d => rfl, ?_, load_self_reference _ junk w (if_pos rfl)⟩
  intro d
  have hp : (fun k => parseObjectFileWith
      (fun p w1 => loadNested fs junk (d + 1) p FileType.MTL_FILE w1) (junk k)) =
      (fun k => parseObjectFile fs junk (junk k)) := by
    funext k line w1
    exact parseObjectFileWith_loadWith fs junk (junk k) line w1
  show loadWith fs (fun k => parseObjectFileWith
    (fun p w1 => loadNested fs junk (d + 1) p FileType.MTL_FILE w1) (junk k)) path w = _
  rw [hp]
  rfl

/-! ### C30: a last line without a newline -/

/-- Characters without a newline that fit into the buffer are stored and, at the end of
the file, dropped: nothing is parsed. -/
theorem readLoop_tail (parse : Nat → List Char → World → Option World) (tail : List Char)
    (k : Nat) (buf : List Char) (w : World) (h : ∀ c ∈ tail, c ≠ '\n')
    (hlen : buf.length + tail.length ≤ 99) : readLoop parse tail k buf w = some w := by
  have := readLoop_store parse tail [] k w h buf hlen
  rw [List.append_nil] at this
  rw [this]
  rfl

/-- What follows the last newline of a file is not parsed when it has fewer than 100
characters. -/
theorem readLoop_unterminated (parse : Nat → List Char → World → Option World)
    (tail : List Char) (h : ∀ c ∈ tail, c ≠ '\n') (hlen : tail.length < 100) :
    ∀ (pre : List Char) (k : Nat) (buf : List Char) (w : World),
      readLoop parse (pre ++ '\n' :: tail) k buf w =
        readLoop parse (pre ++ ['\n']) k buf w := by
  intro pre
  induction pre with
  | nil =>
    intro k buf w
    simp only [List.nil_append]
    rw [readLoop_newline, readLoop_newline]
    congr 1
    funext w1
    rw [readLoop_tail parse tail (k + 1) [] w1 h (by simp; omega)]
    rfl
  | cons c pre ih =>
    intro k buf w
    simp only [List.cons_append, readLoop]
    split_ifs
    · exact ih k _ w
    · congr 1
      funext w1
      exact ih (k + 1) [] w1

/-- C30: a file of 100 characters without a newline, `v 1.0 2.0 3.0` followed by 86 spaces
and an `x`. The file truncated after its last newline is empty and loading it changes
nothing; loading the file itself parses its first 99 characters when the 100th is read
and puts the vertex `(1, 2, 3)` into the model. -/
theorem load_unterminated_counterexample :
    load (fun p => if p = "a.obj".toList
        then some ("v 1.0 2.0 3.0".toList ++ List.replicate 86 ' ' ++ ['x']) else none)
      (fun _ => ⟨9, 9, 9, 9, 9, 9, 9, 9, 9, 9, 9, 9, 9⟩) "a.obj".toList FileType.OBJ_FILE
      ⟨⟨⟨[], [], [], [], [], [], false⟩, []⟩, ⟨[]⟩⟩ =
      some (true, ⟨⟨⟨[⟨1, 2, 3⟩], [], [], [], [], [], false⟩, []⟩, ⟨[]⟩⟩)
    ∧ load (fun p => if p = "a.obj".toList then some [] else none)
      (fun _ => ⟨9, 9, 9, 9, 9, 9, 9, 9, 9, 9, 9, 9, 9⟩) "a.obj".toList FileType.OBJ_FILE
      ⟨⟨⟨[], [], [], [], [], [], false⟩, []⟩, ⟨[]⟩⟩ =
      some (true, ⟨⟨⟨[], [], [], [], [], [], false⟩, []⟩, ⟨[]⟩⟩) := by
  constructor <;> decide!

/-- C30, amended: when what follows the last newline of a file has fewer than 100
characters, the loop of `load` does on the file what it does on the file truncated just
after its last newline, whatever the line parser; and on a file of fewer than 100
characters without a newline it parses nothing and changes nothing. -/
theorem readLoop_final_line (parse : Nat → List Char → World → Option World)
    (tail : List Char) (h : ∀ c ∈ tail, c ≠ '\n') (hlen : tail.length < 100) :
    (∀ (pre : List Char) (k : Nat) (buf : List Char) (w : World),
      readLoop parse (pre ++ '\n' :: tail) k buf w = readLoop parse (pre ++ ['\n']) k buf w)
    ∧ (∀ (k : Nat) (w : World), readLoop parse tail k [] w = some w) :=
  ⟨readLoop_unterminated parse tail h hlen,
    fun k w => readLoop_tail parse tail k [] w h (by simp; omega)⟩

/-- Witness of C30 (amended) on the text `v 1.0 2.0 3.0`, a newline, `v 4.0 5.0 6.0`. -/
theorem readLoop_final_line_witness :
    (∀ (pre : List Char) (k : Nat) (buf : List Char) (w : World),
      readLoop (fun _ => parseObjectFile (fun _ => none)
          (fun _ => ⟨9, 9, 9, 9, 9, 9, 9, 9, 9, 9, 9, 9, 9⟩)
          ⟨9, 9, 9, 9, 9, 9, 9, 9, 9, 9, 9, 9, 9⟩)
        (pre ++ '\n' :: "v 4.0 5.0 6.0".toList) k buf w =
      readLoop (fun _ => parseObjectFile (fun _ => none)
          (fun _ => ⟨9, 9, 9, 9, 9, 9, 9, 9, 9, 9, 9, 9, 9⟩)
          ⟨9, 9, 9, 9, 9, 9, 9, 9, 9, 9, 9, 9, 9⟩) (pre ++ ['\n']) k buf w)
    ∧ (∀ (k : Nat) (w : World),
      readLoop (fun _ => parseObjectFile (fun _ => none)
          (fun _ => ⟨9, 9, 9, 9, 9, 9, 9, 9, 9, 9, 9, 9, 9⟩)
          ⟨9, 9, 9, 9, 9, 9, 9, 9, 9, 9, 9, 9, 9⟩) "v 4.0 5.0 6.0".toList k [] w = some w) :=
  readLoop_final_line _ "v 4.0 5.0 6.0".toList (by decide) (by decide)

end WFLoader
